import Mathlib

/-!
Verification of the B+ language core pipeline (lexer, Pratt parser,
tree-walking evaluator) against its natural-language specification.

The definitions below are a shallow embedding of the Rust sources in
`compiler/src/{token,lexer,ast,parser,environment,evaluator}.rs`:

* Pure Rust functions become Lean functions with the same names.
* `&mut` state (lexer scan state, parser token cursor, environment) becomes
  explicit state passing.
* Machine integers (`i64`) are modelled as unbounded `Int`; integer overflow
  is deliberately left unbounded because the specification (§9) declares
  overflow behaviour undefined/host-dependent.  The one defined failure of
  Rust integer arithmetic that matters here, division by zero, is modelled
  explicitly as a `fault` (a Rust panic that escapes `eval`).
* Rust's lazily pulled token stream is materialised eagerly (`tokenize`);
  the lexer is deterministic and independent of the parser, so this is
  extensionally identical.
* Loops and recursion that Lean cannot see terminating are driven by an
  explicit fuel parameter; lexer-level loops always terminate within
  `input.length + 2` steps, so their wrappers supply that fuel internally.
* Source text is modelled as `List Char`.  The Rust lexer scans bytes; on
  ASCII input (`c.toNat < 128`, which covers every input appearing in the
  claims) the two views coincide character for character.
-/

namespace BPlus

/-- Enum of token types, translated from `TokenType` in `token.rs`. -/
inductive TokenType where
  | Illegal
  | Eof
  | Ident
  | Int
  | Float
  | Double
  | Complex
  | Decimal
  | Bool
  | Vector
  | Matrix
  | Char
  | List
  | Set
  | String
  | Object
  | Assign
  | Plus
  | Minus
  | Bang
  | Asterisk
  | Slash
  | Lt
  | Gt
  | Eq
  | LtEq
  | GtEq
  | NotEq
  | Ampersand
  | Pipe
  | Caret
  | Tilde
  | ShiftLeft
  | ShiftRight
  | Comma
  | Semicolon
  | LParen
  | RParen
  | LBrace
  | RBrace
  | LBracket
  | RBracket
  | Fullstop
  | Colon
  | Function
  | Dhoro
  | Temp
  | Ha
  | Na
  | Jodi
  | Hoy
  | Tahole
  | Nahoy
  | Othoba
  | Ebong
  | ReturnKoro
  | Dekhao
  | InputNao
  | Shomoy
  | EkLineMontobbo
  | BohuLineMontobboShuru
  | BohuLineMontobboShesh
  | Jotokhon
  | AgeKoro
  | ErJonno
  | ProtitarJonno
  | Choluk
  | Thamo
  | Jekhane
  | Protibar
  | ImportKoro
  | ExportKoro
  | Module
  | EiHisebe
  | CheshtaKoro
  | DhoreFelo
  | Oboseshe
  | ThrowKoro
  | TypeBanao
  | Dhoroner
  | Kisuna
  | Talika
  | Arrow
  | DoubleColon
  | OpekkhaKoro
  | ShomoyNiropekho
  deriving DecidableEq, Repr

/-- Debug rendering of a token type, mirroring the derived `Debug`
representation used by the parser's `format!("{:?}", ...)` diagnostics. -/
def dbgTokenType : TokenType → String
  | .Illegal => "Illegal"
  | .Eof => "Eof"
  | .Ident => "Ident"
  | .Int => "Int"
  | .Float => "Float"
  | .Double => "Double"
  | .Complex => "Complex"
  | .Decimal => "Decimal"
  | .Bool => "Bool"
  | .Vector => "Vector"
  | .Matrix => "Matrix"
  | .Char => "Char"
  | .List => "List"
  | .Set => "Set"
  | .String => "String"
  | .Object => "Object"
  | .Assign => "Assign"
  | .Plus => "Plus"
  | .Minus => "Minus"
  | .Bang => "Bang"
  | .Asterisk => "Asterisk"
  | .Slash => "Slash"
  | .Lt => "Lt"
  | .Gt => "Gt"
  | .Eq => "Eq"
  | .LtEq => "LtEq"
  | .GtEq => "GtEq"
  | .NotEq => "NotEq"
  | .Ampersand => "Ampersand"
  | .Pipe => "Pipe"
  | .Caret => "Caret"
  | .Tilde => "Tilde"
  | .ShiftLeft => "ShiftLeft"
  | .ShiftRight => "ShiftRight"
  | .Comma => "Comma"
  | .Semicolon => "Semicolon"
  | .LParen => "LParen"
  | .RParen => "RParen"
  | .LBrace => "LBrace"
  | .RBrace => "RBrace"
  | .LBracket => "LBracket"
  | .RBracket => "RBracket"
  | .Fullstop => "Fullstop"
  | .Colon => "Colon"
  | .Function => "Function"
  | .Dhoro => "Dhoro"
  | .Temp => "Temp"
  | .Ha => "Ha"
  | .Na => "Na"
  | .Jodi => "Jodi"
  | .Hoy => "Hoy"
  | .Tahole => "Tahole"
  | .Nahoy => "Nahoy"
  | .Othoba => "Othoba"
  | .Ebong => "Ebong"
  | .ReturnKoro => "ReturnKoro"
  | .Dekhao => "Dekhao"
  | .InputNao => "InputNao"
  | .Shomoy => "Shomoy"
  | .EkLineMontobbo => "EkLineMontobbo"
  | .BohuLineMontobboShuru => "BohuLineMontobboShuru"
  | .BohuLineMontobboShesh => "BohuLineMontobboShesh"
  | .Jotokhon => "Jotokhon"
  | .AgeKoro => "AgeKoro"
  | .ErJonno => "ErJonno"
  | .ProtitarJonno => "ProtitarJonno"
  | .Choluk => "Choluk"
  | .Thamo => "Thamo"
  | .Jekhane => "Jekhane"
  | .Protibar => "Protibar"
  | .ImportKoro => "ImportKoro"
  | .ExportKoro => "ExportKoro"
  | .Module => "Module"
  | .EiHisebe => "EiHisebe"
  | .CheshtaKoro => "CheshtaKoro"
  | .DhoreFelo => "DhoreFelo"
  | .Oboseshe => "Oboseshe"
  | .ThrowKoro => "ThrowKoro"
  | .TypeBanao => "TypeBanao"
  | .Dhoroner => "Dhoroner"
  | .Kisuna => "Kisuna"
  | .Talika => "Talika"
  | .Arrow => "Arrow"
  | .DoubleColon => "DoubleColon"
  | .OpekkhaKoro => "OpekkhaKoro"
  | .ShomoyNiropekho => "ShomoyNiropekho"

/-- Token structure from `token.rs`: type, literal text and 1-indexed
source position. -/
structure Token where
  token_type : TokenType
  literal : String
  line : Nat
  column : Nat
  deriving DecidableEq, Repr

/-- Whitespace test matching Rust's `u8::is_ascii_whitespace`
(space, tab, line feed, form feed, carriage return). -/
def isAsciiWhitespace (c : Char) : Bool :=
  c = ' ' || c = '\t' || c = '\n' || c = Char.ofNat 12 || c = '\r'

/-- Splits a string on ASCII whitespace, dropping empty fragments,
modelling Rust's `str::split_whitespace` on ASCII text. -/
def splitWhitespaceAux : List Char → List Char → List (List Char)
  | [], acc => if acc.isEmpty then [] else [acc.reverse]
  | c :: cs, acc =>
    if isAsciiWhitespace c then
      if acc.isEmpty then splitWhitespaceAux cs []
      else acc.reverse :: splitWhitespaceAux cs []
    else
      splitWhitespaceAux cs (c :: acc)

/-- ASCII lowercase conversion of a string (Rust `str::to_lowercase`
restricted to ASCII, which covers every keyword). -/
def asciiLower (s : String) : String :=
  String.mk (s.data.map Char.toLower)

/-- Translation of `normalize_keyword` in `token.rs`: lowercase, then
collapse internal whitespace to single spaces. -/
def normalize_keyword (ident : String) : String :=
  String.intercalate " "
    ((splitWhitespaceAux (asciiLower ident).data []).map String.mk)

/-- Lookup in the `KEYWORDS` map of `token.rs`; `none` means the text is
not a keyword.  Every `map.insert` line of the source appears as one
match arm here. -/
def KEYWORDS_get (s : String) : Option TokenType :=
  match s with
  | "dhoro" => some .Dhoro
  | "dhori" => some .Dhoro
  | "monekori" => some .Dhoro
  | "monekoro" => some .Dhoro
  | "mone kori" => some .Dhoro
  | "mone koro" => some .Dhoro
  | "temp" => some .Temp
  | "temporary" => some .Temp
  | "changable" => some .Temp
  | "osthayi" => some .Temp
  | "mutable" => some .Temp
  | "mut" => some .Temp
  | "kaj" => some .Function
  | "fn" => some .Function
  | "function" => some .Function
  | "ha" => some .Ha
  | "thik" => some .Ha
  | "sotti" => some .Ha
  | "shotti" => some .Ha
  | "true" => some .Ha
  | "shotto" => some .Ha
  | "sotto" => some .Ha
  | "na" => some .Na
  | "mitthe" => some .Na
  | "mittha" => some .Na
  | "false" => some .Na
  | "thik noy" => some .Na
  | "thiknoy" => some .Na
  | "vul" => some .Na
  | "bhul" => some .Na
  | "jodi" => some .Jodi
  | "hoy" => some .Hoy
  | "hoye" => some .Hoy
  | "hoyethake" => some .Hoy
  | "hoye thake" => some .Hoy
  | "tahole" => some .Tahole
  | "tobe" => some .Tahole
  | "nahoy" => some .Nahoy
  | "nahole" => some .Nahoy
  | "noyto" => some .Nahoy
  | "noile" => some .Nahoy
  | "ebong" => some .Ebong
  | "and" => some .Ebong
  | "othoba" => some .Othoba
  | "ba" => some .Othoba
  | "or" => some .Othoba
  | "ferot" => some .ReturnKoro
  | "ferot koro" => some .ReturnKoro
  | "return koro" => some .ReturnKoro
  | "return" => some .ReturnKoro
  | "dekhao" => some .Dekhao
  | "print" => some .Dekhao
  | "show koro" => some .Dekhao
  | "input nao" => some .InputNao
  | "input" => some .InputNao
  | "input nao koro" => some .InputNao
  | "nibho" => some .InputNao
  | "shomoy" => some .Shomoy
  | "time" => some .Shomoy
  | "somoy" => some .Shomoy
  | "//" => some .EkLineMontobbo
  | "#" => some .EkLineMontobbo
  | "/*" => some .BohuLineMontobboShuru
  | "//--" => some .BohuLineMontobboShuru
  | "<!--" => some .BohuLineMontobboShuru
  | "<comment>" => some .BohuLineMontobboShuru
  | "<cmnt>" => some .BohuLineMontobboShuru
  | "<montobbo>" => some .BohuLineMontobboShuru
  | "*/" => some .BohuLineMontobboShesh
  | "--//" => some .BohuLineMontobboShesh
  | "-->" => some .BohuLineMontobboShesh
  | "--!>" => some .BohuLineMontobboShesh
  | "</comment>" => some .BohuLineMontobboShesh
  | "</cmnt>" => some .BohuLineMontobboShesh
  | "</montobbo>" => some .BohuLineMontobboShesh
  | "jotokhon" => some .Jotokhon
  | "jotokhon porjonto" => some .Jotokhon
  | "age koro" => some .AgeKoro
  | "agekoro" => some .AgeKoro
  | "er jonno" => some .ErJonno
  | "erjonno" => some .ErJonno
  | "protitar jonno" => some .ProtitarJonno
  | "protitarjonno" => some .ProtitarJonno
  | "choluk" => some .Choluk
  | "thamo" => some .Thamo
  | "bhango" => some .Thamo
  | "jekhane" => some .Jekhane
  | "protibar" => some .Protibar
  | "amdani koro" => some .ImportKoro
  | "import" => some .ImportKoro
  | "import koro" => some .ImportKoro
  | "roptani koro" => some .ExportKoro
  | "export" => some .ExportKoro
  | "export koro" => some .ExportKoro
  | "module" => some .Module
  | "ei hisebe" => some .EiHisebe
  | "as" => some .EiHisebe
  | "try koro" => some .CheshtaKoro
  | "try" => some .CheshtaKoro
  | "cheshta koro" => some .CheshtaKoro
  | "dhore felo" => some .DhoreFelo
  | "catch" => some .DhoreFelo
  | "oboseshe" => some .Oboseshe
  | "finally" => some .Oboseshe
  | "felo" => some .ThrowKoro
  | "throw" => some .ThrowKoro
  | "throw koro" => some .ThrowKoro
  | "type banao" => some .TypeBanao
  | "type gothon koro" => some .TypeBanao
  | "nirdharon koro" => some .TypeBanao
  | "type dao" => some .TypeBanao
  | "dhoron ber koro" => some .Dhoroner
  | "type nirnoy koro" => some .Dhoroner
  | "typeof" => some .Dhoroner
  | "kisuna" => some .Kisuna
  | "nil" => some .Kisuna
  | "null" => some .Kisuna
  | "none" => some .Kisuna
  | "opekkha" => some .OpekkhaKoro
  | "opekkha koro" => some .OpekkhaKoro
  | "await" => some .OpekkhaKoro
  | "shomoy niropekkho" => some .ShomoyNiropekho
  | "asynchronous" => some .ShomoyNiropekho
  | "async" => some .ShomoyNiropekho
  | _ => none

/-- Translation of `lookup_ident` in `token.rs`: exact lookup first, then
the normalized variant, falling back to `Ident`. -/
def lookup_ident (ident : String) : TokenType :=
  match KEYWORDS_get ident with
  | some t => t
  | none =>
    match KEYWORDS_get (normalize_keyword ident) with
    | some t => t
    | none => .Ident

/-- NUL character, the lexer's end-of-input sentinel (`self.ch = 0`). -/
def nulChar : Char := Char.ofNat 0

/-- Opening brace character. -/
def lbraceChar : Char := Char.ofNat 123

/-- Closing brace character. -/
def rbraceChar : Char := Char.ofNat 125

/-- Single-quote character. -/
def squoteChar : Char := Char.ofNat 39

/-- Double-quote character. -/
def dquoteChar : Char := Char.ofNat 34

/-- Backslash character. -/
def backslashChar : Char := Char.ofNat 92

/-- Lexer scan state from `lexer.rs`.  The `token_start_line/column`
fields of the Rust struct are only ever used locally within one
`next_token` call, so they are modelled as local bindings there. -/
structure Lexer where
  input : List Char
  position : Nat
  read_position : Nat
  ch : Char
  line : Nat
  column : Nat
  deriving Repr, DecidableEq

/-- Translation of `Lexer::read_char`: load the byte at `read_position`
(NUL past the end), advance, and update the line/column counters. -/
def read_char (l : Lexer) : Lexer :=
  let c := if l.read_position ≥ l.input.length then nulChar
           else l.input.getD l.read_position nulChar
  let l' := { l with ch := c, position := l.read_position,
                     read_position := l.read_position + 1 }
  if c = '\n' then { l' with line := l'.line + 1, column := 0 }
  else { l' with column := l'.column + 1 }

/-- Translation of `Lexer::new`: zeroed state followed by the initial
`read_char`. -/
def lexerNew (input : List Char) : Lexer :=
  read_char { input := input, position := 0, read_position := 0,
              ch := nulChar, line := 1, column := 0 }

/-- Translation of `Lexer::peek_char`. -/
def peek_char (l : Lexer) : Char :=
  if l.read_position ≥ l.input.length then nulChar
  else l.input.getD l.read_position nulChar

/-- Translation of `Lexer::peek_n_chars`: up to `n` characters starting
right after the current position. -/
def peek_n_chars (l : Lexer) (n : Nat) : String :=
  String.mk ((l.input.drop (l.position + 1)).take n)

/-- Loop body of `skip_whitespace`; the fuel argument only bounds the
iteration count and is always supplied ample (see `skip_whitespace`). -/
def skip_whitespaceGo : Nat → Lexer → Lexer
  | 0, l => l
  | fuel + 1, l =>
    if isAsciiWhitespace l.ch then skip_whitespaceGo fuel (read_char l) else l

/-- Translation of `Lexer::skip_whitespace`.  Each iteration advances the
scan position, so `input.length + 1` iterations always suffice. -/
def skip_whitespace (l : Lexer) : Lexer :=
  skip_whitespaceGo (l.input.length + 1) l

/-- Loop body of `skip_single_line_comment`. -/
def skip_single_line_commentGo : Nat → Lexer → Lexer
  | 0, l => l
  | fuel + 1, l =>
    if l.ch ≠ '\n' ∧ l.ch ≠ nulChar then
      skip_single_line_commentGo fuel (read_char l)
    else l

/-- Translation of `Lexer::skip_single_line_comment`. -/
def skip_single_line_comment (l : Lexer) : Lexer :=
  skip_single_line_commentGo (l.input.length + 1) l

/-- Loop body of `skip_multi_line_comment`: returns the error message for
an unterminated comment (also used, unreachably, on fuel exhaustion)
together with the final scan state. -/
def skip_multi_line_commentGo (startStr : String) (endChars : List Char) :
    Nat → Nat → Lexer → Option String × Lexer
  | 0, _, l =>
    (some ("Unterminated multi-line comment starting with " ++ startStr), l)
  | fuel + 1, end_matched, l =>
    if l.ch = nulChar then
      (some ("Unterminated multi-line comment starting with " ++ startStr), l)
    else if l.ch = endChars.getD end_matched nulChar then
      if end_matched + 1 = endChars.length then (none, read_char l)
      else skip_multi_line_commentGo startStr endChars fuel (end_matched + 1)
        (read_char l)
    else skip_multi_line_commentGo startStr endChars fuel 0 (read_char l)

/-- Translation of `Lexer::skip_multi_line_comment`; `none` in the first
component means success. -/
def skip_multi_line_comment (startStr : String) (endChars : List Char)
    (l : Lexer) : Option String × Lexer :=
  skip_multi_line_commentGo startStr endChars (l.input.length + 1) 0 l

/-- Escape decoding used by `read_string` (`\n`, `\t`, `\r`, `\"`, `\\`,
otherwise the character itself). -/
def escapeStringChar (c : Char) : Char :=
  if c = 'n' then '\n'
  else if c = 't' then '\t'
  else if c = 'r' then '\r'
  else if c = dquoteChar then dquoteChar
  else if c = backslashChar then backslashChar
  else c

/-- Escape decoding used by `read_char_literal` (`\n`, `\t`, `\r`, `\'`,
`\\`, otherwise the character itself). -/
def escapeCharLitChar (c : Char) : Char :=
  if c = 'n' then '\n'
  else if c = 't' then '\t'
  else if c = 'r' then '\r'
  else if c = squoteChar then squoteChar
  else if c = backslashChar then backslashChar
  else c

/-- Loop body of `read_string`; accumulates decoded characters in
reverse. -/
def read_stringGo : Nat → List Char → Lexer → Except String String × Lexer
  | 0, _, l => (.error "Unterminated string literal", l)
  | fuel + 1, acc, l =>
    if l.ch ≠ dquoteChar ∧ l.ch ≠ nulChar then
      if l.ch = backslashChar then
        let l2 := read_char l
        read_stringGo fuel (escapeStringChar l2.ch :: acc) (read_char l2)
      else
        read_stringGo fuel (l.ch :: acc) (read_char l)
    else if l.ch = dquoteChar then
      (.ok (String.mk acc.reverse), read_char l)
    else
      (.error "Unterminated string literal", l)

/-- Translation of `Lexer::read_string`: consume the opening quote, then
scan to the closing quote with escape decoding. -/
def read_string (l : Lexer) : Except String String × Lexer :=
  read_stringGo (l.input.length + 1) [] (read_char l)

/-- Translation of `Lexer::read_char_literal`. -/
def read_char_literal (l : Lexer) : Except String String × Lexer :=
  let l1 := read_char l
  if l1.ch = backslashChar then
    let l2 := read_char l1
    let e := escapeCharLitChar l2.ch
    let l3 := read_char l2
    if l3.ch = squoteChar then (.ok (String.mk [e]), read_char l3)
    else (.error "Unterminated char literal", l3)
  else if l1.ch ≠ nulChar ∧ l1.ch ≠ squoteChar then
    let l2 := read_char l1
    if l2.ch = squoteChar then (.ok (String.mk [l1.ch]), read_char l2)
    else (.error "Unterminated char literal", l2)
  else
    (.error "Empty or invalid char literal", l1)

/-- Translation of `Lexer::is_unicode_bengali_letter`: the character at
the current position lies in the Bengali Unicode block.  The Rust
original inspects the UTF-8 text at the byte position; on ASCII input
(all claims) both views agree. -/
def is_unicode_bengali_letter (l : Lexer) : Bool :=
  if l.position ≥ l.input.length then false
  else
    let c := l.input.getD l.position nulChar
    decide (0x980 ≤ c.toNat ∧ c.toNat ≤ 0x9FF)

/-- Identifier-continuation test from `read_identifier`'s loop guard:
ASCII letter, underscore, or Bengali letter. -/
def isIdentCharAt (l : Lexer) : Bool :=
  l.ch.isAlpha || l.ch = '_' || is_unicode_bengali_letter l

/-- Loop body of `read_identifier`. -/
def read_identifierGo : Nat → Lexer → Lexer
  | 0, l => l
  | fuel + 1, l =>
    if isIdentCharAt l then read_identifierGo fuel (read_char l) else l

/-- Translation of `Lexer::read_identifier`: scan the maximal identifier
run and return the consumed slice. -/
def read_identifier (l : Lexer) : String × Lexer :=
  let start_pos := l.position
  let l' := read_identifierGo (l.input.length + 1) l
  (String.mk ((l.input.drop start_pos).take (l'.position - start_pos)), l')

/-- Loop body of `read_number`, carrying the `has_dot`/`has_exp`/`has_i`
one-shot flags and the current token type exactly as in the source. -/
def read_numberGo : Nat → Bool → Bool → Bool → TokenType → Lexer →
    TokenType × Lexer
  | 0, _, _, _, tt, l => (tt, l)
  | fuel + 1, has_dot, has_exp, has_i, tt, l =>
    let c := l.ch
    if c.isDigit then
      read_numberGo fuel has_dot has_exp has_i tt (read_char l)
    else if c = '.' ∧ !has_dot ∧ !has_i then
      read_numberGo fuel true has_exp has_i .Float (read_char l)
    else if (c = 'e' ∨ c = 'E') ∧ !has_exp ∧ !has_i then
      read_numberGo fuel has_dot true has_i .Double (read_char l)
    else if (c = '+' ∨ c = '-') ∧ has_exp then
      read_numberGo fuel has_dot has_exp has_i tt (read_char l)
    else if c = 'i' ∧ !has_i then
      read_numberGo fuel has_dot has_exp true .Complex (read_char l)
    else if c = 'm' ∨ c = 'M' then
      read_numberGo fuel has_dot has_exp has_i .Decimal (read_char l)
    else (tt, l)

/-- Translation of `Lexer::read_number`: returns the scanned literal and
its token type. -/
def read_number (l : Lexer) : String × TokenType × Lexer :=
  let start_pos := l.position
  let (tt, l') := read_numberGo (l.input.length + 1) false false false .Int l
  (String.mk ((l.input.drop start_pos).take (l'.position - start_pos)), tt, l')

/-- Multi-word keyword lookahead loop from the identifier arm of
`next_token`: snapshot the scan state, peek one more word across
whitespace, accept the two-word candidate when it is a keyword, and
otherwise restore the snapshot and stop.  Note that when the character
after the skipped whitespace does not start an identifier the loop
breaks WITHOUT restoring the snapshot, exactly as in the source. -/
def ident_multiword_loopGo : Nat → String → TokenType → Lexer →
    String × TokenType × Lexer
  | 0, literal, tt, l => (literal, tt, l)
  | fuel + 1, literal, tt, l =>
    let saved_pos := l.position
    let saved_read := l.read_position
    let saved_ch := l.ch
    let saved_line := l.line
    let saved_column := l.column
    let l1 := skip_whitespace l
    if l1.ch.isAlpha || l1.ch = '_' || is_unicode_bengali_letter l1 then
      let (next_word, l2) := read_identifier l1
      let candidate := literal ++ " " ++ next_word
      let candidate_type := lookup_ident candidate
      if candidate_type ≠ TokenType.Ident then
        ident_multiword_loopGo fuel candidate candidate_type l2
      else
        (literal, tt,
          { l2 with position := saved_pos, read_position := saved_read,
                    ch := saved_ch, line := saved_line,
                    column := saved_column })
    else
      (literal, tt, l1)

/-- Main token dispatch of `next_token` (the `match self.ch` block plus
the trailing `self.read_char()` executed by every arm that does not
`return` early — including the identifier arm, which therefore consumes
one extra character after each identifier-like token).  `tsl`/`tsc` are
the token start line/column recorded after whitespace skipping. -/
def next_token_match (tsl tsc : Nat) (l : Lexer) : Token × Lexer :=
  if l.ch = '=' then
    if peek_char l = '=' then
      (Token.mk .Eq "==" tsl tsc, read_char (read_char l))
    else (Token.mk .Assign "=" tsl tsc, read_char l)
  else if l.ch = ';' then (Token.mk .Semicolon ";" tsl tsc, read_char l)
  else if l.ch = '(' then (Token.mk .LParen "(" tsl tsc, read_char l)
  else if l.ch = ')' then (Token.mk .RParen ")" tsl tsc, read_char l)
  else if l.ch = ',' then (Token.mk .Comma "," tsl tsc, read_char l)
  else if l.ch = '+' then (Token.mk .Plus "+" tsl tsc, read_char l)
  else if l.ch = '-' then (Token.mk .Minus "-" tsl tsc, read_char l)
  else if l.ch = '!' then
    if peek_char l = '=' then
      (Token.mk .NotEq "!=" tsl tsc, read_char (read_char l))
    else (Token.mk .Bang "!" tsl tsc, read_char l)
  else if l.ch = '/' then (Token.mk .Slash "/" tsl tsc, read_char l)
  else if l.ch = '*' then (Token.mk .Asterisk "*" tsl tsc, read_char l)
  else if l.ch = squoteChar then
    match read_char_literal l with
    | (.ok lit, l') => (Token.mk .Char lit tsl tsc, l')
    | (.error e, l') => (Token.mk .Illegal e tsl tsc, l')
  else if l.ch = '<' then
    if peek_char l = '<' then
      (Token.mk .ShiftLeft "<<" tsl tsc, read_char (read_char l))
    else (Token.mk .Lt "<" tsl tsc, read_char l)
  else if l.ch = '>' then
    if peek_char l = '>' then
      (Token.mk .ShiftRight ">>" tsl tsc, read_char (read_char l))
    else (Token.mk .Gt ">" tsl tsc, read_char l)
  else if l.ch = lbraceChar then
    (Token.mk .LBrace (String.mk [lbraceChar]) tsl tsc, read_char l)
  else if l.ch = rbraceChar then
    (Token.mk .RBrace (String.mk [rbraceChar]) tsl tsc, read_char l)
  else if l.ch = dquoteChar then
    match read_string l with
    | (.ok lit, l') => (Token.mk .String lit tsl tsc, l')
    | (.error e, l') => (Token.mk .Illegal e tsl tsc, l')
  else if l.ch = '.' then (Token.mk .Fullstop "." tsl tsc, read_char l)
  else if isIdentCharAt l then
    let (first_word, l1) := read_identifier l
    let (literal, token_type, l2) :=
      ident_multiword_loopGo (l.input.length + 2) first_word
        (lookup_ident first_word) l1
    (Token.mk token_type literal tsl tsc, read_char l2)
  else if l.ch.isDigit then
    let (literal, token_type, l') := read_number l
    (Token.mk token_type literal tsl tsc, l')
  else if l.ch = nulChar then (Token.mk .Eof "" tsl tsc, read_char l)
  else
    (Token.mk .Illegal (String.mk [l.ch]) tsl tsc, read_char l)

/-- One pass of `Lexer::next_token`: skip whitespace, dispatch the
comment-skipping chain (restarting tokenisation — the `recur` parameter
— after a comment), then run the main dispatch. -/
def next_tokenStep (recur : Lexer → Token × Lexer) (l0 : Lexer) :
    Token × Lexer :=
    let l := skip_whitespace l0
    let tsl := l.line
    let tsc := l.column
    if l.ch = '/' then
      if peek_char l = '/' then
        recur (skip_single_line_comment (read_char (read_char l)))
      else if peek_char l = '*' then
        match skip_multi_line_comment "/*" ['*', '/'] (read_char (read_char l)) with
        | (some err, l') => (Token.mk .Illegal err tsl tsc, l')
        | (none, l') => recur l'
      else next_token_match tsl tsc l
    else if l.ch = '#' then
      recur (skip_single_line_comment (read_char l))
    else if l.ch = '-' ∧ peek_char l = '-' then
      recur (skip_single_line_comment (read_char (read_char l)))
    else if l.ch = '=' then
      if peek_n_chars l 5 = "begin" then
        match skip_multi_line_comment "=begin" ['=', 'e', 'n', 'd']
            (read_char (read_char (read_char (read_char (read_char (read_char l)))))) with
        | (some err, l') => (Token.mk .Illegal err tsl tsc, l')
        | (none, l') => recur l'
      else next_token_match tsl tsc l
    else if l.ch = lbraceChar ∧ peek_char l = '-' then
      match skip_multi_line_comment (String.mk [lbraceChar, '-'])
          ['-', rbraceChar] (read_char (read_char l)) with
      | (some err, l') => (Token.mk .Illegal err tsl tsc, l')
      | (none, l') => recur l'
    else if l.ch = '(' ∧ peek_char l = '*' then
      match skip_multi_line_comment "(*" ['*', ')'] (read_char (read_char l)) with
      | (some err, l') => (Token.mk .Illegal err tsl tsc, l')
      | (none, l') => recur l'
    else if l.ch = dquoteChar then
      if peek_n_chars l 2 = String.mk [dquoteChar, dquoteChar] then
        match skip_multi_line_comment (String.mk [dquoteChar, dquoteChar, dquoteChar])
            [dquoteChar, dquoteChar, dquoteChar]
            (read_char (read_char (read_char l))) with
        | (some err, l') => (Token.mk .Illegal err tsl tsc, l')
        | (none, l') => recur l'
      else next_token_match tsl tsc l
    else if l.ch = squoteChar then
      if peek_n_chars l 2 = String.mk [squoteChar, squoteChar] then
        match skip_multi_line_comment (String.mk [squoteChar, squoteChar, squoteChar])
            [squoteChar, squoteChar, squoteChar]
            (read_char (read_char (read_char l))) with
        | (some err, l') => (Token.mk .Illegal err tsl tsc, l')
        | (none, l') => recur l'
      else next_token_match tsl tsc l
    else next_token_match tsl tsc l

/-- Translation of `Lexer::next_token`'s restart loop: the fuel bounds
only the comment restarts, each of which consumes at least two
characters. -/
def next_tokenGo : Nat → Lexer → Token × Lexer
  | 0, l => (Token.mk .Eof "" l.line l.column, l)
  | fuel + 1, l0 => next_tokenStep (next_tokenGo fuel) l0

/-- Fuel-wrapped `next_token`; the input length bounds the number of
comment restarts. -/
def next_token (l : Lexer) : Token × Lexer :=
  next_tokenGo (l.input.length + 2) l

/-- Loop body of `tokenize`. -/
def tokenizeGo : Nat → Lexer → List Token
  | 0, _ => []
  | fuel + 1, l =>
    let (tok, l') := next_token l
    if tok.token_type = TokenType.Eof then [tok]
    else tok :: tokenizeGo fuel l'

/-- Materialises the lazily pulled token stream of the Rust parser: run
`next_token` repeatedly up to and including the first `Eof` token.  Each
emitted token consumes at least one input character, so `input.length +
2` pulls always suffice. -/
def tokenize (input : List Char) : List Token :=
  tokenizeGo (input.length + 2) (lexerNew input)

mutual

/-- Statement nodes translated from `ast.rs` (`enum Statement`).  `For`'s
`init` is `Option<Box<Statement>>` in the source. -/
inductive Statement where
  | Let (name : Expression) (value : Expression)
  | Return (return_value : Expression)
  | ExpressionStatement (expression : Expression)
  | CommentSingleLine (content : String)
  | CommentMultiLine (content : String)
  | While (condition : Expression) (body : List Statement)
  | For (init : Option Statement) (condition : Option Expression)
        (update : Option Expression) (body : List Statement)
  | Break
  | Continue

/-- Expression nodes translated from `ast.rs` (`enum Expression`).  The
`TemplateLiteral` variant is referenced by `parser.rs` and
`evaluator.rs` but absent from the `ast.rs` revision in the snapshot;
it is modelled from the spec (§3: `TemplateLiteral{parts:
[Expression]}`, parts concatenated after rendering). -/
inductive Expression where
  | Identifier (name : String)
  | IntegerLiteral (value : Int)
  | StringLiteral (value : String)
  | Boolean (value : Bool)
  | Prefix (operator : String) (right : Expression)
  | Infix (left : Expression) (operator : String) (right : Expression)
  | If (condition : Expression) (consequence : List Statement)
       (alternative : Option Expression)
  | FunctionLiteral (parameters : List Expression) (body : List Statement)
  | Call (function : Expression) (arguments : List Expression)
  | TemplateLiteral (parts : List Expression)

end

/-- Program type alias from `ast.rs`: an ordered list of statements. -/
def Program := List Statement

/-- Tags of the `BuiltinFunction` enum in `object.rs`. -/
inductive BuiltinFunctionTag where
  | Dekhao
  | Input
  | Shomoy
  | Print
  deriving DecidableEq, Repr

/-- Tags identifying the native builtin function pointers
(`Object::BuiltinNative`) registered by `Environment::new` in
`environment.rs` and by `get_builtin_native` in `object.rs`. -/
inductive NativeFn where
  | dekhao
  | input
  | shomoy
  | readkoro
  | writekoro
  | shuru_koro
  | bondho_koro
  | exitkoro
  | builtin_input
  | builtin_print
  deriving DecidableEq, Repr

mutual

/-- Runtime values translated from `object.rs` (`enum Object`).  `i64` is
modelled as unbounded `Int` (spec §9 declares overflow behaviour
undefined); the native-function pointer is modelled by a `NativeFn`
tag interpreted by `runNative`. -/
inductive Object where
  | Integer (i : Int)
  | Boolean (b : Bool)
  | String (s : String)
  | Null
  | ReturnValue (o : Object)
  | BuiltinFunction (b : BuiltinFunctionTag)
  | BuiltinNative (f : NativeFn)
  | Error (msg : String)
  | Function (parameters : List Expression) (body : List Statement)
             (env : Environment)

/-- Lexical environment translated from `environment.rs`: a binding map
plus an optional boxed outer scope.  The `HashMap` is modelled as an
association list where the most recent insertion shadows earlier ones,
which is observationally `HashMap::insert`.  Rust's `Environment` has
value (deep-clone) semantics — `#[derive(Clone)]` over `HashMap` and
`Box` — which the purely functional model shares. -/
inductive Environment where
  | mk (store : List (String × Object)) (outer : Option Environment)

end

/-- Store component of an environment. -/
def Environment.store : Environment → List (String × Object)
  | .mk s _ => s

/-- Outer-scope component of an environment. -/
def Environment.outer : Environment → Option Environment
  | .mk _ o => o

/-- Translation of `Environment::get`: current store first, then the
outer chain; first match wins. -/
def Environment.get : Environment → String → Option Object
  | .mk store outer, name =>
    match store.lookup name with
    | some obj => some obj
    | none =>
      match outer with
      | some o => o.get name
      | none => none

/-- Translation of `Environment::set`: insert (replacing any previous
binding of the name) in the current store.  Rust returns the inserted
value; the model returns the updated environment, the value being
unchanged. -/
def Environment.set (env : Environment) (name : String) (val : Object) :
    Environment :=
  .mk ((name, val) :: env.store) env.outer

/-- Translation of `Environment::new_enclosed`: fresh empty store with
the given outer scope. -/
def Environment.new_enclosed (outer : Environment) : Environment :=
  .mk [] (some outer)

/-- Behaviour of the native builtins registered in `Environment::new`.
The argument-count validation is translated exactly; printing is a
dropped side effect (the builtins return `Null` after printing).
Modelled from the spec for the IO-dependent results: `input` returns
the line read from stdin, `shomoy` a formatted clock reading,
`readkoro`/`writekoro` file contents/status, and `exitkoro` terminates
the process — none of which a pure model can produce, so those
unreachable-from-the-claims results are fixed placeholder values. -/
def runNative : NativeFn → List Object → Object
  | .dekhao, args =>
    if args.length ≠ 1 then
      .Error ("wrong number of arguments. got=" ++ toString args.length ++
        ", want=1")
    else .Null
  | .input, _ => .String ""
  | .shomoy, _ => .String ""
  | .readkoro, args =>
    if args.length ≠ 1 then
      .Error "readkoro() requires exactly one argument (filename)"
    else
      match args with
      | (.String _) :: _ => .Null
      | _ => .Error "readkoro() requires a string filename"
  | .writekoro, args =>
    if args.length ≠ 2 then
      .Error "writekoro() requires exactly two arguments (filename, content)"
    else
      match args with
      | (.String _) :: _ => .Null
      | _ => .Error "writekoro() requires a string filename as first argument"
  | .shuru_koro, _ => .Null
  | .bondho_koro, _ => .Null
  | .exitkoro, _ => .Null
  | .builtin_input, _ => .String ""
  | .builtin_print, _ => .Null

/-- Translation of `Environment::new`: root environment pre-seeded with
the native builtins, in the source's insertion order, and no outer
scope. -/
def environmentNew : Environment :=
  .mk [("dekhao", .BuiltinNative .dekhao),
       ("input", .BuiltinNative .input),
       ("shomoy", .BuiltinNative .shomoy),
       ("readkoro", .BuiltinNative .readkoro),
       ("writekoro", .BuiltinNative .writekoro),
       ("shuru_koro", .BuiltinNative .shuru_koro),
       ("bondho_koro", .BuiltinNative .bondho_koro),
       ("exitkoro", .BuiltinNative .exitkoro)] none

/-- Debug rendering of objects, mirroring the derived `Debug` output used
in the evaluator's `format!("{:?}", ...)` error messages.  The
`Function`/`BuiltinNative` renderings (full AST dump resp. function
pointer address in Rust) are abbreviated; no claim inspects them. -/
def dbgObject : Object → String
  | .Integer i => "Integer(" ++ toString i ++ ")"
  | .Boolean true => "Boolean(true)"
  | .Boolean false => "Boolean(false)"
  | .String s => "String(\"" ++ s ++ "\")"
  | .Null => "Null"
  | .ReturnValue o => "ReturnValue(" ++ dbgObject o ++ ")"
  | .BuiltinFunction _ => "BuiltinFunction(..)"
  | .BuiltinNative _ => "BuiltinNative(..)"
  | .Error m => "Error(\"" ++ m ++ "\")"
  | .Function _ _ _ => "Function(..)"

/-- Translation of `is_error` in `evaluator.rs`. -/
def is_error : Object → Bool
  | .Error _ => true
  | _ => false

/-- Translation of `is_truthy` in `evaluator.rs`: booleans as themselves,
`Null` false, the strings "Ha"/"Na" as true/false, everything else
(including `Integer(0)`) truthy. -/
def is_truthy : Object → Bool
  | .Boolean b => b
  | .Null => false
  | .String s => if s = "Ha" then true else if s = "Na" then false else true
  | _ => true

/-- Translation of `format_boolean` in `evaluator.rs`: top-level booleans
become the strings "Ha"/"Na", everything else passes through. -/
def format_boolean : Object → Object
  | .Boolean true => .String "Ha"
  | .Boolean false => .String "Na"
  | o => o

/-- Translation of `eval_bang_operator_expression` in `evaluator.rs`. -/
def eval_bang_operator_expression : Object → Object
  | .Boolean true => .Boolean false
  | .Boolean false => .Boolean true
  | .String s =>
    if s = "Ha" then .Boolean false
    else if s = "Na" then .Boolean true
    else .Boolean false
  | .Null => .Boolean true
  | _ => .Boolean false

/-- Translation of `eval_minus_prefix_operator_expression` in
`evaluator.rs`. -/
def eval_minus_prefix_operator_expression : Object → Object
  | .Integer val => .Integer (-val)
  | right => .Error ("unknown operator: -" ++ dbgObject right)

/-- Translation of `eval_prefix_expression` in `evaluator.rs`. -/
def eval_prefix_expression (operator : String) (right : Object) : Object :=
  match operator with
  | "!" => eval_bang_operator_expression right
  | "-" => eval_minus_prefix_operator_expression right
  | _ => .Error ("unknown operator: " ++ operator ++ dbgObject right)

/-- Translation of the nested `to_bool` helper of
`eval_infix_expression`. -/
def to_bool : Object → Option Bool
  | .Boolean b => some b
  | .String s =>
    if s = "Ha" then some true
    else if s = "Na" then some false
    else none
  | _ => none

/-- Translation of `eval_infix_expression` in `evaluator.rs`.  The
`.error` outcome models the Rust panic raised by `l / r` when `r = 0`
("attempt to divide by zero"); every other outcome is an ordinary
`Object`, including recoverable `Object.Error` values.  Integer
division truncates toward zero (`Int.div`), as in Rust. -/
def eval_infix_expression (operator : String) (left right : Object) :
    Except String Object :=
  match left, right with
  | .Integer l, .Integer r =>
    match operator with
    | "+" => .ok (.Integer (l + r))
    | "-" => .ok (.Integer (l - r))
    | "*" => .ok (.Integer (l * r))
    | "/" =>
      if r = 0 then .error "attempt to divide by zero"
      else .ok (.Integer (Int.tdiv l r))
    | "<" => .ok (.Boolean (decide (l < r)))
    | ">" => .ok (.Boolean (decide (l > r)))
    | "==" => .ok (.Boolean (decide (l = r)))
    | "!=" => .ok (.Boolean (decide (l ≠ r)))
    | _ =>
      .ok (.Error ("unknown operator: " ++ dbgObject left ++ " " ++
        operator ++ " " ++ dbgObject right))
  | .String l, .String r =>
    if operator = "+" then .ok (.String (l ++ r))
    else .ok (.Error ("unknown operator for strings: " ++ operator))
  | _, _ =>
    match to_bool left, to_bool right with
    | some lb, some rb =>
      match operator with
      | "==" => .ok (.Boolean (lb = rb))
      | "!=" => .ok (.Boolean (lb ≠ rb))
      | _ =>
        .ok (.Error ("unknown operator: " ++ dbgObject left ++ " " ++
          operator ++ " " ++ dbgObject right))
    | _, _ =>
      .ok (.Error ("type mismatch: " ++ dbgObject left ++ " " ++
        operator ++ " " ++ dbgObject right))

/-- Result of evaluating a statement or expression: a value together
with the updated environment (Rust mutates through `&mut Environment`),
a `fault` modelling a Rust panic escaping `eval`, or fuel exhaustion
(an artefact of the shallow embedding — source programs may loop
forever). -/
inductive Outcome where
  | ok (o : Object) (env : Environment)
  | fault (msg : String)
  | noFuel

/-- Result of `eval_expressions` (a list of argument values). -/
inductive OutcomeL where
  | okL (objs : List Object) (env : Environment)
  | faultL (msg : String)
  | noFuelL

/-- Result of `apply_function` (which does not expose an environment to
its caller). -/
inductive ApplyOutcome where
  | ok (o : Object)
  | fault (msg : String)
  | noFuel

/-- Parameter binding loop of `apply_function`: zip parameters with
arguments by position; extra arguments are ignored and missing
parameters are left unbound; non-identifier parameters are skipped. -/
def bind_params : List Expression → List Object → Environment → Environment
  | p :: ps, a :: rest, env =>
    match p with
    | .Identifier pname => bind_params ps rest (env.set pname a)
    | _ => bind_params ps rest env
  | _, _, env => env

mutual

/-- Translation of `eval_statement` in `evaluator.rs`. -/
def eval_statement : Nat → Statement → Environment → Outcome
  | 0, _, _ => .noFuel
  | fuel + 1, stmt, env =>
    match stmt with
    | .ExpressionStatement e => eval_expression fuel e env
    | .Let name value =>
      match eval_expression fuel value env with
      | .ok val env' =>
        if is_error val then .ok val env'
        else
          match name with
          | .Identifier ident_name => .ok .Null (env'.set ident_name val)
          | _ => .ok .Null env'
      | o => o
    | .Return return_value =>
      match eval_expression fuel return_value env with
      | .ok val env' =>
        if is_error val then .ok val env' else .ok (.ReturnValue val) env'
      | o => o
    | .CommentSingleLine _ => .ok .Null env
    | .CommentMultiLine _ => .ok .Null env
    | .While condition body => eval_while fuel condition body env
    | .For init condition update body =>
      match init with
      | some init_stmt =>
        match eval_statement fuel init_stmt env with
        | .ok r env' =>
          if is_error r then .ok r env'
          else eval_for fuel condition update body env'
        | o => o
      | none => eval_for fuel condition update body env
    | .Break => .ok .Null env
    | .Continue => .ok .Null env

/-- While-loop iteration of `eval_statement` (the source's `while
is_truthy(...)` loop); note the condition value is fed to `is_truthy`
without an error check, exactly as in the source. -/
def eval_while : Nat → Expression → List Statement → Environment → Outcome
  | 0, _, _, _ => .noFuel
  | fuel + 1, condition, body, env =>
    match eval_expression fuel condition env with
    | .ok cv env1 =>
      if is_truthy cv then
        match eval_block_statement fuel body env1 with
        | .ok r env2 =>
          match r with
          | .ReturnValue _ => .ok r env2
          | .Error _ => .ok r env2
          | _ => eval_while fuel condition body env2
        | o => o
      else .ok .Null env1
    | o => o

/-- For-loop iteration of `eval_statement`: condition (defaulting to
true when absent), body, then update, each iteration. -/
def eval_for : Nat → Option Expression → Option Expression →
    List Statement → Environment → Outcome
  | 0, _, _, _, _ => .noFuel
  | fuel + 1, condition, update, body, env =>
    let condRes : Outcome :=
      match condition with
      | some cond_expr =>
        match eval_expression fuel cond_expr env with
        | .ok cv env1 => .ok (.Boolean (is_truthy cv)) env1
        | o => o
      | none => .ok (.Boolean true) env
    match condRes with
    | .ok cv env1 =>
      if is_truthy cv then
        match eval_block_statement fuel body env1 with
        | .ok r env2 =>
          match r with
          | .ReturnValue _ => .ok r env2
          | .Error _ => .ok r env2
          | _ =>
            match update with
            | some upd_expr =>
              match eval_expression fuel upd_expr env2 with
              | .ok uv env3 =>
                if is_error uv then .ok uv env3
                else eval_for fuel condition update body env3
              | o => o
            | none => eval_for fuel condition update body env2
        | o => o
      else .ok .Null env1
    | o => o

/-- Translation of `eval_block_statement` in `evaluator.rs`: sequential
evaluation in the SAME environment (blocks do not open a child scope),
short-circuiting on `ReturnValue` or `Error`, returning the last
value. -/
def eval_block_statement : Nat → List Statement → Environment → Outcome
  | 0, _, _ => .noFuel
  | fuel + 1, stmts, env => eval_blockGo fuel stmts .Null env

/-- Loop of `eval_block_statement`, carrying the running `result`. -/
def eval_blockGo : Nat → List Statement → Object → Environment → Outcome
  | 0, _, _, _ => .noFuel
  | _ + 1, [], result, env => .ok result env
  | fuel + 1, s :: rest, _, env =>
    match eval_statement fuel s env with
    | .ok r env' =>
      match r with
      | .ReturnValue _ => .ok r env'
      | .Error _ => .ok r env'
      | _ => eval_blockGo fuel rest r env'
    | o => o

/-- Translation of `eval_expression` in `evaluator.rs`. -/
def eval_expression : Nat → Expression → Environment → Outcome
  | 0, _, _ => .noFuel
  | fuel + 1, expr, env =>
    match expr with
    | .IntegerLiteral value => .ok (.Integer value) env
    | .StringLiteral value => .ok (.String value) env
    | .Boolean value => .ok (.Boolean value) env
    | .Prefix operator right =>
      match eval_expression fuel right env with
      | .ok r env' =>
        if is_error r then .ok r env'
        else .ok (eval_prefix_expression operator r) env'
      | o => o
    | .Infix left operator right =>
      match eval_expression fuel left env with
      | .ok lv env1 =>
        if is_error lv then .ok lv env1
        else
          match eval_expression fuel right env1 with
          | .ok rv env2 =>
            if is_error rv then .ok rv env2
            else
              match eval_infix_expression operator lv rv with
              | .ok o => .ok o env2
              | .error m => .fault m
          | o => o
      | o => o
    | .Identifier name =>
      match env.get name with
      | some obj => .ok obj env
      | none => .ok (.Error ("identifier not found: " ++ name)) env
    | .If condition consequence alternative =>
      match eval_expression fuel condition env with
      | .ok cv env1 =>
        if is_error cv then .ok cv env1
        else if is_truthy cv then eval_block_statement fuel consequence env1
        else
          match alternative with
          | some alt_expr => eval_expression fuel alt_expr env1
          | none => .ok .Null env1
      | o => o
    | .FunctionLiteral parameters body =>
      .ok (.Function parameters body env) env
    | .Call function arguments =>
      match eval_expression fuel function env with
      | .ok function_obj env1 =>
        if is_error function_obj then .ok function_obj env1
        else
          match function with
          | .Identifier name =>
            if name = "dekhao" then
              match arguments.head? with
              | some (.TemplateLiteral parts) =>
                eval_dekhao_template fuel parts env1
              | _ => eval_dekhao_args fuel arguments env1
            else eval_call_fallback fuel function_obj arguments env1
          | _ => eval_call_fallback fuel function_obj arguments env1
      | o => o
    | .TemplateLiteral _ =>
      .fault "no evaluation rule for a bare template literal"

/-- Template-literal branch of the `dekhao` special case in
`eval_expression`'s `Call` arm: string parts pass through unevaluated,
other parts are evaluated; an `Error` value aborts, and the printed
output is a dropped side effect (the branch returns `Null`). -/
def eval_dekhao_template : Nat → List Expression → Environment → Outcome
  | 0, _, _ => .noFuel
  | _ + 1, [], env => .ok .Null env
  | fuel + 1, p :: rest, env =>
    let valRes : Outcome :=
      match p with
      | .StringLiteral s => .ok (.String s) env
      | e => eval_expression fuel e env
    match valRes with
    | .ok val env' =>
      match val with
      | .Error e => .ok (.Error e) env'
      | _ => eval_dekhao_template fuel rest env'
    | o => o

/-- Fallback argument loop of the `dekhao` special case: evaluate each
argument, aborting on the first `Error`, then print (dropped) and
return `Null`. -/
def eval_dekhao_args : Nat → List Expression → Environment → Outcome
  | 0, _, _ => .noFuel
  | _ + 1, [], env => .ok .Null env
  | fuel + 1, a :: rest, env =>
    match eval_expression fuel a env with
    | .ok val env' =>
      if is_error val then .ok val env'
      else
        match val with
        | .Error e => .ok (.Error e) env'
        | _ => eval_dekhao_args fuel rest env'
    | o => o

/-- Regular call path of `eval_expression`'s `Call` arm: evaluate the
arguments left to right, propagate a single error result, and apply
the function.  The environment produced inside `apply_function` is
dropped, exactly as the Rust caller drops `extended_env`. -/
def eval_call_fallback : Nat → Object → List Expression → Environment →
    Outcome
  | 0, _, _, _ => .noFuel
  | fuel + 1, function_obj, arguments, env =>
    match eval_expressions fuel arguments env with
    | .okL args env' =>
      if args.length = 1 ∧ is_error (args.getD 0 .Null) then
        .ok (args.getD 0 .Null) env'
      else
        match apply_function fuel function_obj args with
        | .ok o => .ok o env'
        | .fault m => .fault m
        | .noFuel => .noFuel
    | .faultL m => .fault m
    | .noFuelL => .noFuel

/-- Translation of `eval_expressions` in `evaluator.rs`: the first
`Error` value is returned as a singleton list. -/
def eval_expressions : Nat → List Expression → Environment → OutcomeL
  | 0, _, _ => .noFuelL
  | _ + 1, [], env => .okL [] env
  | fuel + 1, e :: rest, env =>
    match eval_expression fuel e env with
    | .ok v env' =>
      if is_error v then .okL [v] env'
      else
        match eval_expressions fuel rest env' with
        | .okL vs env'' => .okL (v :: vs) env''
        | o => o
    | .fault m => .faultL m
    | .noFuel => .noFuelL

/-- Translation of `apply_function` in `evaluator.rs`.  For a native
builtin the call sits inside a `panic::catch_unwind` fault-isolation
boundary; the modelled builtins are pure and never fault, so only the
`Ok` branch of that boundary is reachable.  For a user function a new
environment enclosing the CAPTURED environment is created, parameters
are bound positionally, the body is run as a block, and a
`ReturnValue` is unwrapped. -/
def apply_function : Nat → Object → List Object → ApplyOutcome
  | 0, _, _ => .noFuel
  | fuel + 1, func, args =>
    match func with
    | .BuiltinNative builtin_fn => .ok (runNative builtin_fn args)
    | .Function parameters body fenv =>
      let extended_env :=
        bind_params parameters args (Environment.new_enclosed fenv)
      match eval_block_statement fuel body extended_env with
      | .ok evaluated _ =>
        match evaluated with
        | .ReturnValue v => .ok v
        | _ => .ok evaluated
      | .fault m => .fault m
      | .noFuel => .noFuel
    | _ => .ok (.Error ("not a function: " ++ dbgObject func))

end

/-- Statement loop of the top-level `eval`, carrying the running result:
`ReturnValue` unwraps through `format_boolean`, `Error` returns as is,
and the final result also passes through `format_boolean`. -/
def evalGo : Nat → List Statement → Object → Environment → Outcome
  | _, [], result, env => .ok (format_boolean result) env
  | fuel, s :: rest, _, env =>
    match eval_statement fuel s env with
    | .ok r env' =>
      match r with
      | .ReturnValue v => .ok (format_boolean v) env'
      | .Error m => .ok (.Error m) env'
      | _ => evalGo fuel rest r env'
    | o => o

/-- Translation of the top-level `eval` in `evaluator.rs`. -/
def eval (fuel : Nat) (node : Program) (env : Environment) : Outcome :=
  evalGo fuel node .Null env

/-- Precedence levels from `parser.rs`, ordered by `precLevel`. -/
inductive Precedence where
  | LOWEST
  | EQUALS
  | LESSGREATER
  | SUM
  | PRODUCT
  | PREFIX
  | CALL
  deriving DecidableEq, Repr

/-- Numeric rank realising the derived `PartialOrd` of `Precedence`. -/
def precLevel : Precedence → Nat
  | .LOWEST => 0
  | .EQUALS => 1
  | .LESSGREATER => 2
  | .SUM => 3
  | .PRODUCT => 4
  | .PREFIX => 5
  | .CALL => 6

/-- Strict precedence comparison (`<` on the Rust enum). -/
def precLt (a b : Precedence) : Bool := precLevel a < precLevel b

/-- Translation of `Parser::get_precedence`. -/
def get_precedence : TokenType → Precedence
  | .Eq => .EQUALS
  | .NotEq => .EQUALS
  | .Lt => .LESSGREATER
  | .Gt => .LESSGREATER
  | .Plus => .SUM
  | .Minus => .SUM
  | .Slash => .PRODUCT
  | .Asterisk => .PRODUCT
  | .LParen => .CALL
  | .Ebong => .EQUALS
  | .Othoba => .EQUALS
  | _ => .LOWEST

/-- Parser state: the not-yet-consumed suffix of the (eagerly
materialised) token stream, with `cur_token` at the head and
`peek_token` second, plus the accumulated diagnostics.  The lexer keeps
producing `Eof` tokens once exhausted, which `eofToken` models. -/
structure PState where
  toks : List Token
  errors : List String

/-- Token produced by reading past the end of the stream. -/
def eofToken : Token := Token.mk .Eof "" 0 0

/-- Current token (`self.cur_token`). -/
def curToken (p : PState) : Token := p.toks.headD eofToken

/-- Lookahead token (`self.peek_token`). -/
def peekToken (p : PState) : Token := (p.toks.drop 1).headD eofToken

/-- Translation of `Parser::next_token`: shift the cursor by one. -/
def p_next_token (p : PState) : PState := { p with toks := p.toks.drop 1 }

/-- Translation of `Parser::cur_token_is`. -/
def cur_token_is (p : PState) (t : TokenType) : Bool :=
  (curToken p).token_type = t

/-- Translation of `Parser::peek_token_is`. -/
def peek_token_is (p : PState) (t : TokenType) : Bool :=
  (peekToken p).token_type = t

/-- Translation of `Parser::peek_error`: append a diagnostic naming the
expected and actual token kinds (their `Debug` renderings). -/
def peek_error (p : PState) (t : TokenType) : PState :=
  { p with errors := p.errors ++
      ["expected next token to be " ++ dbgTokenType t ++ ", got " ++
        dbgTokenType (peekToken p).token_type ++ " instead"] }

/-- Translation of `Parser::expect_peek`: advance on match, record a
diagnostic otherwise. -/
def expect_peek (p : PState) (t : TokenType) : Bool × PState :=
  if peek_token_is p t then (true, p_next_token p) else (false, peek_error p t)

/-- Translation of `Parser::no_prefix_parse_fn_error`. -/
def no_prefix_parse_fn_error (p : PState) (t : TokenType) : PState :=
  { p with errors := p.errors ++
      ["no prefix parse function for " ++ dbgTokenType t ++ " found"] }

/-- Translation of `Parser::peek_precedence`. -/
def peek_precedence (p : PState) : Precedence :=
  get_precedence (peekToken p).token_type

/-- Translation of `Parser::cur_precedence`. -/
def cur_precedence (p : PState) : Precedence :=
  get_precedence (curToken p).token_type

/-- Domain of the prefix-parse-function table registered in
`Parser::new` (`register_prefix` calls). -/
def prefix_parse_fn_exists : TokenType → Bool
  | .Ident | .Int | .String | .Bang | .Minus | .Ha | .Na | .Jodi
  | .Dekhao | .LParen | .Function | .InputNao => true
  | _ => false

/-- Domain of the infix-parse-function table registered in
`Parser::new` (`register_infix` calls). -/
def infix_parse_fn_exists : TokenType → Bool
  | .Plus | .Minus | .Slash | .Asterisk | .Eq | .NotEq | .Lt | .Gt
  | .Ebong | .Othoba | .LParen => true
  | _ => false

/-- Operator kinds admitted by the extra filter inside
`parse_logical_expression`'s loop. -/
def logical_chain_allowed : TokenType → Bool
  | .Ebong | .Othoba | .Eq | .NotEq | .Lt | .Gt | .LtEq | .GtEq
  | .Plus | .Minus | .Asterisk | .Slash => true
  | _ => false

/-- Rust `str::parse::<i64>`: optional sign, decimal digits, and an
`i64` range check. -/
def parseI64 (s : String) : Option Int :=
  let fold := fun (ds : List Char) =>
    (ds.foldl (fun acc c => acc * 10 + (c.toNat - '0'.toNat)) 0 : Nat)
  let signedVal : Option Int :=
    match s.data with
    | [] => none
    | '+' :: rest =>
      if rest ≠ [] ∧ rest.all Char.isDigit then some (fold rest) else none
    | '-' :: rest =>
      if rest ≠ [] ∧ rest.all Char.isDigit then some (-(fold rest : Int))
      else none
    | ds =>
      if ds.all Char.isDigit then some (fold ds) else none
  match signedVal with
  | some v =>
    if -(2 ^ 63) ≤ v ∧ v ≤ 2 ^ 63 - 1 then some v else none
  | none => none

/-- Result of a parser routine: `done` pairs the routine's `Option`
result with the updated parser state, `outOfFuel` is the embedding's
fuel artefact (the Rust recursion has no fuel). -/
inductive PRes (α : Type) where
  | done (val : Option α) (st : PState)
  | outOfFuel

mutual

/-- Translation of `Parser::parse_program`: loop to `Eof`, keeping every
successfully parsed statement and advancing one token regardless. -/
def parse_program : Nat → PState → PRes (List Statement)
  | 0, _ => .outOfFuel
  | fuel + 1, p =>
    if cur_token_is p .Eof then .done (some []) p
    else
      match parse_statement fuel p with
      | .done stmtOpt p1 =>
        match parse_program fuel (p_next_token p1) with
        | .done (some rest) p2 =>
          .done (some (match stmtOpt with
            | some s => s :: rest
            | none => rest)) p2
        | .done none p2 => .done none p2
        | .outOfFuel => .outOfFuel
      | .outOfFuel => .outOfFuel

/-- Translation of `Parser::parse_statement`: statement dispatch on the
current token type. -/
def parse_statement : Nat → PState → PRes Statement
  | 0, _ => .outOfFuel
  | fuel + 1, p =>
    match (curToken p).token_type with
    | .Dhoro => parse_let_statement fuel p
    | .ReturnKoro => parse_return_statement fuel p
    | _ => parse_expression_statement fuel p

/-- Translation of `Parser::parse_let_statement`. -/
def parse_let_statement : Nat → PState → PRes Statement
  | 0, _ => .outOfFuel
  | fuel + 1, p =>
    match expect_peek p .Ident with
    | (false, p1) => .done none p1
    | (true, p1) =>
      let name := Expression.Identifier (curToken p1).literal
      match expect_peek p1 .Assign with
      | (false, p2) => .done none p2
      | (true, p2) =>
        match parse_expression fuel .LOWEST (p_next_token p2) with
        | .done (some value) p3 =>
          let p4 := if peek_token_is p3 .Semicolon then p_next_token p3 else p3
          .done (some (.Let name value)) p4
        | .done none p3 => .done none p3
        | .outOfFuel => .outOfFuel

/-- Translation of `Parser::parse_return_statement`. -/
def parse_return_statement : Nat → PState → PRes Statement
  | 0, _ => .outOfFuel
  | fuel + 1, p =>
    match parse_expression fuel .LOWEST (p_next_token p) with
    | .done (some return_value) p1 =>
      let p2 := if peek_token_is p1 .Semicolon then p_next_token p1 else p1
      .done (some (.Return return_value)) p2
    | .done none p1 => .done none p1
    | .outOfFuel => .outOfFuel

/-- Translation of `Parser::parse_expression_statement`. -/
def parse_expression_statement : Nat → PState → PRes Statement
  | 0, _ => .outOfFuel
  | fuel + 1, p =>
    match parse_expression fuel .LOWEST p with
    | .done (some expr) p1 =>
      let p2 := if peek_token_is p1 .Semicolon then p_next_token p1 else p1
      .done (some (.ExpressionStatement expr)) p2
    | .done none p1 => .done none p1
    | .outOfFuel => .outOfFuel

/-- Translation of `Parser::parse_expression`: prefix dispatch (recording
a diagnostic when no handler is registered) followed by the
precedence-climbing infix loop. -/
def parse_expression : Nat → Precedence → PState → PRes Expression
  | 0, _, _ => .outOfFuel
  | fuel + 1, precedence, p =>
    if ¬ prefix_parse_fn_exists (curToken p).token_type then
      .done none (no_prefix_parse_fn_error p (curToken p).token_type)
    else
      match prefix_dispatch fuel p with
      | .done (some left_exp) p1 =>
        parse_expression_loop fuel precedence left_exp p1
      | .done none p1 => .done none p1
      | .outOfFuel => .outOfFuel

/-- While-loop of `parse_expression`: consume infix operators while the
lookahead is not a semicolon, binds tighter than the caller's minimum
precedence, and has a registered infix handler. -/
def parse_expression_loop : Nat → Precedence → Expression → PState →
    PRes Expression
  | 0, _, _, _ => .outOfFuel
  | fuel + 1, precedence, left_exp, p =>
    if ¬ peek_token_is p .Semicolon ∧ precLt precedence (peek_precedence p)
    then
      if ¬ infix_parse_fn_exists (peekToken p).token_type then
        .done (some left_exp) p
      else
        match infix_dispatch fuel left_exp (p_next_token p) with
        | .done (some left') p1 => parse_expression_loop fuel precedence left' p1
        | .done none p1 => .done none p1
        | .outOfFuel => .outOfFuel
    else .done (some left_exp) p

/-- Prefix-table dispatch of `parse_expression`, enumerating the
`register_prefix` entries of `Parser::new`. -/
def prefix_dispatch : Nat → PState → PRes Expression
  | 0, _ => .outOfFuel
  | fuel + 1, p =>
    match (curToken p).token_type with
    | .Ident => .done (some (.Identifier (curToken p).literal)) p
    | .Int => parse_integer_literal fuel p
    | .String => .done (some (.StringLiteral (curToken p).literal)) p
    | .Bang => parse_prefix_expression fuel p
    | .Minus => parse_prefix_expression fuel p
    | .Ha => .done (some (.Boolean true)) p
    | .Na => .done (some (.Boolean false)) p
    | .Jodi => parse_if_expression fuel p
    | .Dekhao => parse_print_expression fuel p
    | .LParen => parse_grouped_expression fuel p
    | .Function => parse_function_literal fuel p
    | .InputNao => parse_input_expression fuel p
    | _ => .done none p

/-- Infix-table dispatch: `(` applies a call, every other registered
operator is a binary infix. -/
def infix_dispatch : Nat → Expression → PState → PRes Expression
  | 0, _, _ => .outOfFuel
  | fuel + 1, left, p =>
    match (curToken p).token_type with
    | .LParen => parse_call_expression fuel left p
    | _ => parse_infix_expression fuel left p

/-- Translation of `Parser::parse_integer_literal` (Rust
`parse::<i64>` with a diagnostic on failure). -/
def parse_integer_literal : Nat → PState → PRes Expression
  | 0, _ => .outOfFuel
  | _ + 1, p =>
    match parseI64 (curToken p).literal with
    | some value => .done (some (.IntegerLiteral value)) p
    | none =>
      .done none { p with errors := p.errors ++
        ["could not parse " ++ (curToken p).literal ++ " as integer"] }

/-- Translation of `Parser::parse_prefix_expression`. -/
def parse_prefix_expression : Nat → PState → PRes Expression
  | 0, _ => .outOfFuel
  | fuel + 1, p =>
    let operator := (curToken p).literal
    match parse_expression fuel .PREFIX (p_next_token p) with
    | .done (some right) p1 => .done (some (.Prefix operator right)) p1
    | .done none p1 => .done none p1
    | .outOfFuel => .outOfFuel

/-- Translation of `Parser::parse_print_expression`: after consuming
`dekhao`, parse a grouped expression, a template literal, or a bare
expression, and wrap it as a call to the `dekhao` identifier. -/
def parse_print_expression : Nat → PState → PRes Expression
  | 0, _ => .outOfFuel
  | fuel + 1, p =>
    let p1 := p_next_token p
    let exprRes : PRes Expression :=
      match (curToken p1).token_type with
      | .LParen => parse_grouped_expression fuel p1
      | .LBrace =>
        match parse_template_literal fuel p1 with
        | .done (some parts) p2 => .done (some (.TemplateLiteral parts)) p2
        | .done none p2 => .done none p2
        | .outOfFuel => .outOfFuel
      | _ => parse_expression fuel .LOWEST p1
    match exprRes with
    | .done (some expr) p2 =>
      .done (some (.Call (.Identifier "dekhao") [expr])) p2
    | .done none p2 => .done none p2
    | .outOfFuel => .outOfFuel

/-- Translation of `Parser::parse_template_literal`: consume `{`, then
loop collecting parenthesised expressions and bare words until `}`. -/
def parse_template_literal : Nat → PState → PRes (List Expression)
  | 0, _ => .outOfFuel
  | fuel + 1, p => parse_template_literal_loop fuel (p_next_token p)

/-- Loop of `parse_template_literal`. -/
def parse_template_literal_loop : Nat → PState → PRes (List Expression)
  | 0, _ => .outOfFuel
  | fuel + 1, p =>
    if ¬ cur_token_is p .RBrace ∧ ¬ cur_token_is p .Eof then
      match (curToken p).token_type with
      | .LParen =>
        match parse_expression fuel .LOWEST (p_next_token p) with
        | .done (some expr) p1 =>
          match expect_peek p1 .RParen with
          | (false, p2) => .done none p2
          | (true, p2) =>
            match parse_template_literal_loop fuel (p_next_token p2) with
            | .done (some parts) p3 => .done (some (expr :: parts)) p3
            | .done none p3 => .done none p3
            | .outOfFuel => .outOfFuel
        | .done none p1 => .done none p1
        | .outOfFuel => .outOfFuel
      | .Ident =>
        match parse_template_literal_loop fuel (p_next_token p) with
        | .done (some parts) p1 =>
          .done (some (.StringLiteral (curToken p).literal :: parts)) p1
        | .done none p1 => .done none p1
        | .outOfFuel => .outOfFuel
      | .String =>
        match parse_template_literal_loop fuel (p_next_token p) with
        | .done (some parts) p1 =>
          .done (some (.StringLiteral (curToken p).literal :: parts)) p1
        | .done none p1 => .done none p1
        | .outOfFuel => .outOfFuel
      | .Int =>
        match parse_template_literal_loop fuel (p_next_token p) with
        | .done (some parts) p1 =>
          .done (some (.StringLiteral (curToken p).literal :: parts)) p1
        | .done none p1 => .done none p1
        | .outOfFuel => .outOfFuel
      | _ =>
        match parse_template_literal_loop fuel (p_next_token p) with
        | .done (some parts) p1 => .done (some parts) p1
        | .done none p1 => .done none p1
        | .outOfFuel => .outOfFuel
    else .done (some []) p

/-- Translation of `Parser::parse_grouped_expression`. -/
def parse_grouped_expression : Nat → PState → PRes Expression
  | 0, _ => .outOfFuel
  | fuel + 1, p =>
    match parse_expression fuel .LOWEST (p_next_token p) with
    | .done expOpt p1 =>
      match expect_peek p1 .RParen with
      | (false, p2) => .done none p2
      | (true, p2) => .done expOpt p2
    | .outOfFuel => .outOfFuel

/-- Translation of `Parser::parse_if_expression`, including the optional
connective keywords, brace-or-single-statement consequence, and the
else/else-if alternatives. -/
def parse_if_expression : Nat → PState → PRes Expression
  | 0, _ => .outOfFuel
  | fuel + 1, p =>
    match parse_logical_expression fuel .LOWEST (p_next_token p) with
    | .done (some condition) p1 =>
      match accept_optional_keywords fuel [.Hoy, .Tahole, .Comma] p1 with
      | .done _ p2 =>
        let consRes : PRes (List Statement) :=
          if peek_token_is p2 .LBrace then
            parse_block_statement fuel (p_next_token p2)
          else
            match parse_statement fuel (p_next_token p2) with
            | .done (some stmt) p3 => .done (some [stmt]) p3
            | .done none p3 =>
              .done (some [.ExpressionStatement (.Boolean false)])
                { p3 with errors := p3.errors ++
                  ["Expected statement after jodi consequence"] }
            | .outOfFuel => .outOfFuel
        match consRes with
        | .done (some consequence) p4 =>
          if peek_token_is p4 .Nahoy then
            let p5 := p_next_token p4
            let p6 := if peek_token_is p5 .Comma then p_next_token p5 else p5
            if peek_token_is p6 .Jodi then
              match parse_if_expression fuel (p_next_token p6) with
              | .done (some expr) p7 =>
                .done (some (.If condition consequence (some expr))) p7
              | .done none p7 =>
                .done none { p7 with errors := p7.errors ++
                  ["Failed to parse else if expression"] }
              | .outOfFuel => .outOfFuel
            else if peek_token_is p6 .LBrace then
              match parse_block_statement fuel (p_next_token p6) with
              | .done (some stmts) p7 =>
                match stmts with
                | [] => .done (some (.If condition consequence none)) p7
                | .ExpressionStatement e :: _ =>
                  .done (some (.If condition consequence (some e))) p7
                | _ =>
                  .done none { p7 with errors := p7.errors ++
                    ["Expected expression statement inside else block"] }
              | .done none p7 => .done none p7
              | .outOfFuel => .outOfFuel
            else
              let stmtRes : PRes Statement :=
                match parse_statement fuel (p_next_token p6) with
                | .done (some stmt) p7 => .done (some stmt) p7
                | .done none p7 =>
                  .done (some (.ExpressionStatement (.Boolean false)))
                    { p7 with errors := p7.errors ++
                      ["Expected statement after else part"] }
                | .outOfFuel => .outOfFuel
              match stmtRes with
              | .done (some (.ExpressionStatement e)) p7 =>
                .done (some (.If condition consequence (some e))) p7
              | .done (some _) p7 =>
                .done none { p7 with errors := p7.errors ++
                  ["Expected expression statement in else part"] }
              | .done none p7 => .done none p7
              | .outOfFuel => .outOfFuel
          else .done (some (.If condition consequence none)) p4
        | .done none p4 => .done none p4
        | .outOfFuel => .outOfFuel
      | .outOfFuel => .outOfFuel
    | .done none p1 => .done none p1
    | .outOfFuel => .outOfFuel

/-- Translation of `Parser::accept_optional_keywords`: consume lookahead
tokens while they belong to the given keyword list. -/
def accept_optional_keywords : Nat → List TokenType → PState → PRes Unit
  | 0, _, _ => .outOfFuel
  | fuel + 1, keywords, p =>
    if keywords.any (fun kw => (peekToken p).token_type = kw) then
      accept_optional_keywords fuel keywords (p_next_token p)
    else .done (some ()) p

/-- Translation of `Parser::parse_logical_expression`: like
`parse_expression` but without a missing-prefix diagnostic and with the
loop restricted to logical/comparison/arithmetic operators. -/
def parse_logical_expression : Nat → Precedence → PState → PRes Expression
  | 0, _, _ => .outOfFuel
  | fuel + 1, precedence, p =>
    if ¬ prefix_parse_fn_exists (curToken p).token_type then .done none p
    else
      match prefix_dispatch fuel p with
      | .done (some left_exp) p1 =>
        parse_logical_expression_loop fuel precedence left_exp p1
      | .done none p1 => .done none p1
      | .outOfFuel => .outOfFuel

/-- Loop of `parse_logical_expression`. -/
def parse_logical_expression_loop : Nat → Precedence → Expression →
    PState → PRes Expression
  | 0, _, _, _ => .outOfFuel
  | fuel + 1, precedence, left_exp, p =>
    if ¬ peek_token_is p .Semicolon ∧ precLt precedence (peek_precedence p)
    then
      if ¬ infix_parse_fn_exists (peekToken p).token_type then
        .done (some left_exp) p
      else if ¬ logical_chain_allowed (peekToken p).token_type then
        .done (some left_exp) p
      else
        match infix_dispatch fuel left_exp (p_next_token p) with
        | .done (some left') p1 =>
          parse_logical_expression_loop fuel precedence left' p1
        | .done none p1 => .done none p1
        | .outOfFuel => .outOfFuel
    else .done (some left_exp) p

/-- Translation of `Parser::parse_block_statement`: consume `{`, then
parse statements until `}` or `Eof`. -/
def parse_block_statement : Nat → PState → PRes (List Statement)
  | 0, _ => .outOfFuel
  | fuel + 1, p => parse_block_statement_loop fuel (p_next_token p)

/-- Loop of `parse_block_statement`. -/
def parse_block_statement_loop : Nat → PState → PRes (List Statement)
  | 0, _ => .outOfFuel
  | fuel + 1, p =>
    if ¬ cur_token_is p .RBrace ∧ ¬ cur_token_is p .Eof then
      match parse_statement fuel p with
      | .done stmtOpt p1 =>
        match parse_block_statement_loop fuel (p_next_token p1) with
        | .done (some rest) p2 =>
          .done (some (match stmtOpt with
            | some s => s :: rest
            | none => rest)) p2
        | .done none p2 => .done none p2
        | .outOfFuel => .outOfFuel
      | .outOfFuel => .outOfFuel
    else .done (some []) p

/-- Translation of `Parser::parse_function_literal`.  Note the source
expects a second `RParen` after `parse_function_parameters` has already
consumed one. -/
def parse_function_literal : Nat → PState → PRes Expression
  | 0, _ => .outOfFuel
  | fuel + 1, p =>
    match expect_peek p .LParen with
    | (false, p1) => .done none p1
    | (true, p1) =>
      match parse_function_parameters fuel p1 with
      | .done (some parameters) p2 =>
        match expect_peek p2 .RParen with
        | (false, p3) => .done none p3
        | (true, p3) =>
          match expect_peek p3 .LBrace with
          | (false, p4) => .done none p4
          | (true, p4) =>
            match parse_block_statement fuel p4 with
            | .done (some body) p5 =>
              .done (some (.FunctionLiteral parameters body)) p5
            | .done none p5 => .done none p5
            | .outOfFuel => .outOfFuel
      | .done none p2 => .done none p2
      | .outOfFuel => .outOfFuel

/-- Translation of `Parser::parse_function_parameters`. -/
def parse_function_parameters : Nat → PState → PRes (List Expression)
  | 0, _ => .outOfFuel
  | fuel + 1, p =>
    if peek_token_is p .RParen then .done (some []) (p_next_token p)
    else
      let p1 := p_next_token p
      let first := Expression.Identifier (curToken p1).literal
      match parse_function_parameters_loop fuel p1 with
      | .done (some rest) p2 =>
        match expect_peek p2 .RParen with
        | (false, p3) => .done none p3
        | (true, p3) => .done (some (first :: rest)) p3
      | .done none p2 => .done none p2
      | .outOfFuel => .outOfFuel

/-- Comma loop of `parse_function_parameters`. -/
def parse_function_parameters_loop : Nat → PState → PRes (List Expression)
  | 0, _ => .outOfFuel
  | fuel + 1, p =>
    if peek_token_is p .Comma then
      let p1 := p_next_token (p_next_token p)
      let ident := Expression.Identifier (curToken p1).literal
      match parse_function_parameters_loop fuel p1 with
      | .done (some rest) p2 => .done (some (ident :: rest)) p2
      | .done none p2 => .done none p2
      | .outOfFuel => .outOfFuel
    else .done (some []) p

/-- Translation of `Parser::parse_infix_expression`: record the operator
and its precedence, advance, and parse the right operand at that
precedence (left associativity). -/
def parse_infix_expression : Nat → Expression → PState → PRes Expression
  | 0, _, _ => .outOfFuel
  | fuel + 1, left, p =>
    let operator := (curToken p).literal
    let precedence := cur_precedence p
    match parse_expression fuel precedence (p_next_token p) with
    | .done (some right) p1 => .done (some (.Infix left operator right)) p1
    | .done none p1 => .done none p1
    | .outOfFuel => .outOfFuel

/-- Translation of `Parser::parse_call_expression`. -/
def parse_call_expression : Nat → Expression → PState → PRes Expression
  | 0, _, _ => .outOfFuel
  | fuel + 1, function, p =>
    match parse_call_arguments fuel p with
    | .done (some arguments) p1 => .done (some (.Call function arguments)) p1
    | .done none p1 => .done none p1
    | .outOfFuel => .outOfFuel

/-- Translation of `Parser::parse_call_arguments`.  A failed argument
parse contributes nothing to the list but does not abort the loop,
exactly as the source's `if let Some(exp)` pushes. -/
def parse_call_arguments : Nat → PState → PRes (List Expression)
  | 0, _ => .outOfFuel
  | fuel + 1, p =>
    if peek_token_is p .RParen then .done (some []) (p_next_token p)
    else
      match parse_expression fuel .LOWEST (p_next_token p) with
      | .done firstOpt p1 =>
        match parse_call_arguments_loop fuel p1 with
        | .done (some rest) p2 =>
          match expect_peek p2 .RParen with
          | (false, p3) => .done none p3
          | (true, p3) =>
            .done (some (match firstOpt with
              | some e => e :: rest
              | none => rest)) p3
        | .done none p2 => .done none p2
        | .outOfFuel => .outOfFuel
      | .outOfFuel => .outOfFuel

/-- Comma loop of `parse_call_arguments`. -/
def parse_call_arguments_loop : Nat → PState → PRes (List Expression)
  | 0, _ => .outOfFuel
  | fuel + 1, p =>
    if peek_token_is p .Comma then
      match parse_expression fuel .LOWEST (p_next_token (p_next_token p)) with
      | .done expOpt p1 =>
        match parse_call_arguments_loop fuel p1 with
        | .done (some rest) p2 =>
          .done (some (match expOpt with
            | some e => e :: rest
            | none => rest)) p2
        | .done none p2 => .done none p2
        | .outOfFuel => .outOfFuel
      | .outOfFuel => .outOfFuel
    else .done (some []) p

/-- Translation of `Parser::parse_input_expression`. -/
def parse_input_expression : Nat → PState → PRes Expression
  | 0, _ => .outOfFuel
  | fuel + 1, p =>
    let function_name := (curToken p).literal
    match expect_peek p .LParen with
    | (false, p1) =>
      .done none { p1 with errors := p1.errors ++
        ["expected '(' after '" ++ function_name ++ "'"] }
    | (true, p1) =>
      match parse_call_arguments fuel p1 with
      | .done (some args) p2 =>
        .done (some (.Call (.Identifier function_name) args)) p2
      | .done none p2 => .done none p2
      | .outOfFuel => .outOfFuel

end

/-- Outcome of a full `run_source` pipeline pass (mirroring
`run_source_with_error_manager` in `main.rs`): parser diagnostics stop
evaluation; otherwise the program is evaluated in a fresh root
environment. -/
inductive RunResult where
  | parseFailed (errors : List String)
  | value (o : Object)
  | fault (msg : String)
  | noFuel

/-- Pipeline driver translated from `run_source_with_error_manager` in
`main.rs`: lex, parse, report diagnostics if any, else evaluate in a
fresh root environment.  `pfuel`/`efuel` are the embedding's fuel for
the parser and evaluator. -/
def run_source (pfuel efuel : Nat) (input : String) : RunResult :=
  match parse_program pfuel (PState.mk (tokenize input.data) []) with
  | .outOfFuel => .noFuel
  | .done progOpt p =>
    if p.errors.isEmpty then
      match eval efuel (progOpt.getD []) environmentNew with
      | .ok o _ => .value o
      | .fault m => .fault m
      | .noFuel => .noFuel
    else .parseFailed p.errors

/-- Reference lexer for the lexical-rewind claim, following the spec's
words ("positions identical to scanning them separately", §8 — a
straightforward scan without the multi-word lookahead): identical to
`next_token_match` except that the identifier arm stops after the first
word.  The trailing `read_char` is part of the match fall-through, not
of the lookahead, so it is kept. -/
def next_token_match_plain (tsl tsc : Nat) (l : Lexer) : Token × Lexer :=
  if isIdentCharAt l then
    let (first_word, l1) := read_identifier l
    (Token.mk (lookup_ident first_word) first_word tsl tsc, read_char l1)
  else next_token_match tsl tsc l

/-- One pass of the reference `next_token` without multi-word
lookahead: the comment chain of `next_tokenStep` followed by
`next_token_match_plain`. -/
def next_token_plainStep (recur : Lexer → Token × Lexer) (l0 : Lexer) :
    Token × Lexer :=
    let l := skip_whitespace l0
    let tsl := l.line
    let tsc := l.column
    if l.ch = '/' then
      if peek_char l = '/' then
        recur
          (skip_single_line_comment (read_char (read_char l)))
      else if peek_char l = '*' then
        match skip_multi_line_comment "/*" ['*', '/'] (read_char (read_char l)) with
        | (some err, l') => (Token.mk .Illegal err tsl tsc, l')
        | (none, l') => recur l'
      else next_token_match_plain tsl tsc l
    else if l.ch = '#' then
      recur (skip_single_line_comment (read_char l))
    else if l.ch = '-' ∧ peek_char l = '-' then
      recur (skip_single_line_comment (read_char (read_char l)))
    else if l.ch = '=' then
      if peek_n_chars l 5 = "begin" then
        match skip_multi_line_comment "=begin" ['=', 'e', 'n', 'd']
            (read_char (read_char (read_char (read_char (read_char (read_char l)))))) with
        | (some err, l') => (Token.mk .Illegal err tsl tsc, l')
        | (none, l') => recur l'
      else next_token_match_plain tsl tsc l
    else if l.ch = lbraceChar ∧ peek_char l = '-' then
      match skip_multi_line_comment (String.mk [lbraceChar, '-'])
          ['-', rbraceChar] (read_char (read_char l)) with
      | (some err, l') => (Token.mk .Illegal err tsl tsc, l')
      | (none, l') => recur l'
    else if l.ch = '(' ∧ peek_char l = '*' then
      match skip_multi_line_comment "(*" ['*', ')'] (read_char (read_char l)) with
      | (some err, l') => (Token.mk .Illegal err tsl tsc, l')
      | (none, l') => recur l'
    else if l.ch = dquoteChar then
      if peek_n_chars l 2 = String.mk [dquoteChar, dquoteChar] then
        match skip_multi_line_comment (String.mk [dquoteChar, dquoteChar, dquoteChar])
            [dquoteChar, dquoteChar, dquoteChar]
            (read_char (read_char (read_char l))) with
        | (some err, l') => (Token.mk .Illegal err tsl tsc, l')
        | (none, l') => recur l'
      else next_token_match_plain tsl tsc l
    else if l.ch = squoteChar then
      if peek_n_chars l 2 = String.mk [squoteChar, squoteChar] then
        match skip_multi_line_comment (String.mk [squoteChar, squoteChar, squoteChar])
            [squoteChar, squoteChar, squoteChar]
            (read_char (read_char (read_char l))) with
        | (some err, l') => (Token.mk .Illegal err tsl tsc, l')
        | (none, l') => recur l'
      else next_token_match_plain tsl tsc l
    else next_token_match_plain tsl tsc l

/-- Reference restart loop without lookahead. -/
def next_token_plainGo : Nat → Lexer → Token × Lexer
  | 0, l => (Token.mk .Eof "" l.line l.column, l)
  | fuel + 1, l0 => next_token_plainStep (next_token_plainGo fuel) l0

/-- Fuel-wrapped reference `next_token` without lookahead. -/
def next_token_plain (l : Lexer) : Token × Lexer :=
  next_token_plainGo (l.input.length + 2) l

/-- Loop body of `tokenize_plain`. -/
def tokenize_plainGo : Nat → Lexer → List Token
  | 0, _ => []
  | fuel + 1, l =>
    let (tok, l') := next_token_plain l
    if tok.token_type = TokenType.Eof then [tok]
    else tok :: tokenize_plainGo fuel l'

/-- Reference token stream scanned without multi-word lookahead. -/
def tokenize_plain (input : List Char) : List Token :=
  tokenize_plainGo (input.length + 2) (lexerNew input)

/-- ASCII identifier-start/continuation character (the theorems about
lexical rewind are stated over ASCII identifiers; the Rust byte scanner
and this character model agree on ASCII input). -/
def isAsciiIdentChar (c : Char) : Bool := c.isAlpha || c = '_'

/-- Additive operators of the reference arithmetic grammar. -/
inductive AOp where
  | plus
  | minus
  deriving DecidableEq, Repr

/-- Multiplicative operators of the reference arithmetic grammar. -/
inductive MOp where
  | times
  | divide
  deriving DecidableEq, Repr

mutual

/-- Atoms of the reference arithmetic grammar (spec §8, round-trip-able
precedence): integer literals and parenthesised expressions.  This is
the classic unambiguous grammar `E ::= E ± T | T`, `T ::= T ∗/ F | F`,
`F ::= n | (E)` with the left-recursive tails flattened into lists, so
that every surface string of literals, `+ - * /` and parentheses is the
rendering of exactly one `EExp`, whose denotation is the string's
standard left-associative, precedence-respecting reading. -/
inductive FExp where
  | num (n : Nat)
  | paren (e : EExp)

/-- Multiplicative-operator tail of a term. -/
inductive TTail where
  | nil
  | cons (op : MOp) (f : FExp) (rest : TTail)

/-- Terms of the reference arithmetic grammar. -/
inductive TExp where
  | mk (head : FExp) (tail : TTail)

/-- Additive-operator tail of an expression. -/
inductive ETail where
  | nil
  | cons (op : AOp) (t : TExp) (rest : ETail)

/-- Expressions of the reference arithmetic grammar. -/
inductive EExp where
  | mk (head : TExp) (tail : ETail)

end

/-- Operator character of an additive operator. -/
def renderAOp : AOp → String
  | .plus => "+"
  | .minus => "-"

/-- Operator character of a multiplicative operator. -/
def renderMOp : MOp → String
  | .times => "*"
  | .divide => "/"

/-- Token type of an additive operator. -/
def tokenTypeAOp : AOp → TokenType
  | .plus => .Plus
  | .minus => .Minus

/-- Token type of a multiplicative operator. -/
def tokenTypeMOp : MOp → TokenType
  | .times => .Asterisk
  | .divide => .Slash

/-- Decimal digit rendering loop (most significant first); the fuel is
always ample since a number has at most `n` digits. -/
def natDigitsGo : Nat → Nat → List Char → List Char
  | 0, _, acc => acc
  | fuel + 1, n, acc =>
    let d := Char.ofNat (48 + n % 10)
    if n < 10 then d :: acc else natDigitsGo fuel (n / 10) (d :: acc)

/-- Decimal digit string of a natural number. -/
def natDigits (n : Nat) : List Char := natDigitsGo (n + 1) n []

mutual

/-- Surface rendering of an atom. -/
def renderF : FExp → String
  | .num n => String.mk (natDigits n)
  | .paren e => "(" ++ renderE e ++ ")"

/-- Surface rendering of a multiplicative tail (" op f" per element). -/
def renderTTail : TTail → String
  | .nil => ""
  | .cons op f rest =>
    " " ++ renderMOp op ++ " " ++ renderF f ++ renderTTail rest

/-- Surface rendering of a term. -/
def renderT : TExp → String
  | .mk head tail => renderF head ++ renderTTail tail

/-- Surface rendering of an additive tail (" op t" per element). -/
def renderETail : ETail → String
  | .nil => ""
  | .cons op t rest =>
    " " ++ renderAOp op ++ " " ++ renderT t ++ renderETail rest

/-- Surface rendering of an expression, with single spaces around binary
operators (as in the spec's examples "2 + 3 * 4" and "(2 + 3) * 4"). -/
def renderE : EExp → String
  | .mk head tail => renderT head ++ renderETail tail

end

/-- Standard meaning of an additive operator. -/
def applyAOp : AOp → Int → Int → Int
  | .plus, a, b => a + b
  | .minus, a, b => a - b

/-- Standard meaning of a multiplicative operator on integers;
truncating division, undefined (`none`) on a zero divisor. -/
def applyMOp : MOp → Int → Int → Option Int
  | .times, a, b => some (a * b)
  | .divide, a, b => if b = 0 then none else some (Int.tdiv a b)

mutual

/-- Standard denotation of an atom. -/
def denoF : FExp → Option Int
  | .num n => some n
  | .paren e => denoE e

/-- Left fold of the standard denotation over a multiplicative tail. -/
def denoTTail : Int → TTail → Option Int
  | acc, .nil => some acc
  | acc, .cons op f rest =>
    match denoF f with
    | some v =>
      match applyMOp op acc v with
      | some r => denoTTail r rest
      | none => none
    | none => none

/-- Standard denotation of a term. -/
def denoT : TExp → Option Int
  | .mk head tail =>
    match denoF head with
    | some v => denoTTail v tail
    | none => none

/-- Left fold of the standard denotation over an additive tail. -/
def denoETail : Int → ETail → Option Int
  | acc, .nil => some acc
  | acc, .cons op t rest =>
    match denoT t with
    | some v => denoETail (applyAOp op acc v) rest
    | none => none

/-- Standard left-associative, precedence-respecting denotation of an
arithmetic expression (partial: undefined on division by zero). -/
def denoE : EExp → Option Int
  | .mk head tail =>
    match denoT head with
    | some v => denoETail v tail
    | none => none

end

mutual

/-- AST the parser is expected to build for an atom. -/
def astF : FExp → Expression
  | .num n => .IntegerLiteral n
  | .paren e => astE e

/-- AST accumulation over a multiplicative tail (left-associated
`Infix` nodes). -/
def astTTail : Expression → TTail → Expression
  | acc, .nil => acc
  | acc, .cons op f rest =>
    astTTail (.Infix acc (renderMOp op) (astF f)) rest

/-- AST the parser is expected to build for a term. -/
def astT : TExp → Expression
  | .mk head tail => astTTail (astF head) tail

/-- AST accumulation over an additive tail. -/
def astETail : Expression → ETail → Expression
  | acc, .nil => acc
  | acc, .cons op t rest =>
    astETail (.Infix acc (renderAOp op) (astT t)) rest

/-- AST the parser is expected to build for an expression. -/
def astE : EExp → Expression
  | .mk head tail => astETail (astT head) tail

end

mutual

/-- Every integer literal of the expression fits in `i64` (the range
check of Rust's `parse::<i64>` in `parse_integer_literal`). -/
def litsOkF : FExp → Prop
  | .num n => n ≤ 2 ^ 63 - 1
  | .paren e => litsOkE e

/-- Literal bound for multiplicative tails. -/
def litsOkTTail : TTail → Prop
  | .nil => True
  | .cons _ f rest => litsOkF f ∧ litsOkTTail rest

/-- Literal bound for terms. -/
def litsOkT : TExp → Prop
  | .mk head tail => litsOkF head ∧ litsOkTTail tail

/-- Literal bound for additive tails. -/
def litsOkETail : ETail → Prop
  | .nil => True
  | .cons _ t rest => litsOkT t ∧ litsOkETail rest

/-- Literal bound for expressions. -/
def litsOkE : EExp → Prop
  | .mk head tail => litsOkT head ∧ litsOkETail tail

end

mutual

/-- Structural size of an atom (used for fuel bounds). -/
def sizeF : FExp → Nat
  | .num _ => 1
  | .paren e => sizeE e + 1

/-- Structural size of a multiplicative tail. -/
def sizeTTail : TTail → Nat
  | .nil => 0
  | .cons _ f rest => sizeF f + sizeTTail rest + 1

/-- Structural size of a term. -/
def sizeT : TExp → Nat
  | .mk head tail => sizeF head + sizeTTail tail + 1

/-- Structural size of an additive tail. -/
def sizeETail : ETail → Nat
  | .nil => 0
  | .cons _ t rest => sizeT t + sizeETail rest + 1

/-- Structural size of an expression. -/
def sizeE : EExp → Nat
  | .mk head tail => sizeT head + sizeETail tail + 1

end

/-- Result value of an evaluation outcome, discarding the resulting
environment. -/
def outcomeObj : Outcome → Option Object
  | .ok o _ => some o
  | _ => none

/-- Result of a parser routine, discarding the state. -/
def presVal {α : Type} : PRes α → Option α
  | .done v _ => v
  | .outOfFuel => none

/-- Diagnostics accumulated in a parser result. -/
def presErrors {α : Type} : PRes α → Option (List String)
  | .done _ st => some st.errors
  | .outOfFuel => none

/-- Lexical items occurring in a rendered arithmetic expression. -/
inductive AItem where
  | num (ds : List Char)
  | plus
  | minus
  | times
  | divide
  | lpar
  | rpar
  deriving DecidableEq, Repr

/-- Characters of an item. -/
def itemChars : AItem → List Char
  | .num ds => ds
  | .plus => ['+']
  | .minus => ['-']
  | .times => ['*']
  | .divide => ['/']
  | .lpar => ['(']
  | .rpar => [')']

/-- Token shape (type and literal) the lexer is expected to emit for an
item. -/
def itemShape : AItem → TokenType × String
  | .num ds => (.Int, String.mk ds)
  | .plus => (.Plus, "+")
  | .minus => (.Minus, "-")
  | .times => (.Asterisk, "*")
  | .divide => (.Slash, "/")
  | .lpar => (.LParen, "(")
  | .rpar => (.RParen, ")")

/-- Item of a multiplicative operator. -/
def mopItem : MOp → AItem
  | .times => .times
  | .divide => .divide

/-- Item of an additive operator. -/
def aopItem : AOp → AItem
  | .plus => .plus
  | .minus => .minus

/-- Surface characters of a gap-item list (each item preceded by its
whitespace gap). -/
def flattenSegs : List (List Char × AItem) → List Char
  | [] => []
  | (g, it) :: rest => g ++ itemChars it ++ flattenSegs rest

/-- Per-item well-formedness: digit runs are nonempty digit strings. -/
def itemOk : AItem → Bool
  | .num ds => !ds.isEmpty && ds.all Char.isDigit
  | _ => true

/-- Adjacency conditions keeping the scanner honest: a number not
followed by a space must be followed by a closing parenthesis (so the
digit run ends), an operator is always followed by a space (so the
slash and minus characters never look like comment openers), and an
opening parenthesis is directly followed by a digit or another opening
parenthesis (never by an asterisk). -/
def pairOk : AItem → List Char × AItem → Bool
  | .num _, (g, i2) =>
    match i2 with
    | .rpar => true
    | _ => !g.isEmpty
  | .plus, (g, _) => !g.isEmpty
  | .minus, (g, _) => !g.isEmpty
  | .times, (g, _) => !g.isEmpty
  | .divide, (g, _) => !g.isEmpty
  | .lpar, (g, i2) =>
    g.isEmpty && (match i2 with
      | .num _ => true
      | .lpar => true
      | _ => false)
  | .rpar, _ => true

/-- Well-formed gap-item list: space-only gaps, well-formed items, and
the adjacency conditions on consecutive items. -/
def segsOk : List (List Char × AItem) → Bool
  | [] => true
  | (g, i) :: rest =>
    g.all (fun c => c = ' ') && itemOk i &&
    (match rest with
     | [] => true
     | (g2, i2) :: _ => pairOk i (g2, i2)) &&
    segsOk rest

/-- Characters that end a digit run in `read_number` when no float/exp
flag has been set yet. -/
def numStop (c : Char) : Bool :=
  !(c.isDigit || c = '.' || c = 'e' || c = 'E' || c = 'i' ||
    c = 'm' || c = 'M')

/-- Condition on the character directly after an item keeping the
scanner honest there: the character after a digit run must not extend
the number, and after `/`, `-` or `(` it must not open a comment. -/
def afterSafe (it : AItem) (c : Char) : Prop :=
  match it with
  | .num _ => numStop c = true
  | .divide => c ≠ '/' ∧ c ≠ '*'
  | .minus => c ≠ '-'
  | .lpar => c ≠ '*'
  | _ => True

mutual

/-- Token shapes of an atom's rendering. -/
def tokF : FExp → List (TokenType × String)
  | .num n => [(.Int, String.mk (natDigits n))]
  | .paren e => [(.LParen, "(")] ++ tokE e ++ [(.RParen, ")")]

/-- Token shapes of a multiplicative tail's rendering. -/
def tokTTail : TTail → List (TokenType × String)
  | .nil => []
  | .cons op f rest =>
    (tokenTypeMOp op, renderMOp op) :: (tokF f ++ tokTTail rest)

/-- Token shapes of a term's rendering. -/
def tokT : TExp → List (TokenType × String)
  | .mk f tl => tokF f ++ tokTTail tl

/-- Token shapes of an additive tail's rendering. -/
def tokETail : ETail → List (TokenType × String)
  | .nil => []
  | .cons op t rest =>
    (tokenTypeAOp op, renderAOp op) :: (tokT t ++ tokETail rest)

/-- Token shapes of an expression's rendering. -/
def tokE : EExp → List (TokenType × String)
  | .mk t tl => tokT t ++ tokETail tl

end

/-- Token kinds that stop the precedence-climbing loop at `PRODUCT`
level (an atom's continuation inside a term). -/
def stopProd (x : TokenType) : Prop :=
  x = .Plus ∨ x = .Minus ∨ x = .Asterisk ∨ x = .Slash ∨
    x = .RParen ∨ x = .Eof

/-- Token kinds that stop the loop at `SUM` level (a term's
continuation). -/
def stopSum (x : TokenType) : Prop :=
  x = .Plus ∨ x = .Minus ∨ x = .RParen ∨ x = .Eof

/-- Token kinds that stop the loop at `LOWEST` level (an expression's
continuation). -/
def stopLow (x : TokenType) : Prop :=
  x = .RParen ∨ x = .Eof

/-- Continuations a rendered subexpression may be followed by: nothing,
a gap-led segment, or an immediate closing parenthesis. -/
def tailStartOk : List (List Char × AItem) → Prop
  | [] => True
  | (g2, i2) :: _ => g2 ≠ [] ∨ i2 = .rpar

mutual

/-- Gap-item decomposition of an atom's rendering, with a given leading
gap. -/
def segsF (g : List Char) : FExp → List (List Char × AItem)
  | .num n => [(g, .num (natDigits n))]
  | .paren e => (g, .lpar) :: (segsE [] e ++ [([], .rpar)])

/-- Gap-item decomposition of a multiplicative tail's rendering. -/
def segsTTail : TTail → List (List Char × AItem)
  | .nil => []
  | .cons op f rest =>
    ([' '], mopItem op) :: (segsF [' '] f ++ segsTTail rest)

/-- Gap-item decomposition of a term's rendering. -/
def segsT (g : List Char) : TExp → List (List Char × AItem)
  | .mk f tl => segsF g f ++ segsTTail tl

/-- Gap-item decomposition of an additive tail's rendering. -/
def segsETail : ETail → List (List Char × AItem)
  | .nil => []
  | .cons op t rest =>
    ([' '], aopItem op) :: (segsT [' '] t ++ segsETail rest)

/-- Gap-item decomposition of an expression's rendering. -/
def segsE (g : List Char) : EExp → List (List Char × AItem)
  | .mk t tl => segsT g t ++ segsETail tl

end

/-- Character of the input at a byte position (NUL past the end), the
value `read_char` loads. -/
def chAt (input : List Char) (i : Nat) : Char := input.getD i nulChar

/-- Scan-state invariant maintained by `read_char`: the cached character
matches the input at the current position and `read_position` is one
past it. -/
def LexInv (s : Lexer) : Prop :=
  s.ch = chAt s.input s.position ∧ s.read_position = s.position + 1

/-- Iterated `read_char`. -/
def advN : Nat → Lexer → Lexer
  | 0, s => s
  | n + 1, s => advN n (read_char s)

/-- Position-level identifier-character test (what `isIdentCharAt`
computes on a state satisfying `LexInv`). -/
def isIdentCharPos (input : List Char) (i : Nat) : Bool :=
  (chAt input i).isAlpha || chAt input i = '_' ||
    (if i ≥ input.length then false
     else decide (0x980 ≤ (chAt input i).toNat ∧ (chAt input i).toNat ≤ 0x9FF))

/-- Helper: `format_boolean` never returns a `Boolean` object. -/
theorem format_boolean_ne_boolean (o : Object) (b : Bool) :
    format_boolean o ≠ .Boolean b := by
  cases o <;> simp [format_boolean]
  case Boolean b' => cases b' <;> simp

/-- Helper: the statement loop of `eval` never produces a `Boolean`
object. -/
theorem evalGo_ne_boolean (stmts : List Statement) :
    ∀ fuel result env o env' b,
      evalGo fuel stmts result env = .ok o env' → o ≠ .Boolean b := by
  induction stmts with
  | nil =>
    intro fuel result env o env' b h
    simp only [evalGo] at h
    cases h with
    | refl => exact format_boolean_ne_boolean result b
  | cons s rest ih =>
    intro fuel result env o env' b h
    simp only [evalGo] at h
    cases hs : eval_statement fuel s env with
    | ok r env1 =>
      rw [hs] at h
      cases r with
      | ReturnValue v =>
        simp at h
        cases h with
        | intro h1 h2 => rw [← h1]; exact format_boolean_ne_boolean v b
      | Error m =>
        simp at h
        cases h with
        | intro h1 h2 => rw [← h1]; simp
      | Integer i => exact ih fuel (.Integer i) env1 o env' b h
      | Boolean b2 => exact ih fuel (.Boolean b2) env1 o env' b h
      | String s2 => exact ih fuel (.String s2) env1 o env' b h
      | Null => exact ih fuel .Null env1 o env' b h
      | BuiltinFunction t => exact ih fuel (.BuiltinFunction t) env1 o env' b h
      | BuiltinNative f => exact ih fuel (.BuiltinNative f) env1 o env' b h
      | Function ps bd e => exact ih fuel (.Function ps bd e) env1 o env' b h
    | fault m => rw [hs] at h; cases h
    | noFuel => rw [hs] at h; cases h

/-- Helper: `parse_program` always returns a statement list (never a
parse-abort) whenever it completes within its fuel. -/
theorem parse_program_never_aborts :
    ∀ fuel p, (∃ prog st, parse_program fuel p = .done (some prog) st) ∨
      parse_program fuel p = .outOfFuel := by
  intro fuel
  induction fuel with
  | zero => intro p; right; rfl
  | succ fuel ih =>
    intro p
    by_cases hEof : cur_token_is p .Eof
    · left; exact ⟨[], p, by simp [parse_program, hEof]⟩
    · cases hs : parse_statement fuel p with
      | done stmtOpt p1 =>
        rcases ih (p_next_token p1) with ⟨prog, st, hrec⟩ | hrec
        · left
          rcases stmtOpt with _ | s
          · exact ⟨prog, st, by simp [parse_program, hEof, hs, hrec]⟩
          · exact ⟨s :: prog, st, by simp [parse_program, hEof, hs, hrec]⟩
        · right; simp [parse_program, hEof, hs, hrec]
      | outOfFuel => right; simp [parse_program, hEof, hs]

/-- C3: the pipeline result of the spec's scenario input.  The input
evaluates to the runtime error value `identifier not found: let`, not
to `Integer 7`: the keyword table has no entry for "let" (only
"dhoro"/"mone koro"/... declare variables), and `next_token`'s
identifier arm falls through to the trailing `read_char`, which
discards the first non-whitespace character after every identifier
token (here the `=` signs and the `+`), so the statements parse as bare
expression statements beginning with the identifier `let`. -/
theorem c3_let_scenario_diverges :
    run_source 1000 1000 "let x = 5; let y = x + 2; y;" =
      .value (.Error "identifier not found: let") ∧
    RunResult.value (Object.Error "identifier not found: let") ≠
      .value (.Integer 7) := by
  constructor
  · rfl
  · simp

/-- C7: a single `parse_program` call over a two-statement input with
two independent syntax errors ("dhoro = 5; dhoro = 6;", each `dhoro`
missing its identifier) surfaces one diagnostic per error — at least
two in total — while still recovering the two well-formed expression
statements; and `parse_program` never aborts: within sufficient fuel it
always returns a statement list, regardless of malformed statements. -/
theorem c7_parser_error_accumulation :
    presErrors (parse_program 100
        (PState.mk (tokenize "dhoro = 5; dhoro = 6;".data) [])) =
      some ["expected next token to be Ident, got Int instead",
            "expected next token to be Ident, got Int instead"] ∧
    presVal (parse_program 100
        (PState.mk (tokenize "dhoro = 5; dhoro = 6;".data) [])) =
      some [.ExpressionStatement (.IntegerLiteral 5),
            .ExpressionStatement (.IntegerLiteral 6)] ∧
    (∀ errs, presErrors (parse_program 100
        (PState.mk (tokenize "dhoro = 5; dhoro = 6;".data) [])) = some errs →
      2 ≤ errs.length) ∧
    (∀ fuel p, (∃ prog st, parse_program fuel p = .done (some prog) st) ∨
      parse_program fuel p = .outOfFuel) := by
  refine ⟨rfl, rfl, ?_, parse_program_never_aborts⟩
  intro errs h
  have : errs = ["expected next token to be Ident, got Int instead",
    "expected next token to be Ident, got Int instead"] := by
    have h' : (some ["expected next token to be Ident, got Int instead",
        "expected next token to be Ident, got Int instead"] :
        Option (List String)) = some errs := by rw [← h]; rfl
    exact (Option.some.inj h').symm
  rw [this]; simp

/-- C9: the top-level `eval` never returns a `Boolean` object: a final
`Boolean true`/`false` (also when unwrapped from a top-level
`ReturnValue`) is converted by `format_boolean` to the strings
"Ha"/"Na", and every non-boolean result kind passes through
`format_boolean` unchanged. -/
theorem c9_eval_never_boolean :
    (∀ fuel node env o env', eval fuel node env = .ok o env' →
      ∀ b, o ≠ .Boolean b) ∧
    format_boolean (.Boolean true) = .String "Ha" ∧
    format_boolean (.Boolean false) = .String "Na" ∧
    (∀ o, (∀ b, o ≠ .Boolean b) → format_boolean o = o) ∧
    (∀ b env fuel, eval (fuel + 2) [Statement.Return (.Boolean b)] env =
      .ok (.String (if b then "Ha" else "Na")) env) ∧
    (∀ b env fuel,
      eval (fuel + 2) [Statement.ExpressionStatement (.Boolean b)] env =
        .ok (.String (if b then "Ha" else "Na")) env) := by
  refine ⟨?_, rfl, rfl, ?_, ?_, ?_⟩
  · intro fuel node env o env' h b
    exact evalGo_ne_boolean node fuel .Null env o env' b h
  · intro o h
    cases o <;> simp [format_boolean]
    case Boolean b => exact absurd rfl (h b)
  · intro b env fuel
    cases b <;> rfl
  · intro b env fuel
    cases b <;> rfl

/-- C9 witness: `eval` on the concrete one-statement program `Ha;` in
the fresh root environment yields `String "Ha"`, which by the theorem
is not a `Boolean`. -/
theorem c9_witness : ∀ b, Object.String "Ha" ≠ Object.Boolean b :=
  c9_eval_never_boolean.1 10 [.ExpressionStatement (.Boolean true)]
    environmentNew (.String "Ha") environmentNew (by rfl)

/-- Helper: looking up a name other than the one just set walks past the
new binding. -/
theorem env_get_set_ne (env : Environment) (s : String) (a : Object)
    (name : String) (h : s ≠ name) :
    (env.set s a).get name = env.get name := by
  cases env with
  | mk store outer =>
    have hb : (name == s) = false := by
      simp only [beq_eq_false_iff_ne, ne_eq]
      exact fun hh => h hh.symm
    cases outer <;>
      simp [Environment.set, Environment.get, Environment.store,
        Environment.outer, List.lookup, hb]

/-- Helper: looking up the name just set yields the new value. -/
theorem env_get_set_self (env : Environment) (s : String) (a : Object) :
    (env.set s a).get s = some a := by
  cases env with
  | mk store outer =>
    cases outer <;>
      simp [Environment.set, Environment.get, Environment.store,
        Environment.outer, List.lookup]

/-- C2 counterexample: with the outer environment binding `n` to 1, a
`Let n = 2` inside the consequence block of an `if` rebinds `n` in the
SAME environment (blocks do not open a child scope), so looking up `n`
after the block returns 2, not the 1 the claim requires. -/
theorem c2_counterexample :
    outcomeObj (eval 30 [.Let (.Identifier "n") (.IntegerLiteral 1),
      .ExpressionStatement (.If (.Boolean true)
        [.Let (.Identifier "n") (.IntegerLiteral 2)] none),
      .ExpressionStatement (.Identifier "n")] environmentNew) =
      some (.Integer 2) ∧
    some (Object.Integer 2) ≠ some (Object.Integer 1) := by
  constructor
  · rfl
  · simp

/-- C2 amended: a `Let` in a nested block (if consequence or loop body)
rebinds the name in the SHARED enclosing environment — the outer
binding is overwritten, since `eval_block_statement` runs in the same
environment; only a function call introduces a child environment, so a
`Let` of the same name inside a called function's body leaves every
binding of the caller's environment unchanged. -/
theorem c2_amended_block_scope :
    (∀ (n : String) (v w : Int) (fuel : Nat) (env : Environment),
      env.get n = some (.Integer v) →
      eval_statement (fuel + 6)
        (.ExpressionStatement (.If (.Boolean true)
          [.Let (.Identifier n) (.IntegerLiteral w)] none)) env =
        .ok .Null (env.set n (.Integer w)) ∧
      (env.set n (.Integer w)).get n = some (.Integer w)) ∧
    (∀ (n fname : String) (v w : Int) (fuel : Nat),
      n ≠ fname → fname ≠ "dekhao" →
      eval_statement (fuel + 9)
        (.ExpressionStatement (.Call (.Identifier fname) []))
        ((environmentNew.set n (.Integer v)).set fname
          (.Function [] [.Let (.Identifier n) (.IntegerLiteral w)]
            (environmentNew.set n (.Integer v)))) =
        .ok .Null
          ((environmentNew.set n (.Integer v)).set fname
            (.Function [] [.Let (.Identifier n) (.IntegerLiteral w)]
              (environmentNew.set n (.Integer v)))) ∧
      ((environmentNew.set n (.Integer v)).set fname
        (.Function [] [.Let (.Identifier n) (.IntegerLiteral w)]
          (environmentNew.set n (.Integer v)))).get n = some (.Integer v)) := by
  constructor
  · intro n v w fuel env _
    constructor
    · have e6 : fuel + 6 = fuel + 1 + 1 + 1 + 1 + 1 + 1 := rfl
      rw [e6]
      simp [eval_statement, eval_expression, eval_block_statement,
        eval_blockGo, is_error, is_truthy]
    · exact env_get_set_self env n (.Integer w)
  · intro n fname v w fuel hnf hfd
    constructor
    · have e9 : fuel + 9 = fuel + 1 + 1 + 1 + 1 + 1 + 1 + 1 + 1 + 1 := rfl
      rw [e9]
      have hget : ((environmentNew.set n (.Integer v)).set fname
          (.Function [] [.Let (.Identifier n) (.IntegerLiteral w)]
            (environmentNew.set n (.Integer v)))).get fname =
          some (.Function [] [.Let (.Identifier n) (.IntegerLiteral w)]
            (environmentNew.set n (.Integer v))) :=
        env_get_set_self _ fname _
      simp [eval_statement, eval_expression, eval_call_fallback,
        eval_expressions, apply_function, bind_params,
        Environment.new_enclosed, eval_block_statement, eval_blockGo,
        is_error, hget, hfd]
    · rw [env_get_set_ne _ _ _ _ (fun h => hnf h.symm)]
      exact env_get_set_self _ n _

/-- C2 amended witness: the block part at `n := "n"`, `v := 1`,
`w := 2` in the root environment extended with `n ↦ 1`. -/
theorem c2_amended_witness :
    eval_statement 6
      (.ExpressionStatement (.If (.Boolean true)
        [.Let (.Identifier "n") (.IntegerLiteral 2)] none))
      (environmentNew.set "n" (.Integer 1)) =
      .ok .Null ((environmentNew.set "n" (.Integer 1)).set "n" (.Integer 2)) ∧
    ((environmentNew.set "n" (.Integer 1)).set "n" (.Integer 2)).get "n" =
      some (.Integer 2) :=
  (c2_amended_block_scope.1 "n" 1 2 0 (environmentNew.set "n" (.Integer 1))
    (by rfl))

/-- Helper: `bind_params` leaves the lookup of any name that is not one
of the bound parameter identifiers unchanged. -/
theorem bind_params_get_not_bound :
    ∀ (params : List Expression) (args : List Object) (env0 : Environment)
      (name : String),
      (∀ s, Expression.Identifier s ∈ params → s ≠ name) →
      (bind_params params args env0).get name = env0.get name := by
  intro params
  induction params with
  | nil => intro args env0 name _; cases args <;> rfl
  | cons p ps ih =>
    intro args env0 name h
    cases args with
    | nil => rfl
    | cons a rest =>
      cases p
      case Identifier s =>
        have h1 : s ≠ name := h s (by simp)
        have h2 : ∀ s', Expression.Identifier s' ∈ ps → s' ≠ name :=
          fun s' hm => h s' (by simp [hm])
        calc (bind_params (Expression.Identifier s :: ps) (a :: rest)
              env0).get name
            = (bind_params ps rest (env0.set s a)).get name := rfl
          _ = (env0.set s a).get name := ih rest _ name h2
          _ = env0.get name := env_get_set_ne env0 s a name h1
      all_goals
        exact ih rest env0 name (fun s' hm => h s' (by simp [hm]))

/-- C8: calling a user function with fewer arguments than parameters
does not fault: parameters are bound to arguments by position, extra
arguments are ignored, missing parameters are left unbound in the call
environment (lookups fall through to the captured scope), and the body
is evaluated — an unbound parameter surfaces as an
identifier-not-found `Error` value only when the body reads it. -/
theorem c8_call_arity_leniency :
    (∀ (fuel : Nat) (a b : String) (cenv : Environment),
      apply_function (fuel + 5) (.Function [.Identifier a, .Identifier b]
        [.ExpressionStatement (.IntegerLiteral 5)] cenv) [] =
        .ok (.Integer 5)) ∧
    (∀ (fuel : Nat) (a b : String) (cenv : Environment),
      cenv.get a = none →
      apply_function (fuel + 5) (.Function [.Identifier a, .Identifier b]
        [.ExpressionStatement (.Identifier a)] cenv) [] =
        .ok (.Error ("identifier not found: " ++ a))) ∧
    (∀ (fuel : Nat) (a : String) (cenv : Environment) (v : Object)
       (extra : List Object),
      (∀ x, v ≠ .ReturnValue x) →
      apply_function (fuel + 5) (.Function [.Identifier a]
        [.ExpressionStatement (.Identifier a)] cenv) (v :: extra) =
        .ok v) ∧
    (∀ (fuel : Nat) (a b : String) (cenv : Environment) (v argA : Object),
      a ≠ b → cenv.get b = some v → (∀ x, v ≠ .ReturnValue x) →
      apply_function (fuel + 5) (.Function [.Identifier a, .Identifier b]
        [.ExpressionStatement (.Identifier b)] cenv) [argA] =
        .ok v) := by
  refine ⟨?_, ?_, ?_, ?_⟩
  · intro fuel a b cenv
    have e5 : fuel + 5 = fuel + 1 + 1 + 1 + 1 + 1 := rfl
    rw [e5]
    simp [apply_function, bind_params, eval_block_statement, eval_blockGo,
      eval_statement, eval_expression]
  · intro fuel a b cenv hget
    have e5 : fuel + 5 = fuel + 1 + 1 + 1 + 1 + 1 := rfl
    rw [e5]
    have hx : (bind_params [Expression.Identifier a, .Identifier b] []
        (Environment.new_enclosed cenv)).get a = none := by
      show (Environment.new_enclosed cenv).get a = none
      simp [Environment.new_enclosed, Environment.get, List.lookup, hget]
    simp [apply_function, eval_block_statement, eval_blockGo,
      eval_statement, eval_expression, hx]
  · intro fuel a cenv v extra hnr
    have e5 : fuel + 5 = fuel + 1 + 1 + 1 + 1 + 1 := rfl
    rw [e5]
    have hx : (bind_params [Expression.Identifier a] (v :: extra)
        (Environment.new_enclosed cenv)).get a = some v := by
      show ((Environment.new_enclosed cenv).set a v).get a = some v
      exact env_get_set_self _ a v
    simp only [apply_function, eval_block_statement, eval_blockGo,
      eval_statement, eval_expression, hx]
    cases v <;> simp_all
  · intro fuel a b cenv v argA hab hget hnr
    have e5 : fuel + 5 = fuel + 1 + 1 + 1 + 1 + 1 := rfl
    rw [e5]
    have hx : (bind_params [Expression.Identifier a, .Identifier b] [argA]
        (Environment.new_enclosed cenv)).get b = some v := by
      show ((Environment.new_enclosed cenv).set a argA).get b = some v
      rw [env_get_set_ne _ a argA b hab]
      simp [Environment.new_enclosed, Environment.get, List.lookup, hget]
    simp only [apply_function, eval_block_statement, eval_blockGo,
      eval_statement, eval_expression, hx]
    cases v <;> simp_all

/-- C8 witness: a two-parameter function called with no arguments at
all; the body `5` still evaluates (conjunct 1 at concrete inputs). -/
theorem c8_witness :
    apply_function 5 (.Function [.Identifier "a", .Identifier "b"]
      [.ExpressionStatement (.IntegerLiteral 5)] (.mk [] none)) [] =
      .ok (.Integer 5) :=
  c8_call_arity_leniency.1 0 "a" "b" (.mk [] none)

/-- C5: a `Function` value carries its captured definition environment,
and `apply_function` evaluates the body in a child of that captured
environment — not of the caller's — so a free name bound at definition
time still resolves (to its captured value, not to an
identifier-not-found `Error`) whenever and wherever the function is
called; concretely, `makeAdder(5)` returns a closure that still sees
`x = 5` after `makeAdder`'s frame is gone, so `addFive(3)` is `8`. -/
theorem c5_closure_outlives_scope :
    (∀ (fuel : Nat) (cenv : Environment) (params : List Expression)
       (args : List Object) (name : String) (v : Object),
      cenv.get name = some v → (∀ x, v ≠ .ReturnValue x) →
      (∀ s, Expression.Identifier s ∈ params → s ≠ name) →
      apply_function (fuel + 5) (.Function params
        [.ExpressionStatement (.Identifier name)] cenv) args = .ok v) ∧
    outcomeObj (eval 30 [
      .Let (.Identifier "makeAdder") (.FunctionLiteral [.Identifier "x"]
        [.Return (.FunctionLiteral [.Identifier "y"]
          [.Return (.Infix (.Identifier "x") "+" (.Identifier "y"))])]),
      .Let (.Identifier "addFive")
        (.Call (.Identifier "makeAdder") [.IntegerLiteral 5]),
      .ExpressionStatement (.Call (.Identifier "addFive") [.IntegerLiteral 3])]
      environmentNew) = some (.Integer 8) := by
  constructor
  · intro fuel cenv params args name v hget hnr hnb
    have e5 : fuel + 5 = fuel + 1 + 1 + 1 + 1 + 1 := rfl
    rw [e5]
    have hext : (bind_params params args
        (Environment.new_enclosed cenv)).get name = some v := by
      rw [bind_params_get_not_bound params args _ name hnb]
      simp [Environment.new_enclosed, Environment.get, List.lookup, hget]
    simp only [apply_function, eval_block_statement, eval_blockGo,
      eval_statement, eval_expression, hext]
    cases v <;> simp_all
  · rfl

/-- C5 witness: the universal part at a concrete captured environment
binding `a ↦ 5`, a parameterless function, no arguments. -/
theorem c5_witness :
    apply_function 5 (.Function []
      [.ExpressionStatement (.Identifier "a")]
      (.mk [("a", .Integer 5)] none)) [] = .ok (.Integer 5) :=
  c5_closure_outlives_scope.1 0 (.mk [("a", .Integer 5)] none) [] [] "a"
    (.Integer 5) (by rfl) (by intro x h; cases h) (by intro s h; cases h)

/-- C10: evaluating a `FunctionLiteral` captures the environment value
as it is at that moment (Rust deep-clones it), so bindings changed in
the defining environment afterwards are not observable through a later
call: after `a` is rebound, calling the previously defined function
still sees the capture-time value. -/
theorem c10_capture_deep_copy :
    (∀ (fuel : Nat) (params : List Expression) (body : List Statement)
       (env : Environment),
      eval_expression (fuel + 1) (.FunctionLiteral params body) env =
        .ok (.Function params body env) env) ∧
    (∀ (env : Environment) (name fname : String) (v w : Object)
       (fuel : Nat),
      fname ≠ name → fname ≠ "dekhao" → env.get name = some v →
      (∀ x, v ≠ .ReturnValue x) →
      eval_expression (fuel + 8) (.Call (.Identifier fname) [])
        ((env.set fname (.Function []
          [.ExpressionStatement (.Identifier name)] env)).set name w) =
        .ok v ((env.set fname (.Function []
          [.ExpressionStatement (.Identifier name)] env)).set name w)) ∧
    outcomeObj (eval 30 [
      .Let (.Identifier "a") (.IntegerLiteral 1),
      .Let (.Identifier "f")
        (.FunctionLiteral [] [.ExpressionStatement (.Identifier "a")]),
      .Let (.Identifier "a") (.IntegerLiteral 2),
      .ExpressionStatement (.Call (.Identifier "f") [])]
      environmentNew) = some (.Integer 1) := by
  refine ⟨fun _ _ _ _ => rfl, ?_, rfl⟩
  intro env name fname v w fuel hfn hfd hget hnr
  have e8 : fuel + 8 = fuel + 1 + 1 + 1 + 1 + 1 + 1 + 1 + 1 := rfl
  rw [e8]
  have hgf : ((env.set fname (.Function []
      [.ExpressionStatement (.Identifier name)] env)).set name w).get fname =
      some (.Function [] [.ExpressionStatement (.Identifier name)] env) := by
    rw [env_get_set_ne _ name w fname (fun h => hfn h.symm)]
    exact env_get_set_self _ fname _
  have hext : (bind_params [] []
      (Environment.new_enclosed env)).get name = some v := by
    show (Environment.new_enclosed env).get name = some v
    simp [Environment.new_enclosed, Environment.get, List.lookup, hget]
  simp only [eval_expression, eval_call_fallback, eval_expressions,
    apply_function, eval_block_statement, eval_blockGo, eval_statement,
    hgf, hfd, hext, is_error]
  simp only [hfd, if_false]
  cases v <;> simp_all

/-- C10 witness: the capture/mutate part at a concrete environment
binding `a ↦ 1`, rebinding `a ↦ 2` after the capture; the call still
returns 1. -/
theorem c10_witness :
    eval_expression 8 (.Call (.Identifier "f") [])
      (((Environment.mk [("a", .Integer 1)] none).set "f" (.Function []
        [.ExpressionStatement (.Identifier "a")]
        (.mk [("a", .Integer 1)] none))).set "a" (.Integer 2)) =
      .ok (.Integer 1)
        (((Environment.mk [("a", .Integer 1)] none).set "f" (.Function []
          [.ExpressionStatement (.Identifier "a")]
          (.mk [("a", .Integer 1)] none))).set "a" (.Integer 2)) :=
  c10_capture_deep_copy.2.1 (.mk [("a", .Integer 1)] none) "a" "f"
    (.Integer 1) (.Integer 2) 0 (by simp) (by simp) (by rfl)
    (by intro x h; cases h)

/-- C1 counterexample: a statement containing the division-by-zero
subexpression `1/0` does not evaluate to an `Error` value — the
division panics, i.e. the evaluation faults, both through the full
pipeline on the source text `1/0;` and at the AST level for the
spec's own example `dekhao(1/0)`. -/
theorem c1_counterexample :
    run_source 100 100 "1/0;" = .fault "attempt to divide by zero" ∧
    eval 10 [.ExpressionStatement (.Call (.Identifier "dekhao")
      [.Infix (.IntegerLiteral 1) "/" (.IntegerLiteral 0)])]
      environmentNew = .fault "attempt to divide by zero" ∧
    (∀ o, RunResult.fault "attempt to divide by zero" ≠ .value o) := by
  refine ⟨rfl, rfl, ?_⟩
  intro o
  simp

/-- C1 amended: an undefined-identifier subexpression, once its
evaluation is reached, short-circuits the whole statement to the single
`Error` value `identifier not found: <name>` and never raises an
uncatchable fault — also from inside a larger infix expression (whose
right operand is then never evaluated) and from inside a `dekhao` call
statement; a division-by-zero subexpression, by contrast, raises a
fault (Rust panic) that escapes `eval`. -/
theorem c1_amended_error_propagation :
    (∀ (fuel : Nat) (env : Environment) (name : String),
      env.get name = none →
      eval (fuel + 3) [.ExpressionStatement (.Identifier name)] env =
        .ok (.Error ("identifier not found: " ++ name)) env) ∧
    (∀ (fuel : Nat) (env : Environment) (name op : String) (r : Expression),
      env.get name = none →
      eval_expression (fuel + 2) (.Infix (.Identifier name) op r) env =
        .ok (.Error ("identifier not found: " ++ name)) env) ∧
    (∀ (fuel : Nat) (name : String),
      environmentNew.get name = none →
      eval (fuel + 5) [.ExpressionStatement (.Call (.Identifier "dekhao")
        [.Identifier name])] environmentNew =
        .ok (.Error ("identifier not found: " ++ name)) environmentNew) ∧
    (∀ (fuel : Nat) (env : Environment) (l : Int),
      eval_expression (fuel + 2)
        (.Infix (.IntegerLiteral l) "/" (.IntegerLiteral 0)) env =
        .fault "attempt to divide by zero") := by
  refine ⟨?_, ?_, ?_, ?_⟩
  · intro fuel env name hget
    have e3 : fuel + 3 = fuel + 1 + 1 + 1 := rfl
    rw [e3]
    simp [eval, evalGo, eval_statement, eval_expression, hget,
      format_boolean]
  · intro fuel env name op r hget
    have e2 : fuel + 2 = fuel + 1 + 1 := rfl
    rw [e2]
    simp [eval_expression, hget, is_error]
  · intro fuel name hget
    have e5 : fuel + 5 = fuel + 1 + 1 + 1 + 1 + 1 := rfl
    rw [e5]
    have hd : environmentNew.get "dekhao" =
        some (.BuiltinNative .dekhao) := rfl
    simp [eval, evalGo, eval_statement, eval_expression,
      eval_dekhao_args, hd, hget, is_error]
  · intro fuel env l
    have e2 : fuel + 2 = fuel + 1 + 1 := rfl
    rw [e2]
    simp [eval_expression, eval_infix_expression, is_error]

/-- C1 amended witness: the identifier part at the concrete name "zzz"
in an empty environment. -/
theorem c1_amended_witness :
    eval 3 [.ExpressionStatement (.Identifier "zzz")] (.mk [] none) =
      .ok (.Error ("identifier not found: " ++ "zzz")) (.mk [] none) :=
  c1_amended_error_propagation.1 0 (.mk [] none) "zzz" (by rfl)

/-- Helper: a position at or past the end of the input reads NUL. -/
theorem chAt_ge_len (input : List Char) (i : Nat) (h : input.length ≤ i) :
    chAt input i = nulChar := by
  unfold chAt
  exact List.getD_eq_default _ _ h

/-- Helper: reading at the boundary of an append. -/
theorem chAt_append_cons (pre : List Char) (c : Char) (post : List Char) :
    chAt (pre ++ c :: post) pre.length = c := by
  unfold chAt
  rw [List.getD_eq_getElem?_getD, List.getElem?_append_right (Nat.le_refl _)]
  simp

/-- Helper: `read_char` loads the character at the old `read_position`
and moves there. -/
theorem read_char_fields (s : Lexer) :
    (read_char s).input = s.input ∧
    (read_char s).position = s.read_position ∧
    (read_char s).read_position = s.read_position + 1 ∧
    (read_char s).ch = chAt s.input s.read_position := by
  have hc : (if s.read_position ≥ s.input.length then nulChar
      else s.input.getD s.read_position nulChar) =
      chAt s.input s.read_position := by
    unfold chAt
    split
    · rw [List.getD_eq_default]; omega
    · rfl
  unfold read_char
  rw [hc]
  dsimp only
  split <;> simp

/-- Helper: `read_char` preserves the scan-state invariant and advances
the position by one. -/
theorem read_char_inv (s : Lexer) (h : LexInv s) :
    LexInv (read_char s) ∧ (read_char s).position = s.position + 1 ∧
      (read_char s).input = s.input := by
  obtain ⟨_, h2⟩ := h
  obtain ⟨f1, f2, f3, f4⟩ := read_char_fields s
  refine ⟨⟨?_, ?_⟩, ?_, f1⟩
  · rw [f4, f1, f2]
  · rw [f3, f2]
  · rw [f2, h2]

/-- Helper: iterated `read_char` preserves the invariant, keeps the
input, and advances the position by its count. -/
theorem advN_spec : ∀ (n : Nat) (s : Lexer), LexInv s →
    LexInv (advN n s) ∧ (advN n s).position = s.position + n ∧
      (advN n s).input = s.input := by
  intro n
  induction n with
  | zero => intro s h; exact ⟨h, by simp [advN], rfl⟩
  | succ n ih =>
    intro s h
    obtain ⟨h1, h2, h3⟩ := read_char_inv s h
    obtain ⟨g1, g2, g3⟩ := ih (read_char s) h1
    refine ⟨g1, ?_, by rw [show advN (n+1) s = advN n (read_char s) from rfl,
      g3, h3]⟩
    rw [show advN (n+1) s = advN n (read_char s) from rfl, g2, h2]
    omega

/-- Helper: two characters cannot be equal when only one of them is an
identifier character. -/
theorem identChar_ne (c x : Char) (h : isAsciiIdentChar c = true)
    (hx : isAsciiIdentChar x = false) : c ≠ x := by
  intro he
  rw [he, hx] at h
  cases h

/-- Helper: an ASCII identifier character is not whitespace. -/
theorem identChar_not_ws (c : Char) (h : isAsciiIdentChar c = true) :
    isAsciiWhitespace c = false := by
  by_contra hw
  rw [Bool.not_eq_false] at hw
  unfold isAsciiWhitespace at hw
  simp only [Bool.or_eq_true, decide_eq_true_eq] at hw
  rcases hw with ((((hc | hc) | hc) | hc) | hc) <;> rw [hc] at h <;>
    revert h <;> decide

/-- Helper: a whitespace position is not an identifier position. -/
theorem ws_not_identPos (input : List Char) (i : Nat)
    (h : isAsciiWhitespace (chAt input i) = true) :
    isIdentCharPos input i = false := by
  unfold isAsciiWhitespace at h
  simp only [Bool.or_eq_true, decide_eq_true_eq] at h
  unfold isIdentCharPos
  rcases h with ((((hc | hc) | hc) | hc) | hc) <;> rw [hc] <;>
    split <;> decide

/-- Helper: a position at or past the end of the input is not an
identifier position. -/
theorem end_not_identPos (input : List Char) (i : Nat)
    (h : input.length ≤ i) : isIdentCharPos input i = false := by
  unfold isIdentCharPos
  rw [chAt_ge_len input i h]
  have : i ≥ input.length := h
  simp [this]
  decide

/-- Helper: an ASCII identifier character makes its position an
identifier position. -/
theorem identChar_identPos (input : List Char) (i : Nat)
    (h : isAsciiIdentChar (chAt input i) = true) :
    isIdentCharPos input i = true := by
  unfold isAsciiIdentChar at h
  unfold isIdentCharPos
  rw [Bool.or_eq_true]
  left
  exact h

/-- Helper: on an invariant-satisfying state, the stateful identifier
test agrees with the positional one. -/
theorem identCharAt_pos (s : Lexer) (h : LexInv s) :
    isIdentCharAt s = isIdentCharPos s.input s.position := by
  unfold isIdentCharAt isIdentCharPos is_unicode_bengali_letter
  rw [h.1]
  rfl

/-- Helper: `skip_whitespaceGo` consumes exactly a whitespace run. -/
theorem skip_whitespaceGo_run :
    ∀ (w pre post : List Char) (s : Lexer) (fuel : Nat),
      s.input = pre ++ w ++ post →
      s.position = pre.length →
      LexInv s →
      w.all isAsciiWhitespace = true →
      isAsciiWhitespace (chAt s.input (pre.length + w.length)) = false →
      w.length + 1 ≤ fuel →
      skip_whitespaceGo fuel s = advN w.length s := by
  intro w
  induction w with
  | nil =>
    intro pre post s fuel _ hpos hinv _ hstop hfuel
    obtain ⟨f, rfl⟩ : ∃ f, fuel = f + 1 := ⟨fuel - 1, by omega⟩
    show (if isAsciiWhitespace s.ch then skip_whitespaceGo f (read_char s)
      else s) = advN 0 s
    simp only [List.length_nil, Nat.add_zero] at hstop
    simp [hinv.1, hpos, hstop, advN]
  | cons c w' ih =>
    intro pre post s fuel hin hpos hinv hall hstop hfuel
    simp only [List.length_cons] at hfuel
    obtain ⟨f, rfl⟩ : ∃ f, fuel = f + 1 := ⟨fuel - 1, by omega⟩
    have hc : s.ch = c := by
      rw [hinv.1, hpos, hin, show pre ++ (c :: w') ++ post =
        pre ++ c :: (w' ++ post) by simp]
      exact chAt_append_cons pre c (w' ++ post)
    simp only [List.all_cons, Bool.and_eq_true] at hall
    obtain ⟨hinv', hpos', hin'⟩ := read_char_inv s hinv
    show (if isAsciiWhitespace s.ch then skip_whitespaceGo f (read_char s)
      else s) = advN (c :: w').length s
    rw [hc, hall.1]
    simp only [if_true]
    have hrec := ih (pre ++ [c]) post (read_char s) f
      (by rw [hin', hin]; simp)
      (by rw [hpos', hpos]; simp)
      hinv' hall.2
      (by rw [hin']
          have harith : (pre ++ [c]).length + w'.length =
            pre.length + (c :: w').length := by simp; omega
          rw [harith]; exact hstop)
      (by omega)
    rw [hrec]
    rfl

/-- Helper: `read_identifierGo` consumes exactly an identifier run. -/
theorem read_identifierGo_run :
    ∀ (w pre post : List Char) (s : Lexer) (fuel : Nat),
      s.input = pre ++ w ++ post →
      s.position = pre.length →
      LexInv s →
      w.all isAsciiIdentChar = true →
      isIdentCharPos s.input (pre.length + w.length) = false →
      w.length + 1 ≤ fuel →
      read_identifierGo fuel s = advN w.length s := by
  intro w
  induction w with
  | nil =>
    intro pre post s fuel _ hpos hinv _ hstop hfuel
    obtain ⟨f, rfl⟩ : ∃ f, fuel = f + 1 := ⟨fuel - 1, by omega⟩
    show (if isIdentCharAt s then read_identifierGo f (read_char s)
      else s) = advN 0 s
    simp only [List.length_nil, Nat.add_zero] at hstop
    simp [identCharAt_pos s hinv, hpos, hstop, advN]
  | cons c w' ih =>
    intro pre post s fuel hin hpos hinv hall hstop hfuel
    simp only [List.length_cons] at hfuel
    obtain ⟨f, rfl⟩ : ∃ f, fuel = f + 1 := ⟨fuel - 1, by omega⟩
    have hcc : chAt s.input s.position = c := by
      rw [hpos, hin, show pre ++ (c :: w') ++ post =
        pre ++ c :: (w' ++ post) by simp]
      exact chAt_append_cons pre c (w' ++ post)
    simp only [List.all_cons, Bool.and_eq_true] at hall
    have hguard : isIdentCharAt s = true := by
      rw [identCharAt_pos s hinv, hpos]
      exact identChar_identPos _ _ (by rw [← hpos, hcc]; exact hall.1)
    obtain ⟨hinv', hpos', hin'⟩ := read_char_inv s hinv
    show (if isIdentCharAt s then read_identifierGo f (read_char s)
      else s) = advN (c :: w').length s
    rw [hguard]
    simp only [if_true]
    have hrec := ih (pre ++ [c]) post (read_char s) f
      (by rw [hin', hin]; simp)
      (by rw [hpos', hpos]; simp)
      hinv' hall.2
      (by rw [hin']
          have harith : (pre ++ [c]).length + w'.length =
            pre.length + (c :: w').length := by simp; omega
          rw [harith]; exact hstop)
      (by omega)
    rw [hrec]
    rfl

/-- Helper: `advN` never changes the scanned input. -/
theorem advN_input : ∀ (n : Nat) (s : Lexer), (advN n s).input = s.input := by
  intro n
  induction n with
  | zero => intro s; rfl
  | succ n ih =>
    intro s
    rw [show advN (n+1) s = advN n (read_char s) from rfl, ih,
      (read_char_fields s).1]

/-- Helper: `skip_whitespace` is the identity when the current character
is not whitespace. -/
theorem skip_whitespace_nop (s : Lexer)
    (h : isAsciiWhitespace s.ch = false) : skip_whitespace s = s := by
  unfold skip_whitespace
  show (if isAsciiWhitespace s.ch then skip_whitespaceGo s.input.length
    (read_char s) else s) = s
  simp [h]

/-- Helper: `skip_whitespace` on a state standing at a whitespace run
advances exactly past the run (the built-in fuel is always ample). -/
theorem skip_whitespace_run (w pre post : List Char) (s : Lexer)
    (hin : s.input = pre ++ w ++ post) (hpos : s.position = pre.length)
    (hinv : LexInv s) (hall : w.all isAsciiWhitespace = true)
    (hstop : isAsciiWhitespace (chAt s.input (pre.length + w.length)) =
      false) :
    skip_whitespace s = advN w.length s := by
  unfold skip_whitespace
  apply skip_whitespaceGo_run w pre post s _ hin hpos hinv hall hstop
  have hlen : s.input.length = pre.length + w.length + post.length := by
    rw [hin]; simp; omega
  omega

/-- Helper: `read_identifier` on a state standing at a maximal
identifier run returns that run as the literal and advances past it. -/
theorem read_identifier_run (w pre post : List Char) (s : Lexer)
    (hin : s.input = pre ++ w ++ post) (hpos : s.position = pre.length)
    (hinv : LexInv s) (hall : w.all isAsciiIdentChar = true)
    (hstop : isIdentCharPos s.input (pre.length + w.length) = false) :
    read_identifier s = (String.mk w, advN w.length s) := by
  have hfuel : w.length + 1 ≤ s.input.length + 1 := by
    have hlen : s.input.length = pre.length + w.length + post.length := by
      rw [hin]; simp; omega
    omega
  have hgo : read_identifierGo (s.input.length + 1) s = advN w.length s :=
    read_identifierGo_run w pre post s _ hin hpos hinv hall hstop hfuel
  show (String.mk ((s.input.drop s.position).take
      ((read_identifierGo (s.input.length + 1) s).position - s.position)),
    read_identifierGo (s.input.length + 1) s) = (String.mk w, advN w.length s)
  rw [hgo]
  obtain ⟨_, hposN, _⟩ := advN_spec w.length s hinv
  rw [hposN, hpos, hin]
  have harith : pre.length + w.length - pre.length = w.length := by omega
  rw [harith, show pre ++ w ++ post = pre ++ (w ++ post) by simp,
    List.drop_left, List.take_left]

/-- Helper: the multi-word lookahead loop stops without moving when the
scanner stands at or past the end of the input. -/
theorem ident_multiword_stop (litr : String) (tt : TokenType) (s : Lexer)
    (fuel : Nat) (hinv : LexInv s) (hend : s.input.length ≤ s.position) :
    ident_multiword_loopGo (fuel + 1) litr tt s = (litr, tt, s) := by
  have hch : s.ch = nulChar := by rw [hinv.1]; exact chAt_ge_len _ _ hend
  have hskip : skip_whitespace s = s :=
    skip_whitespace_nop s (by rw [hch]; decide)
  show (let l1 := skip_whitespace s;
    if l1.ch.isAlpha || l1.ch = '_' || is_unicode_bengali_letter l1 then _
    else (litr, tt, l1)) = (litr, tt, s)
  rw [hskip]
  have hb : is_unicode_bengali_letter s = false := by
    unfold is_unicode_bengali_letter
    simp [hend]
  have h1 : nulChar.isAlpha = false := by decide
  have h2 : nulChar ≠ '_' := by decide
  simp [hch, hb, h1, h2]

/-- Helper: the multi-word lookahead loop, upon reading a second word
whose two-word candidate is not a keyword, restores the snapshot
exactly: it returns the state it started from. -/
theorem ident_multiword_rewind (litr : String) (tt : TokenType)
    (s : Lexer) (pre ws w2 : List Char) (fuel : Nat)
    (hin : s.input = pre ++ ws ++ w2)
    (hpos : s.position = pre.length)
    (hinv : LexInv s)
    (hws : ws.all isAsciiWhitespace = true)
    (hw2 : w2.all isAsciiIdentChar = true)
    (hw2ne : w2 ≠ [])
    (hcand : lookup_ident (litr ++ " " ++ String.mk w2) = .Ident) :
    ident_multiword_loopGo (fuel + 1) litr tt s = (litr, tt, s) := by
  obtain ⟨c2, w2', rfl⟩ : ∃ c2 w2', w2 = c2 :: w2' := by
    cases w2 with
    | nil => exact absurd rfl hw2ne
    | cons a b => exact ⟨a, b, rfl⟩
  have hc2 : isAsciiIdentChar c2 = true := by
    simp only [List.all_cons, Bool.and_eq_true] at hw2
    exact hw2.1
  have hstopws : isAsciiWhitespace (chAt s.input
      (pre.length + ws.length)) = false := by
    rw [hin, show pre ++ ws ++ c2 :: w2' =
      (pre ++ ws) ++ c2 :: w2' by simp,
      show (pre.length + ws.length) = (pre ++ ws).length by simp,
      chAt_append_cons]
    exact identChar_not_ws c2 hc2
  have hskip : skip_whitespace s = advN ws.length s :=
    skip_whitespace_run ws pre (c2 :: w2') s hin hpos hinv hws hstopws
  obtain ⟨hinv1, hpos1, hin1⟩ := advN_spec ws.length s hinv
  have hch1 : (advN ws.length s).ch = c2 := by
    rw [hinv1.1, hin1, hpos1, hpos, hin,
      show pre ++ ws ++ c2 :: w2' = (pre ++ ws) ++ c2 :: w2' by simp,
      show (pre.length + ws.length) = (pre ++ ws).length by simp,
      chAt_append_cons]
  have hident1 : isIdentCharAt (advN ws.length s) = true := by
    unfold isIdentCharAt
    unfold isAsciiIdentChar at hc2
    rw [hch1]
    simp only [Bool.or_eq_true] at hc2 ⊢
    rcases hc2 with h | h
    · exact Or.inl (Or.inl h)
    · exact Or.inl (Or.inr h)
  have hstopend : isIdentCharPos (advN ws.length s).input
      ((pre ++ ws).length + (c2 :: w2').length) = false := by
    apply end_not_identPos
    rw [hin1, hin]
    simp
    omega
  have hread : read_identifier (advN ws.length s) =
      (String.mk (c2 :: w2'), advN (c2 :: w2').length (advN ws.length s)) :=
    read_identifier_run (c2 :: w2') (pre ++ ws) [] (advN ws.length s)
      (by rw [hin1, hin]; simp) (by rw [hpos1, hpos]; simp) hinv1 hw2
      hstopend
  show (let l1 := skip_whitespace s;
    if l1.ch.isAlpha || l1.ch = '_' || is_unicode_bengali_letter l1 then
      let p := read_identifier l1
      let candidate := litr ++ " " ++ p.1
      let candidate_type := lookup_ident candidate
      if candidate_type ≠ TokenType.Ident then
        ident_multiword_loopGo fuel candidate candidate_type p.2
      else
        (litr, tt,
          { p.2 with position := s.position, read_position := s.read_position,
                     ch := s.ch, line := s.line, column := s.column })
    else (litr, tt, l1)) = (litr, tt, s)
  rw [hskip]
  have hident1' : ((advN ws.length s).ch.isAlpha ||
      (advN ws.length s).ch = '_' ||
      is_unicode_bengali_letter (advN ws.length s)) = true := hident1
  have hinp2 : (advN (c2 :: w2').length (advN ws.length s)).input =
      s.input := by rw [advN_input, advN_input]
  simp only [hident1', hread, hcand, ne_eq, not_true_eq_false, if_false,
    if_true, ite_true, ite_false]
  simp
  rw [show advN (w2'.length + 1) (advN ws.length s) =
    advN (c2 :: w2').length (advN ws.length s) from rfl, hinp2]

/-- Helper: when the character reached after whitespace skipping starts
an identifier, `next_token` reduces to the main dispatch at that
character (no comment chain fires). -/
theorem next_token_dispatch_ident (s : Lexer) (k : Nat)
    (hskip : skip_whitespace s = advN k s)
    (hident : isAsciiIdentChar (advN k s).ch = true) :
    next_token s =
      next_token_match (advN k s).line (advN k s).column (advN k s) := by
  have hne : ∀ x : Char, isAsciiIdentChar x = false → (advN k s).ch ≠ x :=
    fun x hx => identChar_ne _ _ hident hx
  unfold next_token
  rw [show next_tokenGo (s.input.length + 2) s =
    next_tokenStep (next_tokenGo (s.input.length + 1)) s from rfl]
  unfold next_tokenStep
  rw [hskip]
  simp [hne '/' (by decide), hne '#' (by decide), hne '-' (by decide),
    hne '=' (by decide), hne lbraceChar (by decide), hne '(' (by decide),
    hne dquoteChar (by decide), hne squoteChar (by decide)]

/-- Helper: the lookahead-free reference lexer dispatches identically at
an identifier-starting character. -/
theorem next_token_plain_dispatch_ident (s : Lexer) (k : Nat)
    (hskip : skip_whitespace s = advN k s)
    (hident : isAsciiIdentChar (advN k s).ch = true) :
    next_token_plain s =
      next_token_match_plain (advN k s).line (advN k s).column (advN k s) := by
  have hne : ∀ x : Char, isAsciiIdentChar x = false → (advN k s).ch ≠ x :=
    fun x hx => identChar_ne _ _ hident hx
  unfold next_token_plain
  rw [show next_token_plainGo (s.input.length + 2) s =
    next_token_plainStep (next_token_plainGo (s.input.length + 1)) s from rfl]
  unfold next_token_plainStep
  rw [hskip]
  simp [hne '/' (by decide), hne '#' (by decide), hne '-' (by decide),
    hne '=' (by decide), hne lbraceChar (by decide), hne '(' (by decide),
    hne dquoteChar (by decide), hne squoteChar (by decide)]

/-- Helper: the main dispatch at the first of two whitespace-separated
identifier words whose two-word candidate is no keyword emits the first
word as its own token and — through the restored snapshot plus the
trailing `read_char` — leaves the scanner one character past the word,
exactly as the lookahead-free dispatch does. -/
theorem next_token_match_ident_first (tsl tsc : Nat) (t : Lexer)
    (pre w1 ws w2 : List Char)
    (hin : t.input = pre ++ w1 ++ ws ++ w2)
    (hpos : t.position = pre.length)
    (hinv : LexInv t)
    (hw1 : w1.all isAsciiIdentChar = true) (hw1ne : w1 ≠ [])
    (hws : ws.all isAsciiWhitespace = true) (hwsne : ws ≠ [])
    (hw2 : w2.all isAsciiIdentChar = true) (hw2ne : w2 ≠ [])
    (hcand : lookup_ident (String.mk w1 ++ " " ++ String.mk w2) = .Ident) :
    next_token_match tsl tsc t =
      (Token.mk (lookup_ident (String.mk w1)) (String.mk w1) tsl tsc,
        read_char (advN w1.length t)) ∧
    next_token_match_plain tsl tsc t =
      (Token.mk (lookup_ident (String.mk w1)) (String.mk w1) tsl tsc,
        read_char (advN w1.length t)) := by
  obtain ⟨c1, w1', rfl⟩ : ∃ c1 w1', w1 = c1 :: w1' := by
    cases w1 with
    | nil => exact absurd rfl hw1ne
    | cons a b => exact ⟨a, b, rfl⟩
  obtain ⟨c0, ws', rfl⟩ : ∃ c0 ws', ws = c0 :: ws' := by
    cases ws with
    | nil => exact absurd rfl hwsne
    | cons a b => exact ⟨a, b, rfl⟩
  have hc0 : isAsciiWhitespace c0 = true := by
    simp only [List.all_cons, Bool.and_eq_true] at hws
    exact hws.1
  have hch : t.ch = c1 := by
    rw [hinv.1, hin, hpos,
      show pre ++ c1 :: w1' ++ (c0 :: ws') ++ w2 =
        pre ++ c1 :: (w1' ++ (c0 :: ws') ++ w2) by simp,
      chAt_append_cons]
  have hc1 : isAsciiIdentChar c1 = true := by
    simp only [List.all_cons, Bool.and_eq_true] at hw1
    exact hw1.1
  have hcht : isAsciiIdentChar t.ch = true := by rw [hch]; exact hc1
  have hne : ∀ x : Char, isAsciiIdentChar x = false → t.ch ≠ x :=
    fun x hx => identChar_ne _ _ hcht hx
  have hidt : isIdentCharAt t = true := by
    unfold isIdentCharAt
    unfold isAsciiIdentChar at hcht
    simp only [Bool.or_eq_true] at hcht ⊢
    rcases hcht with h | h
    · exact Or.inl (Or.inl h)
    · exact Or.inl (Or.inr h)
  have hstop1 : isIdentCharPos t.input
      (pre.length + (c1 :: w1').length) = false := by
    apply ws_not_identPos
    rw [hin,
      show pre ++ c1 :: w1' ++ (c0 :: ws') ++ w2 =
        (pre ++ c1 :: w1') ++ c0 :: (ws' ++ w2) by simp,
      show pre.length + (c1 :: w1').length = (pre ++ c1 :: w1').length
        by simp,
      chAt_append_cons]
    exact hc0
  have hread : read_identifier t =
      (String.mk (c1 :: w1'), advN (c1 :: w1').length t) :=
    read_identifier_run (c1 :: w1') pre ((c0 :: ws') ++ w2) t
      (by rw [hin]; simp) hpos hinv hw1 hstop1
  obtain ⟨hinv1, hpos1, hin1⟩ := advN_spec (c1 :: w1').length t hinv
  have hloop : ident_multiword_loopGo (t.input.length + 2)
      (String.mk (c1 :: w1')) (lookup_ident (String.mk (c1 :: w1')))
      (advN (c1 :: w1').length t) =
      (String.mk (c1 :: w1'), lookup_ident (String.mk (c1 :: w1')),
        advN (c1 :: w1').length t) := by
    rw [show t.input.length + 2 = t.input.length + 1 + 1 from rfl]
    exact ident_multiword_rewind _ _ _ (pre ++ c1 :: w1') (c0 :: ws') w2 _
      (by rw [hin1, hin])
      (by rw [hpos1, hpos]; simp)
      hinv1 hws hw2 hw2ne hcand
  constructor
  · unfold next_token_match
    simp [hne '=' (by decide), hne ';' (by decide), hne '(' (by decide),
      hne ')' (by decide), hne ',' (by decide), hne '+' (by decide),
      hne '-' (by decide), hne '!' (by decide), hne '/' (by decide),
      hne '*' (by decide), hne squoteChar (by decide),
      hne '<' (by decide), hne '>' (by decide),
      hne lbraceChar (by decide), hne rbraceChar (by decide),
      hne dquoteChar (by decide), hne '.' (by decide),
      hidt, hread]
    rw [show advN (w1'.length + 1) t = advN (c1 :: w1').length t from rfl,
      hloop]
    simp
  · unfold next_token_match_plain
    simp [hidt, hread]

/-- Helper: the main dispatch at a final identifier word that ends the
input emits that word and advances one character past it (to the NUL
sentinel), identically in both scanners: the lookahead loop's
whitespace skip and identifier test both fail at end of input. -/
theorem next_token_match_ident_last (tsl tsc : Nat) (t : Lexer)
    (pre w2 : List Char)
    (hin : t.input = pre ++ w2)
    (hpos : t.position = pre.length)
    (hinv : LexInv t)
    (hw2 : w2.all isAsciiIdentChar = true) (hw2ne : w2 ≠ []) :
    next_token_match tsl tsc t =
      (Token.mk (lookup_ident (String.mk w2)) (String.mk w2) tsl tsc,
        read_char (advN w2.length t)) ∧
    next_token_match_plain tsl tsc t =
      (Token.mk (lookup_ident (String.mk w2)) (String.mk w2) tsl tsc,
        read_char (advN w2.length t)) := by
  obtain ⟨c2, w2', rfl⟩ : ∃ c2 w2', w2 = c2 :: w2' := by
    cases w2 with
    | nil => exact absurd rfl hw2ne
    | cons a b => exact ⟨a, b, rfl⟩
  have hch : t.ch = c2 := by
    rw [hinv.1, hin, hpos, chAt_append_cons]
  have hc2 : isAsciiIdentChar c2 = true := by
    simp only [List.all_cons, Bool.and_eq_true] at hw2
    exact hw2.1
  have hcht : isAsciiIdentChar t.ch = true := by rw [hch]; exact hc2
  have hne : ∀ x : Char, isAsciiIdentChar x = false → t.ch ≠ x :=
    fun x hx => identChar_ne _ _ hcht hx
  have hidt : isIdentCharAt t = true := by
    unfold isIdentCharAt
    unfold isAsciiIdentChar at hcht
    simp only [Bool.or_eq_true] at hcht ⊢
    rcases hcht with h | h
    · exact Or.inl (Or.inl h)
    · exact Or.inl (Or.inr h)
  have hstop1 : isIdentCharPos t.input
      (pre.length + (c2 :: w2').length) = false := by
    apply end_not_identPos
    rw [hin]
    simp
  have hread : read_identifier t =
      (String.mk (c2 :: w2'), advN (c2 :: w2').length t) :=
    read_identifier_run (c2 :: w2') pre [] t (by rw [hin]; simp) hpos hinv
      hw2 hstop1
  obtain ⟨hinv1, hpos1, hin1⟩ := advN_spec (c2 :: w2').length t hinv
  have hloop : ident_multiword_loopGo (t.input.length + 2)
      (String.mk (c2 :: w2')) (lookup_ident (String.mk (c2 :: w2')))
      (advN (c2 :: w2').length t) =
      (String.mk (c2 :: w2'), lookup_ident (String.mk (c2 :: w2')),
        advN (c2 :: w2').length t) := by
    rw [show t.input.length + 2 = t.input.length + 1 + 1 from rfl]
    exact ident_multiword_stop _ _ _ _ hinv1
      (by rw [hin1, hpos1, hpos, hin]; simp)
  constructor
  · unfold next_token_match
    simp [hne '=' (by decide), hne ';' (by decide), hne '(' (by decide),
      hne ')' (by decide), hne ',' (by decide), hne '+' (by decide),
      hne '-' (by decide), hne '!' (by decide), hne '/' (by decide),
      hne '*' (by decide), hne squoteChar (by decide),
      hne '<' (by decide), hne '>' (by decide),
      hne lbraceChar (by decide), hne rbraceChar (by decide),
      hne dquoteChar (by decide), hne '.' (by decide),
      hidt, hread]
    rw [show advN (w2'.length + 1) t = advN (c2 :: w2').length t from rfl,
      hloop]
    simp
  · unfold next_token_match_plain
    simp [hidt, hread]

/-- Helper: past the end of the input both scanners emit `Eof` from the
same state. -/
theorem next_token_eof_both (s : Lexer) (hinv : LexInv s)
    (hend : s.input.length ≤ s.position) :
    next_token s = (Token.mk .Eof "" s.line s.column, read_char s) ∧
    next_token_plain s = (Token.mk .Eof "" s.line s.column, read_char s) := by
  have hch : s.ch = nulChar := by rw [hinv.1]; exact chAt_ge_len _ _ hend
  have hnul : ∀ x : Char, x ≠ nulChar → (nulChar = x) = False :=
    fun x hx => eq_false (fun he => hx he.symm)
  have hb : is_unicode_bengali_letter s = false := by
    unfold is_unicode_bengali_letter
    simp [hend]
  have hid : isIdentCharAt s = false := by
    unfold isIdentCharAt
    rw [hch, hb]
    decide
  have hdig : nulChar.isDigit = false := by decide
  have hskipn : skip_whitespace s = s :=
    skip_whitespace_nop s (by rw [hch]; decide)
  constructor
  · unfold next_token
    rw [show next_tokenGo (s.input.length + 2) s =
      next_tokenStep (next_tokenGo (s.input.length + 1)) s from rfl]
    unfold next_tokenStep
    rw [hskipn]
    unfold next_token_match
    simp [hch, hid, hdig, hnul '/' (by decide), hnul '#' (by decide),
      hnul '-' (by decide), hnul '=' (by decide),
      hnul lbraceChar (by decide), hnul '(' (by decide),
      hnul dquoteChar (by decide), hnul squoteChar (by decide),
      hnul ';' (by decide), hnul ')' (by decide), hnul ',' (by decide),
      hnul '+' (by decide), hnul '!' (by decide), hnul '*' (by decide),
      hnul '<' (by decide), hnul '>' (by decide),
      hnul rbraceChar (by decide), hnul '.' (by decide)]
  · unfold next_token_plain
    rw [show next_token_plainGo (s.input.length + 2) s =
      next_token_plainStep (next_token_plainGo (s.input.length + 1)) s from rfl]
    unfold next_token_plainStep
    rw [hskipn]
    unfold next_token_match_plain next_token_match
    simp [hch, hid, hdig, hnul '/' (by decide), hnul '#' (by decide),
      hnul '-' (by decide), hnul '=' (by decide),
      hnul lbraceChar (by decide), hnul '(' (by decide),
      hnul dquoteChar (by decide), hnul squoteChar (by decide),
      hnul ';' (by decide), hnul ')' (by decide), hnul ',' (by decide),
      hnul '+' (by decide), hnul '!' (by decide), hnul '*' (by decide),
      hnul '<' (by decide), hnul '>' (by decide),
      hnul rbraceChar (by decide), hnul '.' (by decide)]

/-- Helper: one pull of the token stream, stated with projections so
that a rewritten `next_token` result reduces without evaluating the
scanner symbolically. -/
theorem tokenizeGo_succ (fuel : Nat) (l : Lexer) :
    tokenizeGo (fuel + 1) l =
      if (next_token l).1.token_type = TokenType.Eof then [(next_token l).1]
      else (next_token l).1 :: tokenizeGo fuel (next_token l).2 := rfl

/-- Helper: one pull of the reference token stream. -/
theorem tokenize_plainGo_succ (fuel : Nat) (l : Lexer) :
    tokenize_plainGo (fuel + 1) l =
      if (next_token_plain l).1.token_type = TokenType.Eof
      then [(next_token_plain l).1]
      else (next_token_plain l).1 ::
        tokenize_plainGo fuel (next_token_plain l).2 := rfl

/-- C6 (counterexample to the literal claim): lexing `"a b"` yields two
identifier tokens, and lexing `"b"` alone also yields an identifier
token, but the second token of `"a b"` carries column 3 while `"b"`
scanned in isolation carries column 1 — the token positions are NOT
identical to those obtained by lexing each word in isolation (they are
positions in the combined input, as they must be). -/
theorem c6_counterexample :
    ((tokenize ['a', ' ', 'b']).map (fun t => (t.token_type, t.literal)) =
      [(.Ident, "a"), (.Ident, "b"), (.Eof, "")]) ∧
    ((tokenize ['b']).map (fun t => (t.token_type, t.literal)) =
      [(.Ident, "b"), (.Eof, "")]) ∧
    ((tokenize ['a', ' ', 'b']).getD 1 eofToken).column ≠
      ((tokenize ['b']).getD 0 eofToken).column :=
  ⟨rfl, rfl, by decide⟩

/-- C6 (amended): for every input consisting of an identifier word, a
nonempty whitespace run, and a second identifier word, where neither
word nor the two-word candidate is a keyword, the lexer with multi-word
lookahead produces EXACTLY the token stream of the lookahead-free
reference scanner (so the rewind fully restores scan position, line and
column), namely the two identifier tokens followed by `Eof`. -/
theorem c6_amended_rewind_equiv
    (w1 ws w2 : List Char)
    (hw1 : w1.all isAsciiIdentChar = true) (hw1ne : w1 ≠ [])
    (hws : ws.all isAsciiWhitespace = true) (hwsne : ws ≠ [])
    (hw2 : w2.all isAsciiIdentChar = true) (hw2ne : w2 ≠ [])
    (hk1 : lookup_ident (String.mk w1) = .Ident)
    (hk2 : lookup_ident (String.mk w2) = .Ident)
    (hcand : lookup_ident (String.mk w1 ++ " " ++ String.mk w2) = .Ident) :
    tokenize (w1 ++ ws ++ w2) = tokenize_plain (w1 ++ ws ++ w2) ∧
    (tokenize (w1 ++ ws ++ w2)).map (fun t => (t.token_type, t.literal)) =
      [(.Ident, String.mk w1), (.Ident, String.mk w2), (.Eof, "")] := by
  obtain ⟨c1, w1', rfl⟩ : ∃ c1 w1', w1 = c1 :: w1' := by
    cases w1 with
    | nil => exact absurd rfl hw1ne
    | cons a b => exact ⟨a, b, rfl⟩
  obtain ⟨c0, ws', rfl⟩ : ∃ c0 ws', ws = c0 :: ws' := by
    cases ws with
    | nil => exact absurd rfl hwsne
    | cons a b => exact ⟨a, b, rfl⟩
  obtain ⟨c2, w2', rfl⟩ : ∃ c2 w2', w2 = c2 :: w2' := by
    cases w2 with
    | nil => exact absurd rfl hw2ne
    | cons a b => exact ⟨a, b, rfl⟩
  have hc1 : isAsciiIdentChar c1 = true := by
    have h := hw1
    simp only [List.all_cons, Bool.and_eq_true] at h
    exact h.1
  have hc2 : isAsciiIdentChar c2 = true := by
    have h := hw2
    simp only [List.all_cons, Bool.and_eq_true] at h
    exact h.1
  have hws'all : ws'.all isAsciiWhitespace = true := by
    have h := hws
    simp only [List.all_cons, Bool.and_eq_true] at h
    exact h.2
  obtain ⟨hf1, hf2, hf3, hf4⟩ := read_char_fields
    ⟨(c1 :: w1') ++ (c0 :: ws') ++ (c2 :: w2'), 0, 0, nulChar, 1, 0⟩
  have hin0 : (lexerNew ((c1 :: w1') ++ (c0 :: ws') ++ (c2 :: w2'))).input =
      (c1 :: w1') ++ (c0 :: ws') ++ (c2 :: w2') := hf1
  have hpos0 : (lexerNew ((c1 :: w1') ++ (c0 :: ws') ++ (c2 :: w2'))).position
      = 0 := hf2
  have hinv0 : LexInv (lexerNew ((c1 :: w1') ++ (c0 :: ws') ++ (c2 :: w2')))
      := by
    unfold lexerNew
    constructor
    · rw [hf4, hf1, hf2]
    · rw [hf3, hf2]
  have hch0 : (lexerNew ((c1 :: w1') ++ (c0 :: ws') ++ (c2 :: w2'))).ch = c1
      := by
    rw [hinv0.1, hin0, hpos0]
    have h := chAt_append_cons [] c1 (w1' ++ (c0 :: ws') ++ (c2 :: w2'))
    simpa using h
  have hident0 : isAsciiIdentChar
      (advN 0 (lexerNew ((c1 :: w1') ++ (c0 :: ws') ++ (c2 :: w2')))).ch =
      true := by
    show isAsciiIdentChar
      (lexerNew ((c1 :: w1') ++ (c0 :: ws') ++ (c2 :: w2'))).ch = true
    rw [hch0]
    exact hc1
  have hskip0 : skip_whitespace
      (lexerNew ((c1 :: w1') ++ (c0 :: ws') ++ (c2 :: w2'))) =
      advN 0 (lexerNew ((c1 :: w1') ++ (c0 :: ws') ++ (c2 :: w2'))) := by
    show _ = lexerNew ((c1 :: w1') ++ (c0 :: ws') ++ (c2 :: w2'))
    exact skip_whitespace_nop _
      (by rw [hch0]; exact identChar_not_ws c1 hc1)
  have hd1 := next_token_dispatch_ident
    (lexerNew ((c1 :: w1') ++ (c0 :: ws') ++ (c2 :: w2'))) 0 hskip0 hident0
  have hd1p := next_token_plain_dispatch_ident
    (lexerNew ((c1 :: w1') ++ (c0 :: ws') ++ (c2 :: w2'))) 0 hskip0 hident0
  rw [show advN 0 (lexerNew ((c1 :: w1') ++ (c0 :: ws') ++ (c2 :: w2'))) =
    lexerNew ((c1 :: w1') ++ (c0 :: ws') ++ (c2 :: w2')) from rfl]
    at hd1 hd1p
  have hm1 := next_token_match_ident_first
    (lexerNew ((c1 :: w1') ++ (c0 :: ws') ++ (c2 :: w2'))).line
    (lexerNew ((c1 :: w1') ++ (c0 :: ws') ++ (c2 :: w2'))).column
    (lexerNew ((c1 :: w1') ++ (c0 :: ws') ++ (c2 :: w2')))
    [] (c1 :: w1') (c0 :: ws') (c2 :: w2')
    (by rw [hin0]; simp) (by rw [hpos0]; rfl)
    hinv0 hw1 hw1ne hws hwsne hw2 hw2ne hcand
  have h1r : next_token
      (lexerNew ((c1 :: w1') ++ (c0 :: ws') ++ (c2 :: w2'))) =
      (Token.mk (lookup_ident (String.mk (c1 :: w1'))) (String.mk (c1 :: w1'))
        (lexerNew ((c1 :: w1') ++ (c0 :: ws') ++ (c2 :: w2'))).line
        (lexerNew ((c1 :: w1') ++ (c0 :: ws') ++ (c2 :: w2'))).column,
       read_char (advN (w1'.length + 1)
        (lexerNew ((c1 :: w1') ++ (c0 :: ws') ++ (c2 :: w2'))))) :=
    hd1.trans hm1.1
  have h1p : next_token_plain
      (lexerNew ((c1 :: w1') ++ (c0 :: ws') ++ (c2 :: w2'))) =
      (Token.mk (lookup_ident (String.mk (c1 :: w1'))) (String.mk (c1 :: w1'))
        (lexerNew ((c1 :: w1') ++ (c0 :: ws') ++ (c2 :: w2'))).line
        (lexerNew ((c1 :: w1') ++ (c0 :: ws') ++ (c2 :: w2'))).column,
       read_char (advN (w1'.length + 1)
        (lexerNew ((c1 :: w1') ++ (c0 :: ws') ++ (c2 :: w2'))))) :=
    hd1p.trans hm1.2
  obtain ⟨hinvA, hposA, hinA⟩ := advN_spec (w1'.length + 1)
    (lexerNew ((c1 :: w1') ++ (c0 :: ws') ++ (c2 :: w2'))) hinv0
  obtain ⟨hinv2, hpos2, hin2⟩ := read_char_inv _ hinvA
  have hpos2' : (read_char (advN (w1'.length + 1)
      (lexerNew ((c1 :: w1') ++ (c0 :: ws') ++ (c2 :: w2'))))).position =
      ((c1 :: w1') ++ [c0]).length := by
    rw [hpos2, hposA, hpos0]
    simp only [List.length_append, List.length_cons, List.length_nil]
    omega
  have hin2' : (read_char (advN (w1'.length + 1)
      (lexerNew ((c1 :: w1') ++ (c0 :: ws') ++ (c2 :: w2'))))).input =
      ((c1 :: w1') ++ [c0]) ++ ws' ++ (c2 :: w2') := by
    rw [hin2, hinA, hin0]
    simp
  have hstop2 : isAsciiWhitespace (chAt (read_char (advN (w1'.length + 1)
      (lexerNew ((c1 :: w1') ++ (c0 :: ws') ++ (c2 :: w2'))))).input
      (((c1 :: w1') ++ [c0]).length + ws'.length)) = false := by
    rw [hin2',
      show ((c1 :: w1') ++ [c0]) ++ ws' ++ (c2 :: w2') =
        (((c1 :: w1') ++ [c0]) ++ ws') ++ c2 :: w2' by simp,
      show ((c1 :: w1') ++ [c0]).length + ws'.length =
        (((c1 :: w1') ++ [c0]) ++ ws').length by
          simp only [List.length_append, List.length_cons, List.length_nil],
      chAt_append_cons]
    exact identChar_not_ws c2 hc2
  have hskip2 : skip_whitespace (read_char (advN (w1'.length + 1)
      (lexerNew ((c1 :: w1') ++ (c0 :: ws') ++ (c2 :: w2'))))) =
      advN ws'.length (read_char (advN (w1'.length + 1)
      (lexerNew ((c1 :: w1') ++ (c0 :: ws') ++ (c2 :: w2'))))) :=
    skip_whitespace_run ws' ((c1 :: w1') ++ [c0]) (c2 :: w2') _
      hin2' hpos2' hinv2 hws'all hstop2
  obtain ⟨hinvB, hposB, hinB⟩ := advN_spec ws'.length
    (read_char (advN (w1'.length + 1)
      (lexerNew ((c1 :: w1') ++ (c0 :: ws') ++ (c2 :: w2'))))) hinv2
  have hchB : (advN ws'.length (read_char (advN (w1'.length + 1)
      (lexerNew ((c1 :: w1') ++ (c0 :: ws') ++ (c2 :: w2')))))).ch = c2 := by
    rw [hinvB.1, hinB, hposB, hpos2', hin2',
      show ((c1 :: w1') ++ [c0]) ++ ws' ++ (c2 :: w2') =
        (((c1 :: w1') ++ [c0]) ++ ws') ++ c2 :: w2' by simp,
      show ((c1 :: w1') ++ [c0]).length + ws'.length =
        (((c1 :: w1') ++ [c0]) ++ ws').length by
          simp only [List.length_append, List.length_cons, List.length_nil],
      chAt_append_cons]
  have hident2 : isAsciiIdentChar (advN ws'.length (read_char
      (advN (w1'.length + 1)
        (lexerNew ((c1 :: w1') ++ (c0 :: ws') ++ (c2 :: w2')))))).ch = true
      := by
    rw [hchB]
    exact hc2
  have hd2 := next_token_dispatch_ident _ ws'.length hskip2 hident2
  have hd2p := next_token_plain_dispatch_ident _ ws'.length hskip2 hident2
  have hm2 := next_token_match_ident_last
    (advN ws'.length (read_char (advN (w1'.length + 1)
      (lexerNew ((c1 :: w1') ++ (c0 :: ws') ++ (c2 :: w2')))))).line
    (advN ws'.length (read_char (advN (w1'.length + 1)
      (lexerNew ((c1 :: w1') ++ (c0 :: ws') ++ (c2 :: w2')))))).column
    (advN ws'.length (read_char (advN (w1'.length + 1)
      (lexerNew ((c1 :: w1') ++ (c0 :: ws') ++ (c2 :: w2'))))))
    (((c1 :: w1') ++ [c0]) ++ ws') (c2 :: w2')
    (by rw [hinB, hin2'])
    (by rw [hposB, hpos2']
        simp only [List.length_append, List.length_cons, List.length_nil])
    hinvB hw2 hw2ne
  have h2r : next_token (read_char (advN (w1'.length + 1)
      (lexerNew ((c1 :: w1') ++ (c0 :: ws') ++ (c2 :: w2'))))) =
      (Token.mk (lookup_ident (String.mk (c2 :: w2'))) (String.mk (c2 :: w2'))
        (advN ws'.length (read_char (advN (w1'.length + 1)
          (lexerNew ((c1 :: w1') ++ (c0 :: ws') ++ (c2 :: w2')))))).line
        (advN ws'.length (read_char (advN (w1'.length + 1)
          (lexerNew ((c1 :: w1') ++ (c0 :: ws') ++ (c2 :: w2')))))).column,
       read_char (advN (w2'.length + 1) (advN ws'.length (read_char
        (advN (w1'.length + 1)
          (lexerNew ((c1 :: w1') ++ (c0 :: ws') ++ (c2 :: w2')))))))) :=
    hd2.trans hm2.1
  have h2p : next_token_plain (read_char (advN (w1'.length + 1)
      (lexerNew ((c1 :: w1') ++ (c0 :: ws') ++ (c2 :: w2'))))) =
      (Token.mk (lookup_ident (String.mk (c2 :: w2'))) (String.mk (c2 :: w2'))
        (advN ws'.length (read_char (advN (w1'.length + 1)
          (lexerNew ((c1 :: w1') ++ (c0 :: ws') ++ (c2 :: w2')))))).line
        (advN ws'.length (read_char (advN (w1'.length + 1)
          (lexerNew ((c1 :: w1') ++ (c0 :: ws') ++ (c2 :: w2')))))).column,
       read_char (advN (w2'.length + 1) (advN ws'.length (read_char
        (advN (w1'.length + 1)
          (lexerNew ((c1 :: w1') ++ (c0 :: ws') ++ (c2 :: w2')))))))) :=
    hd2p.trans hm2.2
  obtain ⟨hinvC, hposC, hinC⟩ := advN_spec (w2'.length + 1)
    (advN ws'.length (read_char (advN (w1'.length + 1)
      (lexerNew ((c1 :: w1') ++ (c0 :: ws') ++ (c2 :: w2')))))) hinvB
  obtain ⟨hinv3, hpos3, hin3⟩ := read_char_inv _ hinvC
  have hend3 : (read_char (advN (w2'.length + 1) (advN ws'.length
      (read_char (advN (w1'.length + 1)
        (lexerNew ((c1 :: w1') ++ (c0 :: ws') ++ (c2 :: w2')))))))).input.length
      ≤ (read_char (advN (w2'.length + 1) (advN ws'.length
      (read_char (advN (w1'.length + 1)
        (lexerNew ((c1 :: w1') ++ (c0 :: ws') ++ (c2 :: w2')))))))).position
      := by
    rw [hin3, hinC, hinB, hin2', hpos3, hposC, hposB, hpos2']
    simp only [List.length_append, List.length_cons, List.length_nil]
    omega
  have h3 := next_token_eof_both _ hinv3 hend3
  have hfuel : ((c1 :: w1') ++ (c0 :: ws') ++ (c2 :: w2')).length + 2 =
      (w1'.length + ws'.length + w2'.length + 2) + 1 + 1 + 1 := by
    simp only [List.length_append, List.length_cons, List.length_nil]
    omega
  have hne1 : (TokenType.Ident = TokenType.Eof) = False := by simp
  constructor
  · show tokenizeGo (((c1 :: w1') ++ (c0 :: ws') ++ (c2 :: w2')).length + 2)
      (lexerNew ((c1 :: w1') ++ (c0 :: ws') ++ (c2 :: w2'))) =
      tokenize_plainGo
        (((c1 :: w1') ++ (c0 :: ws') ++ (c2 :: w2')).length + 2)
        (lexerNew ((c1 :: w1') ++ (c0 :: ws') ++ (c2 :: w2')))
    rw [hfuel]
    rw [tokenizeGo_succ, tokenize_plainGo_succ, h1r, h1p]
    simp only [hk1, hne1]
    simp only [if_false]
    rw [tokenizeGo_succ, tokenize_plainGo_succ, h2r, h2p]
    simp only [hk2, hne1]
    simp only [if_false]
    rw [tokenizeGo_succ, tokenize_plainGo_succ, h3.1, h3.2]
    simp
  · show (tokenizeGo
        (((c1 :: w1') ++ (c0 :: ws') ++ (c2 :: w2')).length + 2)
        (lexerNew ((c1 :: w1') ++ (c0 :: ws') ++ (c2 :: w2')))).map
        (fun t => (t.token_type, t.literal)) = _
    rw [hfuel]
    rw [tokenizeGo_succ, h1r]
    simp only [hk1, hne1]
    simp only [if_false]
    rw [tokenizeGo_succ, h2r]
    simp only [hk2, hne1]
    simp only [if_false]
    rw [tokenizeGo_succ, h3.1]
    simp [hk1, hk2]

/-- Helper: a decimal digit differs from every non-digit character. -/
theorem digit_ne (c x : Char) (hc : c.isDigit = true)
    (hx : x.isDigit = false) : c ≠ x := by
  intro he
  rw [he, hx] at hc
  cases hc

/-- Helper: decimal digits are not ASCII letters. -/
theorem digit_not_alpha (c : Char) (hc : c.isDigit = true) :
    c.isAlpha = false := by
  simp [Char.isDigit] at hc
  obtain ⟨h1, h2⟩ := hc
  have n2 : c.toNat ≤ 57 := h2
  simp [Char.isAlpha, Char.isUpper, Char.isLower]
  constructor <;> intro h3
  · have n3 : 65 ≤ c.toNat := h3
    exact absurd (Nat.le_trans n3 n2) (by decide)
  · have n3 : 97 ≤ c.toNat := h3
    exact absurd (Nat.le_trans n3 n2) (by decide)

/-- Helper: code point bound of a decimal digit. -/
theorem digit_toNat_le (c : Char) (hc : c.isDigit = true) :
    c.toNat ≤ 57 := by
  simp [Char.isDigit] at hc
  exact hc.2

/-- Helper: unpacking of the digit-run stop condition. -/
theorem numStop_spec (c : Char) (h : numStop c = true) :
    c.isDigit = false ∧ c ≠ '.' ∧ c ≠ 'e' ∧ c ≠ 'E' ∧ c ≠ 'i' ∧
      c ≠ 'm' ∧ c ≠ 'M' := by
  unfold numStop at h
  simp only [Bool.not_eq_true', Bool.or_eq_false_iff,
    decide_eq_false_iff_not] at h
  obtain ⟨⟨⟨⟨⟨⟨h1, h2⟩, h3⟩, h4⟩, h5⟩, h6⟩, h7⟩ := h
  exact ⟨h1, h2, h3, h4, h5, h6, h7⟩

/-- Helper: space-only gaps are whitespace. -/
theorem spaceAll_ws (g : List Char)
    (h : g.all (fun c => c = ' ') = true) :
    g.all isAsciiWhitespace = true := by
  simp only [List.all_eq_true, decide_eq_true_eq] at h ⊢
  intro c hc
  rw [h c hc]
  decide

/-- Helper: with `LexInv`, the lookahead character is the input
character one past the scan position. -/
theorem peek_char_inv (s : Lexer) (hinv : LexInv s) :
    peek_char s = chAt s.input (s.position + 1) := by
  unfold peek_char
  rw [hinv.2]
  by_cases h : s.position + 1 ≥ s.input.length
  · rw [if_pos h, chAt_ge_len _ _ h]
  · rw [if_neg h]
    rfl

/-- Helper: a digit-run scan with all flags cleared consumes exactly
the maximal digit run and keeps the `Int` token type. -/
theorem read_numberGo_run :
    ∀ (ds pre post : List Char) (s : Lexer) (fuel : Nat),
      s.input = pre ++ ds ++ post →
      s.position = pre.length →
      LexInv s →
      ds.all Char.isDigit = true →
      numStop (chAt s.input (pre.length + ds.length)) = true →
      ds.length + 1 ≤ fuel →
      read_numberGo fuel false false false .Int s = (.Int, advN ds.length s) := by
  intro ds
  induction ds with
  | nil =>
    intro pre post s fuel _ hpos hinv _ hstop hfuel
    obtain ⟨f, rfl⟩ : ∃ f, fuel = f + 1 := ⟨fuel - 1, by omega⟩
    simp only [List.length_nil, Nat.add_zero] at hstop
    obtain ⟨n1, n2, n3, n4, n5, n6, n7⟩ := numStop_spec _ hstop
    rw [← hpos, ← hinv.1] at n1 n2 n3 n4 n5 n6 n7
    simp only [read_numberGo]
    simp [n1, n2, n3, n4, n5, n6, n7, advN]
  | cons c ds' ih =>
    intro pre post s fuel hin hpos hinv hall hstop hfuel
    simp only [List.length_cons] at hfuel
    obtain ⟨f, rfl⟩ : ∃ f, fuel = f + 1 := ⟨fuel - 1, by omega⟩
    have hcc : s.ch = c := by
      rw [hinv.1, hpos, hin, show pre ++ (c :: ds') ++ post =
        pre ++ c :: (ds' ++ post) by simp]
      exact chAt_append_cons pre c (ds' ++ post)
    simp only [List.all_cons, Bool.and_eq_true] at hall
    obtain ⟨hinv', hpos', hin'⟩ := read_char_inv s hinv
    simp only [read_numberGo]
    rw [hcc]
    simp only [hall.1, if_true]
    have hrec := ih (pre ++ [c]) post (read_char s) f
      (by rw [hin', hin]; simp)
      (by rw [hpos', hpos]; simp)
      hinv' hall.2
      (by rw [hin']
          have harith : (pre ++ [c]).length + ds'.length =
            pre.length + (c :: ds').length := by simp; omega
          rw [harith]; exact hstop)
      (by omega)
    rw [hrec]
    rfl

/-- Helper: `read_number` on a maximal digit run returns the run as the
literal, token type `Int`, and the state past the run. -/
theorem read_number_run (ds pre post : List Char) (s : Lexer)
    (hin : s.input = pre ++ ds ++ post) (hpos : s.position = pre.length)
    (hinv : LexInv s) (hall : ds.all Char.isDigit = true)
    (hstop : numStop (chAt s.input (pre.length + ds.length)) = true) :
    read_number s = (String.mk ds, .Int, advN ds.length s) := by
  have hfuel : ds.length + 1 ≤ s.input.length + 1 := by
    have hlen : s.input.length = pre.length + ds.length + post.length := by
      rw [hin]; simp; omega
    omega
  have hgo : read_numberGo (s.input.length + 1) false false false .Int s =
      (.Int, advN ds.length s) :=
    read_numberGo_run ds pre post s _ hin hpos hinv hall hstop hfuel
  show (String.mk ((s.input.drop s.position).take
      ((read_numberGo (s.input.length + 1) false false false .Int s).2.position
        - s.position)),
    (read_numberGo (s.input.length + 1) false false false .Int s).1,
    (read_numberGo (s.input.length + 1) false false false .Int s).2) =
    (String.mk ds, .Int, advN ds.length s)
  rw [hgo]
  obtain ⟨_, hposN, _⟩ := advN_spec ds.length s hinv
  rw [hposN, hpos, hin]
  have harith : pre.length + ds.length - pre.length = ds.length := by omega
  rw [harith, show pre ++ ds ++ post = pre ++ (ds ++ post) by simp,
    List.drop_left, List.take_left]

/-- Helper: `advN` composes additively. -/
theorem advN_add : ∀ (m n : Nat) (s : Lexer),
    advN (m + n) s = advN n (advN m s) := by
  intro m
  induction m with
  | zero => intro n s; rw [Nat.zero_add]; rfl
  | succ m ih =>
    intro n s
    rw [show m + 1 + n = (m + n) + 1 by omega,
      show advN ((m + n) + 1) s = advN (m + n) (read_char s) from rfl,
      ih n (read_char s),
      show advN (m + 1) s = advN m (read_char s) from rfl]

/-- Helper: advancing once after `advN` is `advN` of one more. -/
theorem read_char_advN (n : Nat) (s : Lexer) :
    read_char (advN n s) = advN (n + 1) s := by
  rw [advN_add n 1 s]
  rfl

/-- Helper: decimal digits are not ASCII whitespace. -/
theorem digit_not_ws (c : Char) (hc : c.isDigit = true) :
    isAsciiWhitespace c = false := by
  by_contra hw
  rw [Bool.not_eq_false] at hw
  unfold isAsciiWhitespace at hw
  simp only [Bool.or_eq_true, decide_eq_true_eq] at hw
  rcases hw with ((((h | h) | h) | h) | h) <;> rw [h] at hc <;> cases hc

/-- Helper: when the character after whitespace skipping triggers no
comment opener, `next_token` reduces to the main dispatch there. -/
theorem next_token_dispatch_safe (s : Lexer) (k : Nat)
    (hskip : skip_whitespace s = advN k s)
    (h1 : (advN k s).ch = '/' →
      peek_char (advN k s) ≠ '/' ∧ peek_char (advN k s) ≠ '*')
    (h2 : (advN k s).ch ≠ '#')
    (h3 : (advN k s).ch = '-' → peek_char (advN k s) ≠ '-')
    (h4 : (advN k s).ch ≠ '=')
    (h5 : (advN k s).ch = lbraceChar → peek_char (advN k s) ≠ '-')
    (h6 : (advN k s).ch = '(' → peek_char (advN k s) ≠ '*')
    (h7 : (advN k s).ch ≠ dquoteChar)
    (h8 : (advN k s).ch ≠ squoteChar) :
    next_token s =
      next_token_match (advN k s).line (advN k s).column (advN k s) := by
  unfold next_token
  rw [show next_tokenGo (s.input.length + 2) s =
    next_tokenStep (next_tokenGo (s.input.length + 1)) s from rfl]
  unfold next_tokenStep
  rw [hskip]
  by_cases hc : (advN k s).ch = '/'
  · obtain ⟨p1, p2⟩ := h1 hc
    simp [hc, p1, p2]
  · by_cases hm : (advN k s).ch = '-'
    · have pm := h3 hm
      have hl : (advN k s).ch ≠ lbraceChar := by rw [hm]; decide
      have hpa : (advN k s).ch ≠ '(' := by rw [hm]; decide
      simp [hc, pm, h2, h4, hl, hpa, h7, h8]
    · by_cases hb : (advN k s).ch = lbraceChar
      · have pb := h5 hb
        have hpa : (advN k s).ch ≠ '(' := by rw [hb]; decide
        simp [hc, hm, h2, h4, pb, hpa, h7, h8]
      · by_cases hp : (advN k s).ch = '('
        · have pp := h6 hp
          simp [hc, hm, hb, h2, h4, pp, h7, h8]
        · simp [hc, hm, hb, hp, h2, h4, h7, h8]

/-- Helper: main dispatch at `+`. -/
theorem next_token_match_plus_arm (tsl tsc : Nat) (t : Lexer)
    (hch : t.ch = '+') :
    next_token_match tsl tsc t =
      (Token.mk .Plus "+" tsl tsc, read_char t) := by
  unfold next_token_match
  simp [hch]

/-- Helper: main dispatch at `-`. -/
theorem next_token_match_minus_arm (tsl tsc : Nat) (t : Lexer)
    (hch : t.ch = '-') :
    next_token_match tsl tsc t =
      (Token.mk .Minus "-" tsl tsc, read_char t) := by
  unfold next_token_match
  simp [hch]

/-- Helper: main dispatch at `*`. -/
theorem next_token_match_ast_arm (tsl tsc : Nat) (t : Lexer)
    (hch : t.ch = '*') :
    next_token_match tsl tsc t =
      (Token.mk .Asterisk "*" tsl tsc, read_char t) := by
  unfold next_token_match
  simp [hch]

/-- Helper: main dispatch at `/`. -/
theorem next_token_match_slash_arm (tsl tsc : Nat) (t : Lexer)
    (hch : t.ch = '/') :
    next_token_match tsl tsc t =
      (Token.mk .Slash "/" tsl tsc, read_char t) := by
  unfold next_token_match
  simp [hch]

/-- Helper: main dispatch at an opening parenthesis. -/
theorem next_token_match_lpar_arm (tsl tsc : Nat) (t : Lexer)
    (hch : t.ch = '(') :
    next_token_match tsl tsc t =
      (Token.mk .LParen "(" tsl tsc, read_char t) := by
  unfold next_token_match
  simp [hch]

/-- Helper: main dispatch at a closing parenthesis. -/
theorem next_token_match_rpar_arm (tsl tsc : Nat) (t : Lexer)
    (hch : t.ch = ')') :
    next_token_match tsl tsc t =
      (Token.mk .RParen ")" tsl tsc, read_char t) := by
  unfold next_token_match
  simp [hch]

/-- Helper: main dispatch at a digit emits the maximal digit run as an
`Int` token without the trailing advance (the digit arm returns
early). -/
theorem next_token_match_int_arm (tsl tsc : Nat) (t : Lexer)
    (pre ds post : List Char)
    (hin : t.input = pre ++ ds ++ post) (hpos : t.position = pre.length)
    (hinv : LexInv t)
    (hall : ds.all Char.isDigit = true) (hne : ds ≠ [])
    (hstop : numStop (chAt t.input (pre.length + ds.length)) = true) :
    next_token_match tsl tsc t =
      (Token.mk .Int (String.mk ds) tsl tsc, advN ds.length t) := by
  obtain ⟨c, ds', rfl⟩ : ∃ c ds', ds = c :: ds' := by
    cases ds with
    | nil => exact absurd rfl hne
    | cons a b => exact ⟨a, b, rfl⟩
  have hch : t.ch = c := by
    rw [hinv.1, hpos, hin, show pre ++ (c :: ds') ++ post =
      pre ++ c :: (ds' ++ post) by simp]
    exact chAt_append_cons pre c (ds' ++ post)
  have hcd : c.isDigit = true := by
    simp only [List.all_cons, Bool.and_eq_true] at hall
    exact hall.1
  have hnex : ∀ x : Char, x.isDigit = false → t.ch ≠ x :=
    fun x hx => by rw [hch]; exact digit_ne c x hcd hx
  have hb : is_unicode_bengali_letter t = false := by
    unfold is_unicode_bengali_letter
    by_cases hlen : t.position ≥ t.input.length
    · simp [hlen]
    · simp only [hlen, ge_iff_le, if_false, ite_false]
      have hget : t.input.getD t.position nulChar = c := by
        rw [show t.input.getD t.position nulChar =
          chAt t.input t.position from rfl, ← hinv.1, hch]
      rw [hget]
      have h57 := digit_toNat_le c hcd
      simp only [decide_eq_false_iff_not]
      intro hcon
      exact absurd hcon.1 (by omega)
  have hidf : isIdentCharAt t = false := by
    unfold isIdentCharAt
    rw [hch, digit_not_alpha c hcd, hb,
      decide_eq_false (digit_ne c '_' hcd (by decide))]
    rfl
  have hdig : t.ch.isDigit = true := by rw [hch]; exact hcd
  have hread := read_number_run (c :: ds') pre post t hin hpos hinv hall hstop
  unfold next_token_match
  simp [hnex '=' (by decide), hnex ';' (by decide), hnex '(' (by decide),
    hnex ')' (by decide), hnex ',' (by decide), hnex '+' (by decide),
    hnex '-' (by decide), hnex '!' (by decide), hnex '/' (by decide),
    hnex '*' (by decide), hnex squoteChar (by decide),
    hnex '<' (by decide), hnex '>' (by decide),
    hnex lbraceChar (by decide), hnex rbraceChar (by decide),
    hnex dquoteChar (by decide), hnex '.' (by decide),
    hidf, hdig, hread]

/-- Helper: scanning one gap-item segment: `next_token` skips the gap,
emits the item's token, and stops right after the item. -/
theorem next_token_seg (s : Lexer) (g : List Char) (it : AItem)
    (pre post : List Char)
    (hin : s.input = pre ++ g ++ itemChars it ++ post)
    (hpos : s.position = pre.length)
    (hinv : LexInv s)
    (hg : g.all (fun c => c = ' ') = true)
    (hitem : itemOk it = true)
    (hafter : afterSafe it (chAt s.input
      (pre.length + g.length + (itemChars it).length))) :
    next_token s =
      (Token.mk (itemShape it).1 (itemShape it).2
        (advN g.length s).line (advN g.length s).column,
       advN (g.length + (itemChars it).length) s) := by
  obtain ⟨hinvT, hposT, hinT⟩ := advN_spec g.length s hinv
  have hpeekT : peek_char (advN g.length s) =
      chAt s.input (pre.length + g.length + 1) := by
    rw [peek_char_inv _ hinvT, hinT, hposT, hpos]
  cases it with
  | num ds =>
    simp only [itemOk, Bool.and_eq_true, Bool.not_eq_true'] at hitem
    obtain ⟨hne0, hall⟩ := hitem
    have hdne : ds ≠ [] := by
      intro h
      rw [h] at hne0
      cases hne0
    obtain ⟨c0, ds'', rfl⟩ : ∃ c0 ds'', ds = c0 :: ds'' := by
      cases ds with
      | nil => exact absurd rfl hdne
      | cons a b => exact ⟨a, b, rfl⟩
    have hc0 : c0.isDigit = true := by
      simp only [List.all_cons, Bool.and_eq_true] at hall
      exact hall.1
    have hstopg : isAsciiWhitespace (chAt s.input
        (pre.length + g.length)) = false := by
      rw [hin, show pre ++ g ++ itemChars (.num (c0 :: ds'')) ++ post =
          (pre ++ g) ++ c0 :: (ds'' ++ post) by simp [itemChars],
        show pre.length + g.length = (pre ++ g).length by simp,
        chAt_append_cons]
      exact digit_not_ws c0 hc0
    have hskip : skip_whitespace s = advN g.length s :=
      skip_whitespace_run g pre (itemChars (.num (c0 :: ds'')) ++ post) s
        (by rw [hin]; simp) hpos hinv (spaceAll_ws g hg) hstopg
    have hchT : (advN g.length s).ch = c0 := by
      rw [hinvT.1, hinT, hposT, hpos, hin,
        show pre ++ g ++ itemChars (.num (c0 :: ds'')) ++ post =
          (pre ++ g) ++ c0 :: (ds'' ++ post) by simp [itemChars],
        show pre.length + g.length = (pre ++ g).length by simp,
        chAt_append_cons]
    have hne : ∀ x : Char, x.isDigit = false → (advN g.length s).ch ≠ x :=
      fun x hx => by rw [hchT]; exact digit_ne c0 x hc0 hx
    have hd := next_token_dispatch_safe s g.length hskip
      (fun h => absurd h (hne '/' (by decide))) (hne '#' (by decide))
      (fun h => absurd h (hne '-' (by decide))) (hne '=' (by decide))
      (fun h => absurd h (hne lbraceChar (by decide)))
      (fun h => absurd h (hne '(' (by decide)))
      (hne dquoteChar (by decide)) (hne squoteChar (by decide))
    have hstopn : numStop (chAt (advN g.length s).input
        ((pre ++ g).length + (c0 :: ds'').length)) = true := by
      rw [hinT, show (pre ++ g).length + (c0 :: ds'').length =
        pre.length + g.length + (c0 :: ds'').length by simp]
      exact hafter
    have hm := next_token_match_int_arm (advN g.length s).line
      (advN g.length s).column (advN g.length s) (pre ++ g) (c0 :: ds'')
      post (by rw [hinT, hin]; simp [itemChars])
      (by rw [hposT, hpos]; simp) hinvT hall (by intro h; cases h) hstopn
    rw [hd, hm, ← advN_add]
    rfl
  | plus =>
    have hstopg : isAsciiWhitespace (chAt s.input
        (pre.length + g.length)) = false := by
      rw [hin, show pre ++ g ++ itemChars .plus ++ post =
          (pre ++ g) ++ '+' :: post by simp [itemChars],
        show pre.length + g.length = (pre ++ g).length by simp,
        chAt_append_cons]
      decide
    have hskip : skip_whitespace s = advN g.length s :=
      skip_whitespace_run g pre (itemChars .plus ++ post) s
        (by rw [hin]; simp) hpos hinv (spaceAll_ws g hg) hstopg
    have hchT : (advN g.length s).ch = '+' := by
      rw [hinvT.1, hinT, hposT, hpos, hin,
        show pre ++ g ++ itemChars .plus ++ post =
          (pre ++ g) ++ '+' :: post by simp [itemChars],
        show pre.length + g.length = (pre ++ g).length by simp,
        chAt_append_cons]
    have hne : ∀ x : Char, ('+' : Char) ≠ x → (advN g.length s).ch ≠ x :=
      fun x hx => by rw [hchT]; exact hx
    have hd := next_token_dispatch_safe s g.length hskip
      (fun h => absurd h (hne '/' (by decide))) (hne '#' (by decide))
      (fun h => absurd h (hne '-' (by decide))) (hne '=' (by decide))
      (fun h => absurd h (hne lbraceChar (by decide)))
      (fun h => absurd h (hne '(' (by decide)))
      (hne dquoteChar (by decide)) (hne squoteChar (by decide))
    rw [hd, next_token_match_plus_arm _ _ _ hchT, read_char_advN]
    rfl
  | minus =>
    have hstopg : isAsciiWhitespace (chAt s.input
        (pre.length + g.length)) = false := by
      rw [hin, show pre ++ g ++ itemChars .minus ++ post =
          (pre ++ g) ++ '-' :: post by simp [itemChars],
        show pre.length + g.length = (pre ++ g).length by simp,
        chAt_append_cons]
      decide
    have hskip : skip_whitespace s = advN g.length s :=
      skip_whitespace_run g pre (itemChars .minus ++ post) s
        (by rw [hin]; simp) hpos hinv (spaceAll_ws g hg) hstopg
    have hchT : (advN g.length s).ch = '-' := by
      rw [hinvT.1, hinT, hposT, hpos, hin,
        show pre ++ g ++ itemChars .minus ++ post =
          (pre ++ g) ++ '-' :: post by simp [itemChars],
        show pre.length + g.length = (pre ++ g).length by simp,
        chAt_append_cons]
    have haft : chAt s.input (pre.length + g.length + 1) ≠ '-' := hafter
    have hne : ∀ x : Char, ('-' : Char) ≠ x → (advN g.length s).ch ≠ x :=
      fun x hx => by rw [hchT]; exact hx
    have hd := next_token_dispatch_safe s g.length hskip
      (fun h => absurd h (hne '/' (by decide))) (hne '#' (by decide))
      (fun _ => by rw [hpeekT]; exact haft) (hne '=' (by decide))
      (fun h => absurd h (hne lbraceChar (by decide)))
      (fun h => absurd h (hne '(' (by decide)))
      (hne dquoteChar (by decide)) (hne squoteChar (by decide))
    rw [hd, next_token_match_minus_arm _ _ _ hchT, read_char_advN]
    rfl
  | times =>
    have hstopg : isAsciiWhitespace (chAt s.input
        (pre.length + g.length)) = false := by
      rw [hin, show pre ++ g ++ itemChars .times ++ post =
          (pre ++ g) ++ '*' :: post by simp [itemChars],
        show pre.length + g.length = (pre ++ g).length by simp,
        chAt_append_cons]
      decide
    have hskip : skip_whitespace s = advN g.length s :=
      skip_whitespace_run g pre (itemChars .times ++ post) s
        (by rw [hin]; simp) hpos hinv (spaceAll_ws g hg) hstopg
    have hchT : (advN g.length s).ch = '*' := by
      rw [hinvT.1, hinT, hposT, hpos, hin,
        show pre ++ g ++ itemChars .times ++ post =
          (pre ++ g) ++ '*' :: post by simp [itemChars],
        show pre.length + g.length = (pre ++ g).length by simp,
        chAt_append_cons]
    have hne : ∀ x : Char, ('*' : Char) ≠ x → (advN g.length s).ch ≠ x :=
      fun x hx => by rw [hchT]; exact hx
    have hd := next_token_dispatch_safe s g.length hskip
      (fun h => absurd h (hne '/' (by decide))) (hne '#' (by decide))
      (fun h => absurd h (hne '-' (by decide))) (hne '=' (by decide))
      (fun h => absurd h (hne lbraceChar (by decide)))
      (fun h => absurd h (hne '(' (by decide)))
      (hne dquoteChar (by decide)) (hne squoteChar (by decide))
    rw [hd, next_token_match_ast_arm _ _ _ hchT, read_char_advN]
    rfl
  | divide =>
    have hstopg : isAsciiWhitespace (chAt s.input
        (pre.length + g.length)) = false := by
      rw [hin, show pre ++ g ++ itemChars .divide ++ post =
          (pre ++ g) ++ '/' :: post by simp [itemChars],
        show pre.length + g.length = (pre ++ g).length by simp,
        chAt_append_cons]
      decide
    have hskip : skip_whitespace s = advN g.length s :=
      skip_whitespace_run g pre (itemChars .divide ++ post) s
        (by rw [hin]; simp) hpos hinv (spaceAll_ws g hg) hstopg
    have hchT : (advN g.length s).ch = '/' := by
      rw [hinvT.1, hinT, hposT, hpos, hin,
        show pre ++ g ++ itemChars .divide ++ post =
          (pre ++ g) ++ '/' :: post by simp [itemChars],
        show pre.length + g.length = (pre ++ g).length by simp,
        chAt_append_cons]
    have haft : chAt s.input (pre.length + g.length + 1) ≠ '/' ∧
        chAt s.input (pre.length + g.length + 1) ≠ '*' := hafter
    have hne : ∀ x : Char, ('/' : Char) ≠ x → (advN g.length s).ch ≠ x :=
      fun x hx => by rw [hchT]; exact hx
    have hd := next_token_dispatch_safe s g.length hskip
      (fun _ => ⟨by rw [hpeekT]; exact haft.1, by rw [hpeekT]; exact haft.2⟩)
      (hne '#' (by decide))
      (fun h => absurd h (hne '-' (by decide))) (hne '=' (by decide))
      (fun h => absurd h (hne lbraceChar (by decide)))
      (fun h => absurd h (hne '(' (by decide)))
      (hne dquoteChar (by decide)) (hne squoteChar (by decide))
    rw [hd, next_token_match_slash_arm _ _ _ hchT, read_char_advN]
    rfl
  | lpar =>
    have hstopg : isAsciiWhitespace (chAt s.input
        (pre.length + g.length)) = false := by
      rw [hin, show pre ++ g ++ itemChars .lpar ++ post =
          (pre ++ g) ++ '(' :: post by simp [itemChars],
        show pre.length + g.length = (pre ++ g).length by simp,
        chAt_append_cons]
      decide
    have hskip : skip_whitespace s = advN g.length s :=
      skip_whitespace_run g pre (itemChars .lpar ++ post) s
        (by rw [hin]; simp) hpos hinv (spaceAll_ws g hg) hstopg
    have hchT : (advN g.length s).ch = '(' := by
      rw [hinvT.1, hinT, hposT, hpos, hin,
        show pre ++ g ++ itemChars .lpar ++ post =
          (pre ++ g) ++ '(' :: post by simp [itemChars],
        show pre.length + g.length = (pre ++ g).length by simp,
        chAt_append_cons]
    have haft : chAt s.input (pre.length + g.length + 1) ≠ '*' := hafter
    have hne : ∀ x : Char, ('(' : Char) ≠ x → (advN g.length s).ch ≠ x :=
      fun x hx => by rw [hchT]; exact hx
    have hd := next_token_dispatch_safe s g.length hskip
      (fun h => absurd h (hne '/' (by decide))) (hne '#' (by decide))
      (fun h => absurd h (hne '-' (by decide))) (hne '=' (by decide))
      (fun h => absurd h (hne lbraceChar (by decide)))
      (fun _ => by rw [hpeekT]; exact haft)
      (hne dquoteChar (by decide)) (hne squoteChar (by decide))
    rw [hd, next_token_match_lpar_arm _ _ _ hchT, read_char_advN]
    rfl
  | rpar =>
    have hstopg : isAsciiWhitespace (chAt s.input
        (pre.length + g.length)) = false := by
      rw [hin, show pre ++ g ++ itemChars .rpar ++ post =
          (pre ++ g) ++ ')' :: post by simp [itemChars],
        show pre.length + g.length = (pre ++ g).length by simp,
        chAt_append_cons]
      decide
    have hskip : skip_whitespace s = advN g.length s :=
      skip_whitespace_run g pre (itemChars .rpar ++ post) s
        (by rw [hin]; simp) hpos hinv (spaceAll_ws g hg) hstopg
    have hchT : (advN g.length s).ch = ')' := by
      rw [hinvT.1, hinT, hposT, hpos, hin,
        show pre ++ g ++ itemChars .rpar ++ post =
          (pre ++ g) ++ ')' :: post by simp [itemChars],
        show pre.length + g.length = (pre ++ g).length by simp,
        chAt_append_cons]
    have hne : ∀ x : Char, (')' : Char) ≠ x → (advN g.length s).ch ≠ x :=
      fun x hx => by rw [hchT]; exact hx
    have hd := next_token_dispatch_safe s g.length hskip
      (fun h => absurd h (hne '/' (by decide))) (hne '#' (by decide))
      (fun h => absurd h (hne '-' (by decide))) (hne '=' (by decide))
      (fun h => absurd h (hne lbraceChar (by decide)))
      (fun h => absurd h (hne '(' (by decide)))
      (hne dquoteChar (by decide)) (hne squoteChar (by decide))
    rw [hd, next_token_match_rpar_arm _ _ _ hchT, read_char_advN]
    rfl

/-- Helper: whitespace, end of input, and a closing parenthesis are
safe after every item. -/
theorem afterSafe_benign (it : AItem) (c : Char)
    (h : c = ' ' ∨ c = nulChar ∨ c = ')') : afterSafe it c := by
  have hne : ∀ x : Char, x ≠ ' ' → x ≠ nulChar → x ≠ ')' → c ≠ x := by
    intro x h1 h2 h3 he
    rcases h with rfl | rfl | rfl
    · exact h1 he.symm
    · exact h2 he.symm
    · exact h3 he.symm
  cases it with
  | num ds =>
    show numStop c = true
    rcases h with rfl | rfl | rfl <;> decide
  | divide => exact ⟨hne '/' (by decide) (by decide) (by decide),
      hne '*' (by decide) (by decide) (by decide)⟩
  | minus => exact hne '-' (by decide) (by decide) (by decide)
  | lpar => exact hne '*' (by decide) (by decide) (by decide)
  | plus => trivial
  | times => trivial
  | rpar => trivial

/-- Helper: scanning a well-formed gap-item list yields exactly the
items' token shapes followed by `Eof`. -/
theorem tokenizeGo_segs :
    ∀ (segs : List (List Char × AItem)) (fuel : Nat) (s : Lexer)
      (pre : List Char),
      LexInv s → s.input = pre ++ flattenSegs segs →
      s.position = pre.length → segsOk segs = true →
      segs.length + 1 ≤ fuel →
      (tokenizeGo fuel s).map (fun t => (t.token_type, t.literal)) =
        segs.map (fun sg => itemShape sg.2) ++ [(.Eof, "")] := by
  intro segs
  induction segs with
  | nil =>
    intro fuel s pre hinv hin hpos _ hfuel
    obtain ⟨f, rfl⟩ : ∃ f, fuel = f + 1 := ⟨fuel - 1, by omega⟩
    have hend : s.input.length ≤ s.position := by
      rw [hin, hpos]
      simp [flattenSegs]
    have he := (next_token_eof_both s hinv hend).1
    rw [tokenizeGo_succ, he]
    simp
  | cons seg rest ih =>
    obtain ⟨g, it⟩ := seg
    intro fuel s pre hinv hin hpos hok hfuel
    simp only [List.length_cons] at hfuel
    obtain ⟨f, rfl⟩ : ∃ f, fuel = f + 1 := ⟨fuel - 1, by omega⟩
    have hok' := hok
    simp only [segsOk, Bool.and_eq_true] at hok'
    obtain ⟨⟨⟨hg, hitem⟩, hpair⟩, hrest⟩ := hok'
    have hin' : s.input = pre ++ g ++ itemChars it ++ flattenSegs rest := by
      rw [hin]
      simp [flattenSegs]
    have hidx : pre.length + g.length + (itemChars it).length =
        (pre ++ g ++ itemChars it).length := by
      simp
      omega
    have hafter : afterSafe it (chAt s.input
        (pre.length + g.length + (itemChars it).length)) := by
      cases rest with
      | nil =>
        have hend : s.input.length ≤
            pre.length + g.length + (itemChars it).length := by
          rw [hin']
          simp [flattenSegs]
          omega
        rw [chAt_ge_len _ _ hend]
        exact afterSafe_benign it nulChar (Or.inr (Or.inl rfl))
      | cons seg2 rest2 =>
        obtain ⟨g2, i2⟩ := seg2
        have hok2 := hrest
        simp only [segsOk, Bool.and_eq_true] at hok2
        obtain ⟨⟨⟨hg2, hitem2⟩, _⟩, _⟩ := hok2
        cases g2 with
        | cons cg g2t =>
          have hcg : cg = ' ' := by
            simp only [List.all_cons, Bool.and_eq_true,
              decide_eq_true_eq] at hg2
            exact hg2.1
          have hch : chAt s.input
              (pre.length + g.length + (itemChars it).length) = cg := by
            rw [hidx, hin',
              show pre ++ g ++ itemChars it ++
                  flattenSegs ((cg :: g2t, i2) :: rest2) =
                (pre ++ g ++ itemChars it) ++
                  cg :: (g2t ++ itemChars i2 ++ flattenSegs rest2) by
                simp [flattenSegs],
              chAt_append_cons]
          rw [hch, hcg]
          exact afterSafe_benign it ' ' (Or.inl rfl)
        | nil =>
          cases it with
          | num ds =>
            cases i2 with
            | rpar =>
              have hch : chAt s.input
                  (pre.length + g.length +
                    (itemChars (.num ds)).length) = ')' := by
                rw [hidx, hin',
                  show pre ++ g ++ itemChars (.num ds) ++
                      flattenSegs (([], .rpar) :: rest2) =
                    (pre ++ g ++ itemChars (.num ds)) ++
                      ')' :: flattenSegs rest2 by
                    simp [flattenSegs, itemChars],
                  chAt_append_cons]
              rw [hch]
              exact afterSafe_benign (.num ds) ')' (Or.inr (Or.inr rfl))
            | num ds2 => simp [pairOk] at hpair
            | plus => simp [pairOk] at hpair
            | minus => simp [pairOk] at hpair
            | times => simp [pairOk] at hpair
            | divide => simp [pairOk] at hpair
            | lpar => simp [pairOk] at hpair
          | plus => simp [pairOk] at hpair
          | minus => simp [pairOk] at hpair
          | times => simp [pairOk] at hpair
          | divide => simp [pairOk] at hpair
          | rpar => trivial
          | lpar =>
            cases i2 with
            | num ds2 =>
              simp only [itemOk, Bool.and_eq_true, Bool.not_eq_true']
                at hitem2
              obtain ⟨hne2, hall2⟩ := hitem2
              obtain ⟨c2, ds2t, rfl⟩ : ∃ c2 ds2t, ds2 = c2 :: ds2t := by
                cases ds2 with
                | nil => cases hne2
                | cons a b => exact ⟨a, b, rfl⟩
              have hc2 : c2.isDigit = true := by
                simp only [List.all_cons, Bool.and_eq_true] at hall2
                exact hall2.1
              have hch : chAt s.input
                  (pre.length + g.length + (itemChars .lpar).length) =
                  c2 := by
                rw [hidx, hin',
                  show pre ++ g ++ itemChars .lpar ++
                      flattenSegs (([], .num (c2 :: ds2t)) :: rest2) =
                    (pre ++ g ++ itemChars .lpar) ++
                      c2 :: (ds2t ++ flattenSegs rest2) by
                    simp [flattenSegs, itemChars],
                  chAt_append_cons]
              rw [hch]
              exact digit_ne c2 '*' hc2 (by decide)
            | lpar =>
              have hch : chAt s.input
                  (pre.length + g.length + (itemChars .lpar).length) =
                  '(' := by
                rw [hidx, hin',
                  show pre ++ g ++ itemChars .lpar ++
                      flattenSegs (([], .lpar) :: rest2) =
                    (pre ++ g ++ itemChars .lpar) ++
                      '(' :: flattenSegs (([], .lpar) :: rest2).tail by
                    simp [flattenSegs, itemChars],
                  chAt_append_cons]
              rw [hch]
              show ('(' : Char) ≠ '*'
              decide
            | plus => simp [pairOk] at hpair
            | minus => simp [pairOk] at hpair
            | times => simp [pairOk] at hpair
            | divide => simp [pairOk] at hpair
            | rpar => simp [pairOk] at hpair
    have hseg := next_token_seg s g it pre (flattenSegs rest) hin' hpos
      hinv hg hitem hafter
    rw [tokenizeGo_succ, hseg]
    have hEof : ((itemShape it).1 = TokenType.Eof) = False := by
      cases it <;> simp [itemShape]
    obtain ⟨hinvN, hposN, hinN⟩ :=
      advN_spec (g.length + (itemChars it).length) s hinv
    have hrec := ih f (advN (g.length + (itemChars it).length) s)
      (pre ++ g ++ itemChars it)
      hinvN
      (by rw [hinN, hin'])
      (by rw [hposN, hpos]; simp)
      hrest (by omega)
    simp [hEof, hrec]

/-- Helper: digit characters produced by the decimal renderer. -/
theorem natDigitsGo_digits :
    ∀ n, ∀ (fuel : Nat) (acc : List Char), n + 1 ≤ fuel →
      acc.all Char.isDigit = true →
      (natDigitsGo fuel n acc).all Char.isDigit = true := by
  intro n
  induction n using Nat.strong_induction_on with
  | _ n ih =>
    intro fuel acc hfuel hacc
    obtain ⟨f, rfl⟩ : ∃ f, fuel = f + 1 := ⟨fuel - 1, by omega⟩
    have h10 : n % 10 < 10 := Nat.mod_lt _ (by norm_num)
    have hdall : ∀ m, m < 10 → (Char.ofNat (48 + m)).isDigit = true := by
      intro m hm
      interval_cases m <;> decide
    have hd := hdall (n % 10) h10
    simp only [natDigitsGo]
    by_cases hn : n < 10
    · simp [hn, hd, hacc]
    · have hdiv : n / 10 < n := Nat.div_lt_self (by omega) (by norm_num)
      simp only [hn, ite_false, if_false]
      exact ih (n / 10) hdiv f (Char.ofNat (48 + n % 10) :: acc)
        (by omega) (by simp [hd, hacc])

/-- Helper: the decimal renderer never produces an empty digit list. -/
theorem natDigitsGo_ne_nil :
    ∀ n, ∀ (fuel : Nat) (acc : List Char), n + 1 ≤ fuel →
      natDigitsGo fuel n acc ≠ [] := by
  intro n
  induction n using Nat.strong_induction_on with
  | _ n ih =>
    intro fuel acc hfuel
    obtain ⟨f, rfl⟩ : ∃ f, fuel = f + 1 := ⟨fuel - 1, by omega⟩
    simp only [natDigitsGo]
    by_cases hn : n < 10
    · simp [hn]
    · have hdiv : n / 10 < n := Nat.div_lt_self (by omega) (by norm_num)
      simp only [hn, ite_false, if_false]
      exact ih (n / 10) hdiv f _ (by omega)

/-- Helper: the digits of a natural number. -/
theorem natDigits_digits (n : Nat) :
    (natDigits n).all Char.isDigit = true :=
  natDigitsGo_digits n (n + 1) [] (Nat.le_refl _) rfl

/-- Helper: a rendered number is nonempty. -/
theorem natDigits_ne_nil (n : Nat) : natDigits n ≠ [] :=
  natDigitsGo_ne_nil n (n + 1) [] (Nat.le_refl _)

/-- Helper: a rendered atom starts with its leading gap and an item
that may directly follow an opening parenthesis. -/
theorem segsF_head (g : List Char) (f : FExp) :
    ∃ i rest, segsF g f = (g, i) :: rest ∧
      pairOk .lpar ([], i) = true := by
  cases f with
  | num n => exact ⟨.num (natDigits n), [], rfl, rfl⟩
  | paren e => exact ⟨.lpar, _, rfl, rfl⟩

/-- Helper: head shape of a rendered term. -/
theorem segsT_head (g : List Char) (t : TExp) :
    ∃ i rest, segsT g t = (g, i) :: rest ∧
      pairOk .lpar ([], i) = true := by
  obtain ⟨f, tl⟩ := t
  obtain ⟨i, r, he, hp⟩ := segsF_head g f
  exact ⟨i, r ++ segsTTail tl, by simp [segsT, he], hp⟩

/-- Helper: head shape of a rendered expression. -/
theorem segsE_head (g : List Char) (e : EExp) :
    ∃ i rest, segsE g e = (g, i) :: rest ∧
      pairOk .lpar ([], i) = true := by
  obtain ⟨t, tl⟩ := e
  obtain ⟨i, r, he, hp⟩ := segsT_head g t
  exact ⟨i, r ++ segsETail tl, by simp [segsE, he], hp⟩

/-- Helper: `flattenSegs` distributes over append. -/
theorem flattenSegs_append : ∀ xs ys : List (List Char × AItem),
    flattenSegs (xs ++ ys) = flattenSegs xs ++ flattenSegs ys := by
  intro xs ys
  induction xs with
  | nil => rfl
  | cons p rest ih =>
    obtain ⟨g, i⟩ := p
    simp [flattenSegs, ih]

mutual

/-- Helper: the gap-item decomposition of an atom flattens to its
rendering. -/
theorem flatten_segsF (g : List Char) (f : FExp) :
    flattenSegs (segsF g f) = g ++ (renderF f).data := by
  cases f with
  | num n => simp [segsF, flattenSegs, renderF, itemChars]
  | paren e =>
    simp [segsF, flattenSegs, flattenSegs_append, renderF, itemChars,
      flatten_segsE [] e, String.data_append]

/-- Helper: flattening of a multiplicative tail. -/
theorem flatten_segsTTail (tl : TTail) :
    flattenSegs (segsTTail tl) = (renderTTail tl).data := by
  cases tl with
  | nil => rfl
  | cons op f rest =>
    cases op <;>
      simp [segsTTail, flattenSegs, flattenSegs_append, renderTTail,
        itemChars, mopItem, renderMOp, flatten_segsF [' '] f,
        flatten_segsTTail rest, String.data_append]

/-- Helper: flattening of a term. -/
theorem flatten_segsT (g : List Char) (t : TExp) :
    flattenSegs (segsT g t) = g ++ (renderT t).data := by
  cases t with
  | mk f tl =>
    simp [segsT, renderT, String.data_append, flattenSegs_append,
      flatten_segsF g f, flatten_segsTTail tl]

/-- Helper: flattening of an additive tail. -/
theorem flatten_segsETail (tl : ETail) :
    flattenSegs (segsETail tl) = (renderETail tl).data := by
  cases tl with
  | nil => rfl
  | cons op t rest =>
    cases op <;>
      simp [segsETail, flattenSegs, flattenSegs_append, renderETail,
        itemChars, aopItem, renderAOp, flatten_segsT [' '] t,
        flatten_segsETail rest, String.data_append]

/-- Helper: flattening of an expression. -/
theorem flatten_segsE (g : List Char) (e : EExp) :
    flattenSegs (segsE g e) = g ++ (renderE e).data := by
  cases e with
  | mk t tl =>
    simp [segsE, renderE, String.data_append, flattenSegs_append,
      flatten_segsT g t, flatten_segsETail tl]

end

mutual

/-- Helper: the token shapes of an atom's segments. -/
theorem shape_segsF (g : List Char) (f : FExp) :
    (segsF g f).map (fun sg => itemShape sg.2) = tokF f := by
  cases f with
  | num n =>
    simp [segsF, tokF,
      show itemShape (.num (natDigits n)) = (.Int, String.mk (natDigits n))
        from rfl]
  | paren e =>
    simp [segsF, tokF, shape_segsE [] e,
      show itemShape .lpar = (.LParen, "(") from rfl,
      show itemShape .rpar = (.RParen, ")") from rfl]

/-- Helper: the token shapes of a multiplicative tail's segments. -/
theorem shape_segsTTail (tl : TTail) :
    (segsTTail tl).map (fun sg => itemShape sg.2) = tokTTail tl := by
  cases tl with
  | nil => rfl
  | cons op f rest =>
    cases op <;>
      simp [segsTTail, tokTTail, mopItem, tokenTypeMOp,
        renderMOp, shape_segsF [' '] f, shape_segsTTail rest,
        show itemShape .times = (.Asterisk, "*") from rfl,
        show itemShape .divide = (.Slash, "/") from rfl]

/-- Helper: the token shapes of a term's segments. -/
theorem shape_segsT (g : List Char) (t : TExp) :
    (segsT g t).map (fun sg => itemShape sg.2) = tokT t := by
  cases t with
  | mk f tl =>
    simp [segsT, tokT, shape_segsF g f, shape_segsTTail tl]

/-- Helper: the token shapes of an additive tail's segments. -/
theorem shape_segsETail (tl : ETail) :
    (segsETail tl).map (fun sg => itemShape sg.2) = tokETail tl := by
  cases tl with
  | nil => rfl
  | cons op t rest =>
    cases op <;>
      simp [segsETail, tokETail, aopItem, tokenTypeAOp,
        renderAOp, shape_segsT [' '] t, shape_segsETail rest,
        show itemShape .plus = (.Plus, "+") from rfl,
        show itemShape .minus = (.Minus, "-") from rfl]

/-- Helper: the token shapes of an expression's segments. -/
theorem shape_segsE (g : List Char) (e : EExp) :
    (segsE g e).map (fun sg => itemShape sg.2) = tokE e := by
  cases e with
  | mk t tl =>
    simp [segsE, tokE, shape_segsT g t, shape_segsETail tl]

end

/-- Helper: a multiplicative tail's segments start acceptably after any
item. -/
theorem tailStartOk_TTail (tl : TTail)
    (tail : List (List Char × AItem)) (hth : tailStartOk tail) :
    tailStartOk (segsTTail tl ++ tail) := by
  cases tl with
  | nil => exact hth
  | cons op f rest => exact Or.inl (by simp)

/-- Helper: an additive tail's segments start acceptably after any
item. -/
theorem tailStartOk_ETail (tl : ETail)
    (tail : List (List Char × AItem)) (hth : tailStartOk tail) :
    tailStartOk (segsETail tl ++ tail) := by
  cases tl with
  | nil => exact hth
  | cons op t rest => exact Or.inl (by simp)

mutual

/-- Helper: well-formedness of an atom's segments before a compatible
continuation. -/
theorem segsOk_F (g : List Char) (f : FExp)
    (tail : List (List Char × AItem))
    (hg : g.all (fun c => c = ' ') = true)
    (htail : segsOk tail = true) (hth : tailStartOk tail) :
    segsOk (segsF g f ++ tail) = true := by
  cases f with
  | num n =>
    show segsOk ((g, .num (natDigits n)) :: tail) = true
    simp only [segsOk, Bool.and_eq_true]
    refine ⟨⟨⟨hg, ?_⟩, ?_⟩, htail⟩
    · simp only [itemOk, Bool.and_eq_true, Bool.not_eq_true']
      constructor
      · cases hh : natDigits n with
        | nil => exact absurd hh (natDigits_ne_nil n)
        | cons a b => rfl
      · exact natDigits_digits n
    · cases tail with
      | nil => rfl
      | cons p rest2 =>
        obtain ⟨g2, i2⟩ := p
        rcases hth with hne | hrp
        · cases i2 <;>
            first
            | rfl
            | (show (!g2.isEmpty) = true
               cases g2 with
               | nil => exact absurd rfl hne
               | cons _ _ => rfl)
        · rw [hrp]
          rfl
  | paren e =>
    obtain ⟨i, r, he, hp⟩ := segsE_head [] e
    show segsOk (((g, .lpar) :: (segsE [] e ++ [([], .rpar)])) ++ tail)
      = true
    rw [show ((g, .lpar) :: (segsE [] e ++ [([], .rpar)])) ++ tail =
      (g, .lpar) :: (segsE [] e ++ (([], .rpar) :: tail)) by simp]
    simp only [segsOk, Bool.and_eq_true]
    refine ⟨⟨⟨hg, rfl⟩, ?_⟩, ?_⟩
    · rw [he]
      show pairOk .lpar ([], i) = true
      exact hp
    · refine segsOk_E [] e (([], .rpar) :: tail) rfl ?_ (Or.inr rfl)
      simp only [segsOk, Bool.and_eq_true]
      refine ⟨⟨⟨rfl, rfl⟩, ?_⟩, htail⟩
      cases tail with
      | nil => rfl
      | cons p rest2 =>
        obtain ⟨g2, i2⟩ := p
        rfl

/-- Helper: well-formedness of a multiplicative tail's segments. -/
theorem segsOk_TTail (tl : TTail) (tail : List (List Char × AItem))
    (htail : segsOk tail = true) (hth : tailStartOk tail) :
    segsOk (segsTTail tl ++ tail) = true := by
  cases tl with
  | nil => exact htail
  | cons op f rest =>
    obtain ⟨i, r, he, _⟩ := segsF_head [' '] f
    show segsOk ((([' '], mopItem op) ::
      (segsF [' '] f ++ segsTTail rest)) ++ tail) = true
    rw [show ((([' '], mopItem op) ::
        (segsF [' '] f ++ segsTTail rest)) ++ tail) =
      ([' '], mopItem op) ::
        (segsF [' '] f ++ (segsTTail rest ++ tail)) by simp]
    simp only [segsOk, Bool.and_eq_true]
    refine ⟨⟨⟨by decide, by cases op <;> rfl⟩, ?_⟩, ?_⟩
    · rw [he]
      show pairOk (mopItem op) ([' '], i) = true
      cases op <;> rfl
    · exact segsOk_F [' '] f (segsTTail rest ++ tail) (by decide)
        (segsOk_TTail rest tail htail hth)
        (tailStartOk_TTail rest tail hth)

/-- Helper: well-formedness of a term's segments. -/
theorem segsOk_T (g : List Char) (t : TExp)
    (tail : List (List Char × AItem))
    (hg : g.all (fun c => c = ' ') = true)
    (htail : segsOk tail = true) (hth : tailStartOk tail) :
    segsOk (segsT g t ++ tail) = true := by
  cases t with
  | mk f tl =>
    show segsOk ((segsF g f ++ segsTTail tl) ++ tail) = true
    rw [List.append_assoc]
    exact segsOk_F g f (segsTTail tl ++ tail) hg
      (segsOk_TTail tl tail htail hth)
      (tailStartOk_TTail tl tail hth)

/-- Helper: well-formedness of an additive tail's segments. -/
theorem segsOk_ETail (tl : ETail) (tail : List (List Char × AItem))
    (htail : segsOk tail = true) (hth : tailStartOk tail) :
    segsOk (segsETail tl ++ tail) = true := by
  cases tl with
  | nil => exact htail
  | cons op t rest =>
    obtain ⟨i, r, he, _⟩ := segsT_head [' '] t
    show segsOk ((([' '], aopItem op) ::
      (segsT [' '] t ++ segsETail rest)) ++ tail) = true
    rw [show ((([' '], aopItem op) ::
        (segsT [' '] t ++ segsETail rest)) ++ tail) =
      ([' '], aopItem op) ::
        (segsT [' '] t ++ (segsETail rest ++ tail)) by simp]
    simp only [segsOk, Bool.and_eq_true]
    refine ⟨⟨⟨by decide, by cases op <;> rfl⟩, ?_⟩, ?_⟩
    · rw [he]
      show pairOk (aopItem op) ([' '], i) = true
      cases op <;> rfl
    · exact segsOk_T [' '] t (segsETail rest ++ tail) (by decide)
        (segsOk_ETail rest tail htail hth)
        (tailStartOk_ETail rest tail hth)

/-- Helper: well-formedness of an expression's segments. -/
theorem segsOk_E (g : List Char) (e : EExp)
    (tail : List (List Char × AItem))
    (hg : g.all (fun c => c = ' ') = true)
    (htail : segsOk tail = true) (hth : tailStartOk tail) :
    segsOk (segsE g e ++ tail) = true := by
  cases e with
  | mk t tl =>
    show segsOk ((segsT g t ++ segsETail tl) ++ tail) = true
    rw [List.append_assoc]
    exact segsOk_T g t (segsETail tl ++ tail) hg
      (segsOk_ETail tl tail htail hth)
      (tailStartOk_ETail tl tail hth)

end

/-- Helper: a well-formed segment list is no longer than its surface
text (every item has at least one character). -/
theorem segsOk_length : ∀ segs : List (List Char × AItem),
    segsOk segs = true → segs.length ≤ (flattenSegs segs).length := by
  intro segs
  induction segs with
  | nil => intro _; simp [flattenSegs]
  | cons p rest ih =>
    obtain ⟨g, i⟩ := p
    intro hok
    simp only [segsOk, Bool.and_eq_true] at hok
    obtain ⟨⟨⟨_, hitem⟩, _⟩, hrest⟩ := hok
    have hi : 1 ≤ (itemChars i).length := by
      cases i with
      | num ds =>
        simp only [itemOk, Bool.and_eq_true, Bool.not_eq_true'] at hitem
        obtain ⟨hne, _⟩ := hitem
        cases ds with
        | nil => cases hne
        | cons a b => simp [itemChars]
      | plus => simp [itemChars]
      | minus => simp [itemChars]
      | times => simp [itemChars]
      | divide => simp [itemChars]
      | lpar => simp [itemChars]
      | rpar => simp [itemChars]
    have hr := ih hrest
    simp only [flattenSegs, List.length_cons, List.length_append]
    omega

/-- Helper: the lexer turns a rendered arithmetic expression into
exactly its token shapes followed by `Eof`. -/
theorem tokenize_renderE (e : EExp) :
    (tokenize (renderE e).data).map (fun t => (t.token_type, t.literal)) =
      tokE e ++ [(.Eof, "")] := by
  have hflat : flattenSegs (segsE [] e) = (renderE e).data := by
    rw [flatten_segsE [] e]
    rfl
  have hok : segsOk (segsE [] e) = true := by
    have h := segsOk_E [] e [] rfl rfl trivial
    simpa using h
  have hlen := segsOk_length _ hok
  rw [hflat] at hlen
  obtain ⟨hf1, hf2, hf3, hf4⟩ := read_char_fields
    ⟨(renderE e).data, 0, 0, nulChar, 1, 0⟩
  have hinv0 : LexInv (lexerNew (renderE e).data) := by
    unfold lexerNew
    constructor
    · rw [hf4, hf1, hf2]
    · rw [hf3, hf2]
  have hgo := tokenizeGo_segs (segsE [] e) ((renderE e).data.length + 2)
    (lexerNew (renderE e).data) []
    hinv0
    (by show (read_char ⟨(renderE e).data, 0, 0, nulChar, 1, 0⟩).input =
          [] ++ flattenSegs (segsE [] e)
        rw [hf1, hflat]
        rfl)
    hf2 hok (by omega)
  rw [show tokenize (renderE e).data =
    tokenizeGo ((renderE e).data.length + 2)
      (lexerNew (renderE e).data) from rfl, hgo, shape_segsE [] e]

/-- Helper: the decimal renderer and the parser's digit fold are
mutually inverse, up to a digit-count existential. -/
theorem natDigitsGo_fold :
    ∀ n, ∀ (fuel : Nat) (acc : List Char) (a0 : Nat), n + 1 ≤ fuel →
      ∃ k, (natDigitsGo fuel n acc).foldl
          (fun a c => a * 10 + (c.toNat - '0'.toNat)) a0 =
        acc.foldl (fun a c => a * 10 + (c.toNat - '0'.toNat))
          (a0 * 10 ^ k + n) := by
  intro n
  induction n using Nat.strong_induction_on with
  | _ n ih =>
    intro fuel acc a0 hfuel
    obtain ⟨f, rfl⟩ : ∃ f, fuel = f + 1 := ⟨fuel - 1, by omega⟩
    have h10 : n % 10 < 10 := Nat.mod_lt _ (by norm_num)
    have htn : ∀ m, m < 10 → (Char.ofNat (48 + m)).toNat = 48 + m := by
      intro m hm
      interval_cases m <;> decide
    have hdn := htn (n % 10) h10
    simp only [natDigitsGo]
    by_cases hn : n < 10
    · refine ⟨1, ?_⟩
      simp only [hn, ite_true, if_true, List.foldl_cons]
      rw [hdn, show Char.toNat '0' = 48 from rfl,
        Nat.mod_eq_of_lt hn]
      congr 1
      rw [pow_one]
      omega
    · have hdiv : n / 10 < n := Nat.div_lt_self (by omega) (by norm_num)
      simp only [hn, ite_false, if_false]
      obtain ⟨k, hk⟩ := ih (n / 10) hdiv f
        (Char.ofNat (48 + n % 10) :: acc) a0 (by omega)
      refine ⟨k + 1, ?_⟩
      rw [hk]
      simp only [List.foldl_cons]
      rw [hdn, show Char.toNat '0' = 48 from rfl]
      congr 1
      rw [pow_succ, ← mul_assoc]
      omega

/-- Helper: folding the parser's digit step over a rendered number
recovers the number. -/
theorem natDigits_fold (n : Nat) :
    (natDigits n).foldl (fun a c => a * 10 + (c.toNat - '0'.toNat)) 0
      = n := by
  obtain ⟨k, hk⟩ := natDigitsGo_fold n (n + 1) [] 0 (Nat.le_refl _)
  rw [show natDigits n = natDigitsGo (n + 1) n [] from rfl, hk]
  simp

/-- Helper: `parse::<i64>` on a plain in-range digit string returns its
decimal value. -/
theorem parseI64_digits (c : Char) (rest : List Char)
    (h1 : c ≠ '+') (h2 : c ≠ '-')
    (hd : (c :: rest).all Char.isDigit = true)
    (hb : ((c :: rest).foldl
      (fun a ch => a * 10 + (ch.toNat - '0'.toNat)) 0 : Nat) ≤
        2 ^ 63 - 1) :
    parseI64 (String.mk (c :: rest)) =
      some (((c :: rest).foldl
        (fun a ch => a * 10 + (ch.toNat - '0'.toNat)) 0 : Nat) : Int) := by
  unfold parseI64
  simp only []
  split
  · next v hv =>
    split at hv
    · exact Option.noConfusion hv
    · next heq =>
      injection heq with hc _
      exact absurd hc h1
    · next heq =>
      injection heq with hc _
      exact absurd hc h2
    · simp only [hd, if_true, ite_true] at hv
      injection hv with hv'
      rw [← hv']
      rw [if_pos ⟨by omega, by omega⟩]
  · next hv =>
    split at hv
    · next heq => exact List.noConfusion heq
    · next heq =>
      injection heq with hc _
      exact absurd hc h1
    · next heq =>
      injection heq with hc _
      exact absurd hc h2
    · simp only [hd, if_true, ite_true] at hv
      exact Option.noConfusion hv

/-- Helper: `parse::<i64>` inverts the decimal renderer on every
in-range natural number. -/
theorem parseI64_natDigits (n : Nat) (hb : n ≤ 2 ^ 63 - 1) :
    parseI64 (String.mk (natDigits n)) = some (n : Int) := by
  obtain ⟨c, rest, hsplit⟩ : ∃ c rest, natDigits n = c :: rest := by
    cases hh : natDigits n with
    | nil => exact absurd hh (natDigits_ne_nil n)
    | cons a b => exact ⟨a, b, rfl⟩
  have hall := natDigits_digits n
  rw [hsplit] at hall
  have hc : c.isDigit = true := by
    simp only [List.all_cons, Bool.and_eq_true] at hall
    exact hall.1
  have hfold := natDigits_fold n
  rw [hsplit] at hfold
  rw [hsplit, parseI64_digits c rest
    (digit_ne c '+' hc (by decide)) (digit_ne c '-' hc (by decide))
    hall (by rw [hfold]; exact hb), hfold]

/-- Helper: destructuring a token list from its shape list. -/
theorem shape_cons {ts : List Token} {x : TokenType × String}
    {σ : List (TokenType × String)}
    (h : ts.map (fun t => (t.token_type, t.literal)) = x :: σ) :
    ∃ t0 ts', ts = t0 :: ts' ∧ t0.token_type = x.1 ∧ t0.literal = x.2 ∧
      ts'.map (fun t => (t.token_type, t.literal)) = σ := by
  cases ts with
  | nil => cases h
  | cons t0 ts' =>
    simp only [List.map_cons, List.cons.injEq] at h
    obtain ⟨h1, h2⟩ := h
    exact ⟨t0, ts', rfl, by rw [← h1], by rw [← h1], h2⟩

/-- Helper: a `PRODUCT`-stopping token does not continue the loop. -/
theorem stopProd_noLt (x : TokenType) (h : stopProd x) :
    precLt .PRODUCT (get_precedence x) = false := by
  rcases h with rfl | rfl | rfl | rfl | rfl | rfl <;> decide

/-- Helper: a `SUM`-stopping token does not continue the loop at `SUM`
level. -/
theorem stopSum_noLt (x : TokenType) (h : stopSum x) :
    precLt .SUM (get_precedence x) = false := by
  rcases h with rfl | rfl | rfl | rfl <;> decide

/-- Helper: a `LOWEST`-stopping token does not continue the loop at
`LOWEST` level. -/
theorem stopLow_noLt (x : TokenType) (h : stopLow x) :
    precLt .LOWEST (get_precedence x) = false := by
  rcases h with rfl | rfl <;> decide

/-- Helper: `SUM` stops are `PRODUCT` stops. -/
theorem stopSum_prod (x : TokenType) (h : stopSum x) : stopProd x := by
  rcases h with rfl | rfl | rfl | rfl
  · exact Or.inl rfl
  · exact Or.inr (Or.inl rfl)
  · exact Or.inr (Or.inr (Or.inr (Or.inr (Or.inl rfl))))
  · exact Or.inr (Or.inr (Or.inr (Or.inr (Or.inr rfl))))

/-- Helper: `LOWEST` stops are `SUM` stops. -/
theorem stopLow_sum (x : TokenType) (h : stopLow x) : stopSum x := by
  rcases h with rfl | rfl
  · exact Or.inr (Or.inr (Or.inl rfl))
  · exact Or.inr (Or.inr (Or.inr rfl))

/-- Helper: an atom always produces at least one token. -/
theorem tokF_ne_nil (f : FExp) : tokF f ≠ [] := by
  cases f <;> simp [tokF]

/-- Helper: the loop at `PRODUCT` level returns immediately at a
stopping lookahead. -/
theorem loopProd_stop (fuel : Nat) (acc : Expression) (tprev : Token)
    (ts : List Token) (x : TokenType × String)
    (σ : List (TokenType × String)) (errs : List String)
    (hts : ts.map (fun t => (t.token_type, t.literal)) = x :: σ)
    (hstop : stopProd x.1) (hfuel : 1 ≤ fuel) :
    parse_expression_loop fuel .PRODUCT acc
        (PState.mk (tprev :: ts) errs) =
      .done (some acc) (PState.mk (tprev :: ts) errs) := by
  obtain ⟨f, rfl⟩ : ∃ f, fuel = f + 1 := ⟨fuel - 1, by omega⟩
  obtain ⟨t0, ts', rfl, htt, _, _⟩ := shape_cons hts
  simp only [parse_expression_loop]
  have hpeek : peekToken (PState.mk (tprev :: t0 :: ts') errs) = t0 := rfl
  have hprec : precLt .PRODUCT
      (peek_precedence (PState.mk (tprev :: t0 :: ts') errs)) = false := by
    unfold peek_precedence
    rw [hpeek, htt]
    exact stopProd_noLt x.1 hstop
  simp [hprec]

/-- Helper: dropping up to a shape segment's last token. -/
theorem shape_drop_last :
    ∀ (σ : List (TokenType × String)) (ts : List Token)
      (ρ : List (TokenType × String)),
      ts.map (fun t => (t.token_type, t.literal)) = σ ++ ρ → σ ≠ [] →
      ∃ tl ts2, ts.drop (σ.length - 1) = tl :: ts2 ∧
        ts2.map (fun t => (t.token_type, t.literal)) = ρ := by
  intro σ
  induction σ with
  | nil => intro ts ρ _ hne; exact absurd rfl hne
  | cons x σ' ih =>
    intro ts ρ h _
    obtain ⟨t0, ts', rfl, _, _, hts'⟩ := shape_cons h
    cases σ' with
    | nil => exact ⟨t0, ts', by simp, hts'⟩
    | cons y σ'' =>
      obtain ⟨tl, ts2, hd, hts2⟩ := ih ts' ρ hts' (by simp)
      refine ⟨tl, ts2, ?_, hts2⟩
      rw [show (x :: y :: σ'').length - 1 =
        ((y :: σ'').length - 1) + 1 by simp, List.drop_succ_cons]
      exact hd

/-- Helper: a term always produces at least one token. -/
theorem tokT_ne_nil (t : TExp) : tokT t ≠ [] := by
  cases t with
  | mk f tl =>
    simp only [tokT]
    intro h
    exact tokF_ne_nil f (List.append_eq_nil.mp h).1

/-- Helper: an expression always produces at least one token. -/
theorem tokE_ne_nil (e : EExp) : tokE e ≠ [] := by
  cases e with
  | mk t tl =>
    simp only [tokE]
    intro h
    exact tokT_ne_nil t (List.append_eq_nil.mp h).1

/-- Helper: an atom's first token is an integer literal or an opening
parenthesis, both with registered prefix handlers. -/
theorem tokF_head (f : FExp) :
    ∃ x σf, tokF f = x :: σf ∧ prefix_parse_fn_exists x.1 = true := by
  cases f with
  | num n => exact ⟨(.Int, String.mk (natDigits n)), [], rfl, rfl⟩
  | paren e => exact ⟨(.LParen, "("), _, rfl, rfl⟩

/-- Helper: positive length of a nonempty shape list. -/
theorem tokLen_pos {σ : List (TokenType × String)} (h : σ ≠ []) :
    1 ≤ σ.length := by
  cases σ with
  | nil => exact absurd rfl h
  | cons a b => simp

mutual

/-- Helper: the prefix dispatch parses an atom (an integer literal in
place, a parenthesised expression up to its closing parenthesis). -/
theorem parsePrefixF (f : FExp) (fuel : Nat) (ts : List Token)
    (ρ : List (TokenType × String)) (errs : List String)
    (hts : ts.map (fun t => (t.token_type, t.literal)) = tokF f ++ ρ)
    (hlit : litsOkF f)
    (hfuel : 8 * sizeF f ≤ fuel) :
    prefix_dispatch fuel (PState.mk ts errs) =
      .done (some (astF f))
        (PState.mk (ts.drop ((tokF f).length - 1)) errs) := by
  cases f with
  | num n =>
    obtain ⟨f1, rfl⟩ : ∃ f1, fuel = f1 + 1 :=
      ⟨fuel - 1, by simp [sizeF] at hfuel; omega⟩
    obtain ⟨f2, rfl⟩ : ∃ f2, f1 = f2 + 1 :=
      ⟨f1 - 1, by simp [sizeF] at hfuel; omega⟩
    simp only [tokF, List.singleton_append] at hts
    obtain ⟨t0, ts', rfl, htt, hlitr, hts'⟩ := shape_cons hts
    simp only [prefix_dispatch]
    rw [show curToken (PState.mk (t0 :: ts') errs) = t0 from rfl, htt]
    simp only [parse_integer_literal]
    rw [show curToken (PState.mk (t0 :: ts') errs) = t0 from rfl, hlitr,
      parseI64_natDigits n hlit]
    rfl
  | paren e =>
    obtain ⟨f1, rfl⟩ : ∃ f1, fuel = f1 + 1 :=
      ⟨fuel - 1, by simp [sizeF] at hfuel; omega⟩
    obtain ⟨f2, rfl⟩ : ∃ f2, f1 = f2 + 1 :=
      ⟨f1 - 1, by simp [sizeF] at hfuel; omega⟩
    simp only [tokF, List.cons_append, List.append_assoc,
      List.singleton_append] at hts
    obtain ⟨t0, ts', rfl, htt, hlitr, hts'⟩ := shape_cons hts
    simp only [prefix_dispatch]
    rw [show curToken (PState.mk (t0 :: ts') errs) = t0 from rfl, htt]
    simp only [parse_grouped_expression]
    rw [show p_next_token (PState.mk (t0 :: ts') errs) =
      PState.mk ts' errs from rfl]
    rw [parseE e f2 ts' ((.RParen, ")") :: ρ) errs hts'
      ⟨(.RParen, ")"), ρ, rfl, Or.inl rfl⟩ hlit
      (by simp [sizeF] at hfuel; omega)]
    obtain ⟨tl, ts2, hdrop, hts2⟩ :=
      shape_drop_last (tokE e) ts' ((.RParen, ")") :: ρ) hts'
        (tokE_ne_nil e)
    rw [hdrop]
    obtain ⟨trp, ts3, rfl, htrp, _, hts3⟩ := shape_cons hts2
    have hpk : expect_peek (PState.mk (tl :: trp :: ts3) errs) .RParen =
        (true, PState.mk (trp :: ts3) errs) := by
      unfold expect_peek peek_token_is peekToken
      simp [htrp]
      rfl
    simp only [hpk]
    have hposE := tokLen_pos (tokE_ne_nil e)
    have hstate : (t0 :: ts').drop ((tokF (.paren e)).length - 1) =
        trp :: ts3 := by
      have h1 : (tokF (.paren e)).length - 1 =
          (((tokE e).length - 1) + 1) + 1 := by
        simp [tokF]
        omega
      rw [h1, List.drop_succ_cons, ← List.drop_drop, hdrop]
      rfl
    rw [hstate]
    rfl
termination_by 4 * sizeF f
decreasing_by
all_goals simp_wf
all_goals try simp only [*, sizeF, sizeT, sizeTTail, sizeETail, sizeE]
all_goals omega

/-- Helper: `parse_expression` at `PRODUCT` level parses exactly one
atom and then stops at the following operator or delimiter. -/
theorem parseFprod (f : FExp) (fuel : Nat) (ts : List Token)
    (ρ : List (TokenType × String)) (errs : List String)
    (hts : ts.map (fun t => (t.token_type, t.literal)) = tokF f ++ ρ)
    (hρ : ∃ x ρ2, ρ = x :: ρ2 ∧ stopProd x.1)
    (hlit : litsOkF f)
    (hfuel : 8 * sizeF f + 2 ≤ fuel) :
    parse_expression fuel .PRODUCT (PState.mk ts errs) =
      .done (some (astF f))
        (PState.mk (ts.drop ((tokF f).length - 1)) errs) := by
  obtain ⟨f1, rfl⟩ : ∃ f1, fuel = f1 + 1 := ⟨fuel - 1, by omega⟩
  obtain ⟨x, σf, htokf, hpfx⟩ := tokF_head f
  have hts0 := hts
  rw [htokf, List.cons_append] at hts0
  obtain ⟨t0, ts', heq, htt, hlitr, hts'⟩ := shape_cons hts0
  subst heq
  simp only [parse_expression]
  rw [show curToken (PState.mk (t0 :: ts') errs) = t0 from rfl, htt,
    if_neg (show ¬ ¬ (prefix_parse_fn_exists x.1 = true)
      from fun hh => hh hpfx)]
  rw [parsePrefixF f f1 (t0 :: ts') ρ errs hts hlit (by omega)]
  obtain ⟨xs, ρ2, rfl, hstop⟩ := hρ
  obtain ⟨tl, ts2, hdrop, hts2⟩ :=
    shape_drop_last (tokF f) (t0 :: ts') (xs :: ρ2) hts (tokF_ne_nil f)
  rw [hdrop]
  show parse_expression_loop f1 .PRODUCT (astF f)
    (PState.mk (tl :: ts2) errs) = _
  rw [loopProd_stop f1 (astF f) tl ts2 xs ρ2 errs hts2 hstop (by omega)]
termination_by 4 * sizeF f + 1
decreasing_by
all_goals simp_wf
all_goals try simp only [*, sizeF, sizeT, sizeTTail, sizeETail, sizeE]
all_goals omega

/-- Helper: the precedence-climbing loop at `SUM` level folds a
multiplicative tail into left-associated `Infix` nodes and stops at the
tail's continuation. -/
theorem loopSum (tl : TTail) (acc : Expression) (fuel : Nat)
    (tprev : Token) (ts : List Token)
    (ρ : List (TokenType × String)) (errs : List String)
    (hts : ts.map (fun t => (t.token_type, t.literal)) = tokTTail tl ++ ρ)
    (hρ : ∃ x ρ2, ρ = x :: ρ2 ∧ stopSum x.1)
    (hlit : litsOkTTail tl)
    (hfuel : 8 * sizeTTail tl + 2 ≤ fuel) :
    parse_expression_loop fuel .SUM acc (PState.mk (tprev :: ts) errs) =
      .done (some (astTTail acc tl))
        (PState.mk ((tprev :: ts).drop (tokTTail tl).length) errs) := by
  obtain ⟨f1, rfl⟩ : ∃ f1, fuel = f1 + 1 := ⟨fuel - 1, by omega⟩
  cases tl with
  | nil =>
    obtain ⟨x, ρ2, rfl, hstop⟩ := hρ
    simp only [tokTTail, List.nil_append] at hts
    obtain ⟨t0, ts', rfl, htt, _, _⟩ := shape_cons hts
    simp only [parse_expression_loop]
    have hpeek : peekToken (PState.mk (tprev :: t0 :: ts') errs) = t0 := rfl
    have hprec : precLt .SUM
        (peek_precedence (PState.mk (tprev :: t0 :: ts') errs)) = false := by
      unfold peek_precedence
      rw [hpeek, htt]
      exact stopSum_noLt x.1 hstop
    simp [hprec, astTTail, tokTTail]
  | cons op f rest =>
    obtain ⟨f2, rfl⟩ : ∃ f2, f1 = f2 + 1 :=
      ⟨f1 - 1, by simp only [sizeTTail] at hfuel; omega⟩
    obtain ⟨f3, rfl⟩ : ∃ f3, f2 = f3 + 1 :=
      ⟨f2 - 1, by simp only [sizeTTail] at hfuel; omega⟩
    obtain ⟨x, ρ2, rfl, hstop⟩ := hρ
    simp only [litsOkTTail] at hlit
    simp only [tokTTail, List.cons_append, List.append_assoc] at hts
    obtain ⟨t0, ts', rfl, htt, hlitr, hts'⟩ := shape_cons hts
    simp only [parse_expression_loop]
    have hpeek : peekToken (PState.mk (tprev :: t0 :: ts') errs) = t0 := rfl
    have hsemi : peek_token_is (PState.mk (tprev :: t0 :: ts') errs)
        .Semicolon = false := by
      unfold peek_token_is
      rw [hpeek, htt]
      cases op <;> decide
    have hprec : precLt .SUM
        (peek_precedence (PState.mk (tprev :: t0 :: ts') errs)) = true := by
      unfold peek_precedence
      rw [hpeek, htt]
      cases op <;> decide
    rw [hsemi, hprec,
      if_pos (show (¬ (false = true)) ∧ (true = true) from by simp)]
    have hinf : infix_parse_fn_exists
        ((tokenTypeMOp op, renderMOp op)).1 = true := by
      cases op <;> rfl
    rw [hpeek, htt,
      if_neg (show ¬ ¬ (infix_parse_fn_exists
        ((tokenTypeMOp op, renderMOp op)).1 = true) from fun hh => hh hinf)]
    rw [show p_next_token (PState.mk (tprev :: t0 :: ts') errs) =
      PState.mk (t0 :: ts') errs from rfl]
    have hdisp : infix_dispatch (f3 + 1 + 1) acc
        (PState.mk (t0 :: ts') errs) =
        parse_infix_expression (f3 + 1) acc (PState.mk (t0 :: ts') errs) := by
      simp only [infix_dispatch]
      rw [show curToken (PState.mk (t0 :: ts') errs) = t0 from rfl, htt]
      cases op <;> rfl
    rw [hdisp]
    simp only [parse_infix_expression]
    have hcp : cur_precedence (PState.mk (t0 :: ts') errs) = .PRODUCT := by
      unfold cur_precedence
      rw [show curToken (PState.mk (t0 :: ts') errs) = t0 from rfl, htt]
      cases op <;> rfl
    have hop : t0.literal = renderMOp op := by rw [hlitr]
    rw [show curToken (PState.mk (t0 :: ts') errs) = t0 from rfl, hop, hcp]
    rw [show p_next_token (PState.mk (t0 :: ts') errs) =
      PState.mk ts' errs from rfl]
    have hρf : ∃ y ρ3, tokTTail rest ++ (x :: ρ2) = y :: ρ3 ∧
        stopProd y.1 := by
      cases rest with
      | nil => exact ⟨x, ρ2, by simp [tokTTail], stopSum_prod x.1 hstop⟩
      | cons op2 f4 rest2 =>
        refine ⟨(tokenTypeMOp op2, renderMOp op2),
          (tokF f4 ++ tokTTail rest2) ++ (x :: ρ2), by simp [tokTTail], ?_⟩
        cases op2
        · exact Or.inr (Or.inr (Or.inl rfl))
        · exact Or.inr (Or.inr (Or.inr (Or.inl rfl)))
    rw [parseFprod f f3 ts' (tokTTail rest ++ (x :: ρ2)) errs hts' hρf
      hlit.1 (by simp only [sizeTTail] at hfuel; omega)]
    obtain ⟨tl2, ts2, hdrop, hts2⟩ :=
      shape_drop_last (tokF f) ts' (tokTTail rest ++ (x :: ρ2)) hts'
        (tokF_ne_nil f)
    rw [hdrop]
    show parse_expression_loop (f3 + 1 + 1) .SUM
      (.Infix acc (renderMOp op) (astF f)) (PState.mk (tl2 :: ts2) errs) = _
    rw [loopSum rest (.Infix acc (renderMOp op) (astF f)) (f3 + 1 + 1)
      tl2 ts2 (x :: ρ2) errs hts2 ⟨x, ρ2, rfl, hstop⟩ hlit.2
      (by simp only [sizeTTail] at hfuel; omega)]
    have hposF := tokLen_pos (tokF_ne_nil f)
    have hlen : (tokTTail (.cons op f rest)).length =
        ((((tokF f).length - 1) + (tokTTail rest).length) + 1) + 1 := by
      simp only [tokTTail, List.length_cons, List.length_append]
      omega
    have hstate : (tl2 :: ts2).drop (tokTTail rest).length =
        (tprev :: t0 :: ts').drop (tokTTail (.cons op f rest)).length := by
      rw [← hdrop, List.drop_drop, hlen, List.drop_succ_cons,
        List.drop_succ_cons]
    rw [hstate]
    rfl
termination_by 4 * sizeTTail tl + 2
decreasing_by
all_goals simp_wf
all_goals try simp only [*, sizeF, sizeT, sizeTTail, sizeETail, sizeE]
all_goals omega

/-- Helper: `parse_expression` at `SUM` level parses one full term
(an atom followed by its multiplicative tail). -/
theorem parseT (t : TExp) (fuel : Nat) (ts : List Token)
    (ρ : List (TokenType × String)) (errs : List String)
    (hts : ts.map (fun tk => (tk.token_type, tk.literal)) = tokT t ++ ρ)
    (hρ : ∃ x ρ2, ρ = x :: ρ2 ∧ stopSum x.1)
    (hlit : litsOkT t)
    (hfuel : 8 * sizeT t + 2 ≤ fuel) :
    parse_expression fuel .SUM (PState.mk ts errs) =
      .done (some (astT t))
        (PState.mk (ts.drop ((tokT t).length - 1)) errs) := by
  obtain ⟨f1, rfl⟩ : ∃ f1, fuel = f1 + 1 := ⟨fuel - 1, by omega⟩
  cases t with
  | mk f tl =>
    simp only [litsOkT] at hlit
    have hts' : ts.map (fun tk => (tk.token_type, tk.literal)) =
        tokF f ++ (tokTTail tl ++ ρ) := by
      rw [hts]
      simp only [tokT, List.append_assoc]
    obtain ⟨x, σf, htokf, hpfx⟩ := tokF_head f
    have hts0 := hts'
    rw [htokf, List.cons_append] at hts0
    obtain ⟨t0, ts', heq, htt, _, _⟩ := shape_cons hts0
    subst heq
    simp only [parse_expression]
    rw [show curToken (PState.mk (t0 :: ts') errs) = t0 from rfl, htt,
      if_neg (show ¬ ¬ (prefix_parse_fn_exists x.1 = true)
        from fun hh => hh hpfx)]
    rw [parsePrefixF f f1 (t0 :: ts') (tokTTail tl ++ ρ) errs hts' hlit.1
      (by simp only [sizeT] at hfuel; omega)]
    obtain ⟨tl0, ts2, hdrop, hts2⟩ :=
      shape_drop_last (tokF f) (t0 :: ts') (tokTTail tl ++ ρ) hts'
        (tokF_ne_nil f)
    rw [hdrop]
    show parse_expression_loop f1 .SUM (astF f)
      (PState.mk (tl0 :: ts2) errs) = _
    rw [loopSum tl (astF f) f1 tl0 ts2 ρ errs hts2 hρ hlit.2
      (by simp only [sizeT] at hfuel; omega)]
    have hposF := tokLen_pos (tokF_ne_nil f)
    have hstate : (tl0 :: ts2).drop (tokTTail tl).length =
        (t0 :: ts').drop ((tokT (.mk f tl)).length - 1) := by
      rw [← hdrop, List.drop_drop]
      congr 1
      simp only [tokT, List.length_append]
      omega
    rw [hstate]
    rfl
termination_by 4 * sizeT t + 2
decreasing_by
all_goals simp_wf
all_goals try simp only [*, sizeF, sizeT, sizeTTail, sizeETail, sizeE]
all_goals omega

/-- Helper: the loop at `LOWEST` level folds first the remaining
multiplicative tail of the current term and then the additive tail,
stopping at the expression's continuation. -/
theorem loopMixed (ttl : TTail) (etl : ETail) (acc : Expression)
    (fuel : Nat) (tprev : Token) (ts : List Token)
    (ρ : List (TokenType × String)) (errs : List String)
    (hts : ts.map (fun t => (t.token_type, t.literal)) =
      (tokTTail ttl ++ tokETail etl) ++ ρ)
    (hρ : ∃ x ρ2, ρ = x :: ρ2 ∧ stopLow x.1)
    (hlitT : litsOkTTail ttl) (hlitE : litsOkETail etl)
    (hfuel : 8 * (sizeTTail ttl + sizeETail etl) + 2 ≤ fuel) :
    parse_expression_loop fuel .LOWEST acc (PState.mk (tprev :: ts) errs) =
      .done (some (astETail (astTTail acc ttl) etl))
        (PState.mk ((tprev :: ts).drop
          ((tokTTail ttl).length + (tokETail etl).length)) errs) := by
  obtain ⟨f1, rfl⟩ : ∃ f1, fuel = f1 + 1 := ⟨fuel - 1, by omega⟩
  cases ttl with
  | cons op f rest =>
    obtain ⟨f2, rfl⟩ : ∃ f2, f1 = f2 + 1 :=
      ⟨f1 - 1, by simp only [sizeTTail] at hfuel; omega⟩
    obtain ⟨f3, rfl⟩ : ∃ f3, f2 = f3 + 1 :=
      ⟨f2 - 1, by simp only [sizeTTail] at hfuel; omega⟩
    simp only [litsOkTTail] at hlitT
    simp only [tokTTail, List.cons_append, List.append_assoc] at hts
    obtain ⟨t0, ts', rfl, htt, hlitr, hts'⟩ := shape_cons hts
    simp only [parse_expression_loop]
    have hpeek : peekToken (PState.mk (tprev :: t0 :: ts') errs) = t0 := rfl
    have hsemi : peek_token_is (PState.mk (tprev :: t0 :: ts') errs)
        .Semicolon = false := by
      unfold peek_token_is
      rw [hpeek, htt]
      cases op <;> decide
    have hprec : precLt .LOWEST
        (peek_precedence (PState.mk (tprev :: t0 :: ts') errs)) = true := by
      unfold peek_precedence
      rw [hpeek, htt]
      cases op <;> decide
    rw [hsemi, hprec,
      if_pos (show (¬ (false = true)) ∧ (true = true) from by simp)]
    have hinf : infix_parse_fn_exists
        ((tokenTypeMOp op, renderMOp op)).1 = true := by
      cases op <;> rfl
    rw [hpeek, htt,
      if_neg (show ¬ ¬ (infix_parse_fn_exists
        ((tokenTypeMOp op, renderMOp op)).1 = true) from fun hh => hh hinf)]
    rw [show p_next_token (PState.mk (tprev :: t0 :: ts') errs) =
      PState.mk (t0 :: ts') errs from rfl]
    have hdisp : infix_dispatch (f3 + 1 + 1) acc
        (PState.mk (t0 :: ts') errs) =
        parse_infix_expression (f3 + 1) acc (PState.mk (t0 :: ts') errs) := by
      simp only [infix_dispatch]
      rw [show curToken (PState.mk (t0 :: ts') errs) = t0 from rfl, htt]
      cases op <;> rfl
    rw [hdisp]
    simp only [parse_infix_expression]
    have hcp : cur_precedence (PState.mk (t0 :: ts') errs) = .PRODUCT := by
      unfold cur_precedence
      rw [show curToken (PState.mk (t0 :: ts') errs) = t0 from rfl, htt]
      cases op <;> rfl
    have hop : t0.literal = renderMOp op := by rw [hlitr]
    rw [show curToken (PState.mk (t0 :: ts') errs) = t0 from rfl, hop, hcp]
    rw [show p_next_token (PState.mk (t0 :: ts') errs) =
      PState.mk ts' errs from rfl]
    have hρf : ∃ y ρ3, tokTTail rest ++ (tokETail etl ++ ρ) = y :: ρ3 ∧
        stopProd y.1 := by
      cases rest with
      | cons op2 f4 rest2 =>
        refine ⟨(tokenTypeMOp op2, renderMOp op2),
          (tokF f4 ++ tokTTail rest2) ++ (tokETail etl ++ ρ),
          by simp [tokTTail], ?_⟩
        cases op2
        · exact Or.inr (Or.inr (Or.inl rfl))
        · exact Or.inr (Or.inr (Or.inr (Or.inl rfl)))
      | nil =>
        cases etl with
        | cons aop t2 rst =>
          refine ⟨(tokenTypeAOp aop, renderAOp aop),
            (tokT t2 ++ tokETail rst) ++ ρ,
            by simp [tokTTail, tokETail], ?_⟩
          cases aop
          · exact Or.inl rfl
          · exact Or.inr (Or.inl rfl)
        | nil =>
          obtain ⟨x, ρ2, hx, hstop⟩ := hρ
          exact ⟨x, ρ2, by simp [tokTTail, tokETail, hx],
            stopSum_prod x.1 (stopLow_sum x.1 hstop)⟩
    rw [parseFprod f f3 ts' (tokTTail rest ++ (tokETail etl ++ ρ)) errs
      hts' hρf hlitT.1 (by simp only [sizeTTail] at hfuel; omega)]
    obtain ⟨tl2, ts2, hdrop, hts2⟩ :=
      shape_drop_last (tokF f) ts' (tokTTail rest ++ (tokETail etl ++ ρ))
        hts' (tokF_ne_nil f)
    rw [hdrop]
    show parse_expression_loop (f3 + 1 + 1) .LOWEST
      (.Infix acc (renderMOp op) (astF f)) (PState.mk (tl2 :: ts2) errs) = _
    have hts2' : ts2.map (fun t => (t.token_type, t.literal)) =
        (tokTTail rest ++ tokETail etl) ++ ρ := by
      rw [List.append_assoc]
      exact hts2
    rw [loopMixed rest etl (.Infix acc (renderMOp op) (astF f)) (f3 + 1 + 1)
      tl2 ts2 ρ errs hts2' hρ hlitT.2 hlitE
      (by simp only [sizeTTail] at hfuel; omega)]
    have hposF := tokLen_pos (tokF_ne_nil f)
    have hlen : (tokTTail (.cons op f rest)).length +
        (tokETail etl).length =
        ((((tokF f).length - 1) +
          ((tokTTail rest).length + (tokETail etl).length)) + 1) + 1 := by
      simp only [tokTTail, List.length_cons, List.length_append]
      omega
    have hstate : (tl2 :: ts2).drop
        ((tokTTail rest).length + (tokETail etl).length) =
        (tprev :: t0 :: ts').drop
          ((tokTTail (.cons op f rest)).length + (tokETail etl).length) := by
      rw [← hdrop, List.drop_drop, hlen, List.drop_succ_cons,
        List.drop_succ_cons]
    rw [hstate]
    rfl
  | nil =>
    cases etl with
    | nil =>
      obtain ⟨x, ρ2, rfl, hstop⟩ := hρ
      simp only [tokTTail, tokETail, List.nil_append] at hts
      obtain ⟨t0, ts', rfl, htt, _, _⟩ := shape_cons hts
      simp only [parse_expression_loop]
      have hpeek : peekToken (PState.mk (tprev :: t0 :: ts') errs) = t0 := rfl
      have hprec : precLt .LOWEST
          (peek_precedence (PState.mk (tprev :: t0 :: ts') errs)) =
          false := by
        unfold peek_precedence
        rw [hpeek, htt]
        exact stopLow_noLt x.1 hstop
      simp [hprec, astETail, astTTail, tokTTail, tokETail]
    | cons aop t rst =>
      obtain ⟨f2, rfl⟩ : ∃ f2, f1 = f2 + 1 :=
        ⟨f1 - 1, by simp only [sizeTTail, sizeETail] at hfuel; omega⟩
      obtain ⟨f3, rfl⟩ : ∃ f3, f2 = f3 + 1 :=
        ⟨f2 - 1, by simp only [sizeTTail, sizeETail] at hfuel; omega⟩
      simp only [litsOkETail] at hlitE
      simp only [tokTTail, tokETail, List.nil_append, List.cons_append,
        List.append_assoc] at hts
      obtain ⟨t0, ts', rfl, htt, hlitr, hts'⟩ := shape_cons hts
      simp only [parse_expression_loop]
      have hpeek : peekToken (PState.mk (tprev :: t0 :: ts') errs) = t0 :=
        rfl
      have hsemi : peek_token_is (PState.mk (tprev :: t0 :: ts') errs)
          .Semicolon = false := by
        unfold peek_token_is
        rw [hpeek, htt]
        cases aop <;> decide
      have hprec : precLt .LOWEST
          (peek_precedence (PState.mk (tprev :: t0 :: ts') errs)) =
          true := by
        unfold peek_precedence
        rw [hpeek, htt]
        cases aop <;> decide
      rw [hsemi, hprec,
        if_pos (show (¬ (false = true)) ∧ (true = true) from by simp)]
      have hinf : infix_parse_fn_exists
          ((tokenTypeAOp aop, renderAOp aop)).1 = true := by
        cases aop <;> rfl
      rw [hpeek, htt,
        if_neg (show ¬ ¬ (infix_parse_fn_exists
          ((tokenTypeAOp aop, renderAOp aop)).1 = true)
          from fun hh => hh hinf)]
      rw [show p_next_token (PState.mk (tprev :: t0 :: ts') errs) =
        PState.mk (t0 :: ts') errs from rfl]
      have hdisp : infix_dispatch (f3 + 1 + 1) acc
          (PState.mk (t0 :: ts') errs) =
          parse_infix_expression (f3 + 1) acc
            (PState.mk (t0 :: ts') errs) := by
        simp only [infix_dispatch]
        rw [show curToken (PState.mk (t0 :: ts') errs) = t0 from rfl, htt]
        cases aop <;> rfl
      rw [hdisp]
      simp only [parse_infix_expression]
      have hcp : cur_precedence (PState.mk (t0 :: ts') errs) = .SUM := by
        unfold cur_precedence
        rw [show curToken (PState.mk (t0 :: ts') errs) = t0 from rfl, htt]
        cases aop <;> rfl
      have hop : t0.literal = renderAOp aop := by rw [hlitr]
      rw [show curToken (PState.mk (t0 :: ts') errs) = t0 from rfl, hop, hcp]
      rw [show p_next_token (PState.mk (t0 :: ts') errs) =
        PState.mk ts' errs from rfl]
      have hρt : ∃ y ρ3, tokETail rst ++ ρ = y :: ρ3 ∧ stopSum y.1 := by
        cases rst with
        | cons aop2 t2 r2 =>
          refine ⟨(tokenTypeAOp aop2, renderAOp aop2),
            (tokT t2 ++ tokETail r2) ++ ρ, by simp [tokETail], ?_⟩
          cases aop2
          · exact Or.inl rfl
          · exact Or.inr (Or.inl rfl)
        | nil =>
          obtain ⟨x, ρ2, hx, hstop⟩ := hρ
          exact ⟨x, ρ2, by simp [tokETail, hx], stopLow_sum x.1 hstop⟩
      rw [parseT t f3 ts' (tokETail rst ++ ρ) errs hts' hρt hlitE.1
        (by simp only [sizeTTail, sizeETail] at hfuel; omega)]
      obtain ⟨tl2, ts2, hdrop, hts2⟩ :=
        shape_drop_last (tokT t) ts' (tokETail rst ++ ρ) hts'
          (tokT_ne_nil t)
      rw [hdrop]
      show parse_expression_loop (f3 + 1 + 1) .LOWEST
        (.Infix acc (renderAOp aop) (astT t))
        (PState.mk (tl2 :: ts2) errs) = _
      have hts2' : ts2.map (fun t => (t.token_type, t.literal)) =
          (tokTTail TTail.nil ++ tokETail rst) ++ ρ := by
        simp only [tokTTail, List.nil_append]
        exact hts2
      rw [loopMixed TTail.nil rst (.Infix acc (renderAOp aop) (astT t))
        (f3 + 1 + 1) tl2 ts2 ρ errs hts2' hρ
        (show litsOkTTail TTail.nil from trivial) hlitE.2
        (by simp only [sizeTTail, sizeETail] at hfuel ⊢; omega)]
      have hposT := tokLen_pos (tokT_ne_nil t)
      have hlen : (tokTTail TTail.nil).length +
          (tokETail (.cons aop t rst)).length =
          ((((tokT t).length - 1) + ((tokTTail TTail.nil).length +
            (tokETail rst).length)) + 1) + 1 := by
        simp only [tokTTail, tokETail, List.length_nil, List.length_cons,
          List.length_append]
        omega
      have hstate : (tl2 :: ts2).drop
          ((tokTTail TTail.nil).length + (tokETail rst).length) =
          (tprev :: t0 :: ts').drop ((tokTTail TTail.nil).length +
            (tokETail (.cons aop t rst)).length) := by
        rw [← hdrop, List.drop_drop, hlen, List.drop_succ_cons,
          List.drop_succ_cons]
      rw [hstate]
      rfl
termination_by 4 * (sizeTTail ttl + sizeETail etl) + 3
decreasing_by
all_goals simp_wf
all_goals try simp only [*, sizeF, sizeT, sizeTTail, sizeETail, sizeE]
all_goals omega

/-- Helper: `parse_expression` at `LOWEST` level parses one full
rendered arithmetic expression and builds its left-associated,
precedence-respecting AST. -/
theorem parseE (e : EExp) (fuel : Nat) (ts : List Token)
    (ρ : List (TokenType × String)) (errs : List String)
    (hts : ts.map (fun tk => (tk.token_type, tk.literal)) = tokE e ++ ρ)
    (hρ : ∃ x ρ2, ρ = x :: ρ2 ∧ stopLow x.1)
    (hlit : litsOkE e)
    (hfuel : 8 * sizeE e + 3 ≤ fuel) :
    parse_expression fuel .LOWEST (PState.mk ts errs) =
      .done (some (astE e))
        (PState.mk (ts.drop ((tokE e).length - 1)) errs) := by
  obtain ⟨f1, rfl⟩ : ∃ f1, fuel = f1 + 1 := ⟨fuel - 1, by omega⟩
  cases e with
  | mk t etl =>
    cases t with
    | mk f ttl =>
      simp only [litsOkE, litsOkT] at hlit
      have hts' : ts.map (fun tk => (tk.token_type, tk.literal)) =
          tokF f ++ ((tokTTail ttl ++ tokETail etl) ++ ρ) := by
        rw [hts]
        simp only [tokE, tokT, List.append_assoc]
      obtain ⟨x, σf, htokf, hpfx⟩ := tokF_head f
      have hts0 := hts'
      rw [htokf, List.cons_append] at hts0
      obtain ⟨t0, ts', heq, htt, _, _⟩ := shape_cons hts0
      subst heq
      simp only [parse_expression]
      rw [show curToken (PState.mk (t0 :: ts') errs) = t0 from rfl, htt,
        if_neg (show ¬ ¬ (prefix_parse_fn_exists x.1 = true)
          from fun hh => hh hpfx)]
      rw [parsePrefixF f f1 (t0 :: ts')
        ((tokTTail ttl ++ tokETail etl) ++ ρ) errs hts' hlit.1.1
        (by simp only [sizeE, sizeT] at hfuel; omega)]
      obtain ⟨tl0, ts2, hdrop, hts2⟩ :=
        shape_drop_last (tokF f) (t0 :: ts')
          ((tokTTail ttl ++ tokETail etl) ++ ρ) hts' (tokF_ne_nil f)
      rw [hdrop]
      show parse_expression_loop f1 .LOWEST (astF f)
        (PState.mk (tl0 :: ts2) errs) = _
      rw [loopMixed ttl etl (astF f) f1 tl0 ts2 ρ errs hts2 hρ hlit.1.2
        hlit.2 (by simp only [sizeE, sizeT] at hfuel; omega)]
      have hposF := tokLen_pos (tokF_ne_nil f)
      have hstate : (tl0 :: ts2).drop
          ((tokTTail ttl).length + (tokETail etl).length) =
          (t0 :: ts').drop ((tokE (.mk (.mk f ttl) etl)).length - 1) := by
        rw [← hdrop, List.drop_drop]
        congr 1
        simp only [tokE, tokT, List.length_append]
        omega
      rw [hstate]
      rfl
termination_by 4 * sizeE e + 3
decreasing_by
all_goals simp_wf
all_goals try simp only [*, sizeF, sizeT, sizeTTail, sizeETail, sizeE]
all_goals omega

end

/-- Helper: the first token of a rendered expression is an integer
literal or an opening parenthesis. -/
theorem tokE_head_shape (e : EExp) :
    ∃ x σ, tokE e = x :: σ ∧ (x.1 = TokenType.Int ∨ x.1 = .LParen) := by
  cases e with
  | mk t etl =>
    cases t with
    | mk f ttl =>
      cases f with
      | num n =>
        exact ⟨(.Int, String.mk (natDigits n)),
          tokTTail ttl ++ tokETail etl,
          by simp [tokE, tokT, tokF], Or.inl rfl⟩
      | paren e2 =>
        exact ⟨(.LParen, "("),
          tokE e2 ++ ((.RParen, ")") :: (tokTTail ttl ++ tokETail etl)),
          by simp [tokE, tokT, tokF], Or.inr rfl⟩

/-- Helper: the statement dispatch of `parse_program` over a rendered
expression contains exactly one expression statement holding the
expected AST, and stops at the end-of-file token. -/
theorem parse_program_renderE (e : EExp) (fuel : Nat) (ts : List Token)
    (hts : ts.map (fun t => (t.token_type, t.literal)) =
      tokE e ++ [(.Eof, "")])
    (hlit : litsOkE e)
    (hfuel : 8 * sizeE e + 8 ≤ fuel) :
    ∃ tEof, parse_program fuel (PState.mk ts []) =
      .done (some [.ExpressionStatement (astE e)])
        (PState.mk [tEof] []) := by
  obtain ⟨F1, rfl⟩ : ∃ F1, fuel = F1 + 1 := ⟨fuel - 1, by omega⟩
  obtain ⟨x, σ, htokE, hx⟩ := tokE_head_shape e
  have hts0 := hts
  rw [htokE, List.cons_append] at hts0
  obtain ⟨t0, ts', heq, htt, _, _⟩ := shape_cons hts0
  subst heq
  obtain ⟨tl, ts2, hdrop, hts2⟩ :=
    shape_drop_last (tokE e) (t0 :: ts') [(.Eof, "")] hts (tokE_ne_nil e)
  obtain ⟨teof, ts3, heq2, hteof, _, hts3⟩ := shape_cons hts2
  have h3 : ts3 = [] := List.map_eq_nil.mp hts3
  subst h3
  subst heq2
  refine ⟨teof, ?_⟩
  simp only [parse_program]
  have hcur : cur_token_is (PState.mk (t0 :: ts') []) .Eof = false := by
    unfold cur_token_is
    rw [show curToken (PState.mk (t0 :: ts') []) = t0 from rfl, htt]
    rcases hx with h | h <;> rw [h] <;> rfl
  rw [hcur, if_neg (show ¬ (false = true) from by simp)]
  obtain ⟨F2, rfl⟩ : ∃ F2, F1 = F2 + 1 := ⟨F1 - 1, by omega⟩
  have hdisp : parse_statement (F2 + 1) (PState.mk (t0 :: ts') []) =
      parse_expression_statement F2 (PState.mk (t0 :: ts') []) := by
    simp only [parse_statement]
    rw [show curToken (PState.mk (t0 :: ts') []) = t0 from rfl, htt]
    rcases hx with h | h <;> rw [h] <;> rfl
  rw [hdisp]
  obtain ⟨F3, rfl⟩ : ∃ F3, F2 = F3 + 1 := ⟨F2 - 1, by omega⟩
  have hsemi : peek_token_is (PState.mk (tl :: teof :: []) [])
      .Semicolon = false := by
    unfold peek_token_is
    rw [show peekToken (PState.mk (tl :: teof :: []) []) = teof from rfl,
      hteof]
    rfl
  have hexp : parse_expression_statement (F3 + 1)
      (PState.mk (t0 :: ts') []) =
      .done (some (.ExpressionStatement (astE e)))
        (PState.mk (tl :: teof :: []) []) := by
    simp only [parse_expression_statement]
    rw [parseE e F3 (t0 :: ts') [(.Eof, "")] [] hts
      ⟨(.Eof, ""), [], rfl, Or.inr rfl⟩ hlit (by omega)]
    rw [hdrop]
    simp [hsemi]
  rw [hexp]
  have hrec : parse_program (F3 + 1 + 1)
      (p_next_token (PState.mk (tl :: teof :: []) [])) =
      .done (some []) (PState.mk (teof :: []) []) := by
    rw [show p_next_token (PState.mk (tl :: teof :: []) []) =
      PState.mk (teof :: []) [] from rfl]
    simp only [parse_program]
    have hcur2 : cur_token_is (PState.mk (teof :: []) []) .Eof = true := by
      unfold cur_token_is
      rw [show curToken (PState.mk (teof :: []) []) = teof from rfl, hteof]
      rfl
    rw [hcur2, if_pos rfl]
  simp only [hrec]

/-- Helper: the multiplicative-operator arm of `eval_infix_expression`
realises `applyMOp` on integer operands. -/
theorem applyMOpStep (op : MOp) (a b r : Int)
    (h : applyMOp op a b = some r) :
    eval_infix_expression (renderMOp op) (.Integer a) (.Integer b) =
      .ok (.Integer r) := by
  cases op with
  | times =>
    simp only [applyMOp, Option.some.injEq] at h
    subst h
    rfl
  | divide =>
    simp only [applyMOp] at h
    by_cases hb : b = 0
    · rw [if_pos hb] at h
      cases h
    · rw [if_neg hb] at h
      simp only [Option.some.injEq] at h
      subst h
      show (if b = 0 then (Except.error "attempt to divide by zero" :
          Except String Object)
        else Except.ok (Object.Integer (Int.tdiv a b))) =
        Except.ok (Object.Integer (Int.tdiv a b))
      rw [if_neg hb]

/-- Helper: the additive-operator arm of `eval_infix_expression`
realises `applyAOp` on integer operands. -/
theorem applyAOpStep (op : AOp) (a b : Int) :
    eval_infix_expression (renderAOp op) (.Integer a) (.Integer b) =
      .ok (.Integer (applyAOp op a b)) := by
  cases op <;> rfl

/-- Helper: evaluating an `Infix` node over integer-valued operand
expressions that do not disturb the environment. -/
theorem eval_infix_int (g : Nat) (le re : Expression) (opS : String)
    (l r : Int) (out : Object) (env : Environment)
    (hl : eval_expression g le env = .ok (.Integer l) env)
    (hr : eval_expression g re env = .ok (.Integer r) env)
    (hop : eval_infix_expression opS (.Integer l) (.Integer r) = .ok out) :
    eval_expression (g + 1) (.Infix le opS re) env = .ok out env := by
  simp only [eval_expression]
  rw [hl]
  simp [is_error]
  rw [hr]
  simp [is_error]
  rw [hop]

mutual

/-- Helper: evaluating the AST of an atom yields its denotation and
leaves the environment unchanged. -/
theorem evalF (f : FExp) (v : Int) (hdeno : denoF f = some v) :
    ∀ (g : Nat) (env : Environment), 2 * sizeF f ≤ g →
      eval_expression g (astF f) env = .ok (.Integer v) env := by
  cases f with
  | num n =>
    intro g env hg
    obtain ⟨g1, rfl⟩ : ∃ g1, g = g1 + 1 :=
      ⟨g - 1, by simp only [sizeF] at hg; omega⟩
    simp only [denoF, Option.some.injEq] at hdeno
    subst hdeno
    rfl
  | paren e =>
    intro g env hg
    show eval_expression g (astE e) env = .ok (.Integer v) env
    exact evalE e v hdeno g env (by simp only [sizeF] at hg; omega)
termination_by 3 * sizeF f
decreasing_by
all_goals simp_wf
all_goals try simp only [*, sizeF, sizeT, sizeTTail, sizeETail, sizeE]
all_goals omega

/-- Helper: folding a multiplicative tail over an integer-valued
accumulator expression evaluates to the folded denotation. -/
theorem evalTTail (tl : TTail) (acc v : Int) (accE : Expression) (b : Nat)
    (hacc : ∀ g env, b ≤ g →
      eval_expression g accE env = .ok (.Integer acc) env)
    (hdeno : denoTTail acc tl = some v) :
    ∀ (g : Nat) (env : Environment), b + 2 * sizeTTail tl ≤ g →
      eval_expression g (astTTail accE tl) env = .ok (.Integer v) env := by
  cases tl with
  | nil =>
    intro g env hg
    simp only [denoTTail, Option.some.injEq] at hdeno
    subst hdeno
    exact hacc g env (by simp only [sizeTTail] at hg; omega)
  | cons op f rest =>
    intro g env hg
    simp only [denoTTail] at hdeno
    cases hdf : denoF f with
    | none =>
      simp only [hdf] at hdeno
      exact Option.noConfusion hdeno
    | some vf =>
      simp only [hdf] at hdeno
      cases hap : applyMOp op acc vf with
      | none =>
        simp only [hap] at hdeno
        exact Option.noConfusion hdeno
      | some r =>
        simp only [hap] at hdeno
        have hacc2 : ∀ g2 env2, b + 2 * sizeF f + 1 ≤ g2 →
            eval_expression g2 (.Infix accE (renderMOp op) (astF f)) env2 =
              .ok (.Integer r) env2 := by
          intro g2 env2 hg2
          obtain ⟨g3, rfl⟩ : ∃ g3, g2 = g3 + 1 := ⟨g2 - 1, by omega⟩
          exact eval_infix_int g3 accE (astF f) (renderMOp op) acc vf
            (.Integer r) env2
            (hacc g3 env2 (by omega))
            (evalF f vf hdf g3 env2 (by omega))
            (applyMOpStep op acc vf r hap)
        exact evalTTail rest r v (.Infix accE (renderMOp op) (astF f))
          (b + 2 * sizeF f + 1) hacc2 hdeno g env
          (by simp only [sizeTTail] at hg; omega)
termination_by 3 * sizeTTail tl + 1
decreasing_by
all_goals simp_wf
all_goals try simp only [*, sizeF, sizeT, sizeTTail, sizeETail, sizeE]
all_goals omega

/-- Helper: evaluating the AST of a term yields its denotation. -/
theorem evalT (t : TExp) (v : Int) (hdeno : denoT t = some v) :
    ∀ (g : Nat) (env : Environment), 2 * sizeT t ≤ g →
      eval_expression g (astT t) env = .ok (.Integer v) env := by
  cases t with
  | mk f tl =>
    intro g env hg
    simp only [denoT] at hdeno
    cases hdf : denoF f with
    | none =>
      simp only [hdf] at hdeno
      exact Option.noConfusion hdeno
    | some v0 =>
      simp only [hdf] at hdeno
      show eval_expression g (astTTail (astF f) tl) env =
        .ok (.Integer v) env
      exact evalTTail tl v0 v (astF f) (2 * sizeF f) (evalF f v0 hdf)
        hdeno g env (by simp only [sizeT] at hg; omega)
termination_by 3 * sizeT t
decreasing_by
all_goals simp_wf
all_goals try simp only [*, sizeF, sizeT, sizeTTail, sizeETail, sizeE]
all_goals omega

/-- Helper: folding an additive tail over an integer-valued accumulator
expression evaluates to the folded denotation. -/
theorem evalETail (etl : ETail) (acc v : Int) (accE : Expression) (b : Nat)
    (hacc : ∀ g env, b ≤ g →
      eval_expression g accE env = .ok (.Integer acc) env)
    (hdeno : denoETail acc etl = some v) :
    ∀ (g : Nat) (env : Environment), b + 2 * sizeETail etl ≤ g →
      eval_expression g (astETail accE etl) env = .ok (.Integer v) env := by
  cases etl with
  | nil =>
    intro g env hg
    simp only [denoETail, Option.some.injEq] at hdeno
    subst hdeno
    exact hacc g env (by simp only [sizeETail] at hg; omega)
  | cons op t rst =>
    intro g env hg
    simp only [denoETail] at hdeno
    cases hdt : denoT t with
    | none =>
      simp only [hdt] at hdeno
      exact Option.noConfusion hdeno
    | some vt =>
      simp only [hdt] at hdeno
      have hacc2 : ∀ g2 env2, b + 2 * sizeT t + 1 ≤ g2 →
          eval_expression g2 (.Infix accE (renderAOp op) (astT t)) env2 =
            .ok (.Integer (applyAOp op acc vt)) env2 := by
        intro g2 env2 hg2
        obtain ⟨g3, rfl⟩ : ∃ g3, g2 = g3 + 1 := ⟨g2 - 1, by omega⟩
        exact eval_infix_int g3 accE (astT t) (renderAOp op) acc vt
          (.Integer (applyAOp op acc vt)) env2
          (hacc g3 env2 (by omega))
          (evalT t vt hdt g3 env2 (by omega))
          (applyAOpStep op acc vt)
      exact evalETail rst (applyAOp op acc vt) v
        (.Infix accE (renderAOp op) (astT t)) (b + 2 * sizeT t + 1)
        hacc2 hdeno g env (by simp only [sizeETail] at hg; omega)
termination_by 3 * sizeETail etl + 1
decreasing_by
all_goals simp_wf
all_goals try simp only [*, sizeF, sizeT, sizeTTail, sizeETail, sizeE]
all_goals omega

/-- Helper: evaluating the AST of a rendered arithmetic expression
yields its standard denotation and leaves the environment unchanged. -/
theorem evalE (e : EExp) (v : Int) (hdeno : denoE e = some v) :
    ∀ (g : Nat) (env : Environment), 2 * sizeE e ≤ g →
      eval_expression g (astE e) env = .ok (.Integer v) env := by
  cases e with
  | mk t etl =>
    intro g env hg
    simp only [denoE] at hdeno
    cases hdt : denoT t with
    | none =>
      simp only [hdt] at hdeno
      exact Option.noConfusion hdeno
    | some v0 =>
      simp only [hdt] at hdeno
      show eval_expression g (astETail (astT t) etl) env =
        .ok (.Integer v) env
      exact evalETail etl v0 v (astT t) (2 * sizeT t) (evalT t v0 hdt)
        hdeno g env (by simp only [sizeE] at hg; omega)
termination_by 3 * sizeE e
decreasing_by
all_goals simp_wf
all_goals try simp only [*, sizeF, sizeT, sizeTTail, sizeETail, sizeE]
all_goals omega

end

/-- Helper: running the one-statement program of a rendered arithmetic
expression through the top-level `eval` produces the denotation as an
`Integer` object (`format_boolean` is the identity on integers). -/
theorem eval_renderE_program (e : EExp) (v : Int) (efuel : Nat)
    (env : Environment)
    (hdeno : denoE e = some v) (hfuel : 2 * sizeE e + 1 ≤ efuel) :
    eval efuel [.ExpressionStatement (astE e)] env =
      .ok (.Integer v) env := by
  obtain ⟨g, rfl⟩ : ∃ g, efuel = g + 1 := ⟨efuel - 1, by omega⟩
  unfold eval
  simp only [evalGo]
  have hst : eval_statement (g + 1) (.ExpressionStatement (astE e)) env =
      .ok (.Integer v) env := by
    simp only [eval_statement]
    exact evalE e v hdeno g env (by omega)
  rw [hst]
  rfl

/-- C4: for every arithmetic expression over integer literals, `+ - * /`
and parentheses (rendered with the spec's spacing), whose standard
left-associative, precedence-respecting denotation is defined and whose
literals fit in `i64`, the lex-parse-evaluate pipeline returns exactly
that denotation as an `Integer` value, given ample fuel. -/
theorem c4_arith_precedence (e : EExp) (v : Int) (pfuel efuel : Nat)
    (hdeno : denoE e = some v) (hlit : litsOkE e)
    (hpf : 8 * sizeE e + 8 ≤ pfuel) (hef : 2 * sizeE e + 1 ≤ efuel) :
    run_source pfuel efuel (renderE e) = .value (.Integer v) := by
  obtain ⟨tEof, hpp⟩ := parse_program_renderE e pfuel
    (tokenize (renderE e).data) (tokenize_renderE e) hlit hpf
  unfold run_source
  rw [hpp]
  simp only [Option.getD_some]
  rw [eval_renderE_program e v efuel environmentNew hdeno hef]
  rfl

/-- C4 (witness): the two spec instances, `"2 + 3 * 4"` evaluating to
`14` and `"(2 + 3) * 4"` evaluating to `20`. -/
theorem c4_witness :
    run_source 100 40 "2 + 3 * 4" = .value (.Integer 14) ∧
    run_source 100 40 "(2 + 3) * 4" = .value (.Integer 20) := by
  constructor
  · have h := c4_arith_precedence
      (.mk (.mk (.num 2) .nil)
        (.cons .plus (.mk (.num 3) (.cons .times (.num 4) .nil)) .nil))
      14 100 40 rfl
      (⟨⟨(by decide : (2 : Nat) ≤ 2 ^ 63 - 1), trivial⟩,
        ⟨⟨(by decide : (3 : Nat) ≤ 2 ^ 63 - 1),
          ⟨(by decide : (4 : Nat) ≤ 2 ^ 63 - 1), trivial⟩⟩, trivial⟩⟩)
      (by decide) (by decide)
    rw [show renderE (.mk (.mk (.num 2) .nil)
      (.cons .plus (.mk (.num 3) (.cons .times (.num 4) .nil)) .nil)) =
      "2 + 3 * 4" from rfl] at h
    exact h
  · have h := c4_arith_precedence
      (.mk (.mk (.paren (.mk (.mk (.num 2) .nil)
        (.cons .plus (.mk (.num 3) .nil) .nil)))
        (.cons .times (.num 4) .nil)) .nil)
      20 100 40 rfl
      (⟨⟨⟨⟨(by decide : (2 : Nat) ≤ 2 ^ 63 - 1), trivial⟩,
        ⟨⟨(by decide : (3 : Nat) ≤ 2 ^ 63 - 1), trivial⟩, trivial⟩⟩,
        ⟨(by decide : (4 : Nat) ≤ 2 ^ 63 - 1), trivial⟩⟩, trivial⟩)
      (by decide) (by decide)
    rw [show renderE (.mk (.mk (.paren (.mk (.mk (.num 2) .nil)
      (.cons .plus (.mk (.num 3) .nil) .nil)))
      (.cons .times (.num 4) .nil)) .nil) =
      "(2 + 3) * 4" from rfl] at h
    exact h

/-- C6 (amended, witness): the concrete instance `"a b"`. -/
theorem c6_amended_witness :
    tokenize (['a'] ++ [' '] ++ ['b']) =
      tokenize_plain (['a'] ++ [' '] ++ ['b']) ∧
    (tokenize (['a'] ++ [' '] ++ ['b'])).map
        (fun t => (t.token_type, t.literal)) =
      [(.Ident, String.mk ['a']), (.Ident, String.mk ['b']), (.Eof, "")] :=
  c6_amended_rewind_equiv ['a'] [' '] ['b'] (by decide) (by decide)
    (by decide) (by decide) (by decide) (by decide) rfl rfl rfl

end BPlus
